import Mathlib

/-!
# Type resolver and model builder of the go-swagger generator

A shallow embedding of `generator/types.go`, the schema type resolver, and of
`generator/model.go`, the model builder that consults it for every property, followed
by theorems about their behaviour.

Conventions of the embedding.

* Go maps (`Extensions`, `Properties`, `typeMapping`, `PropertyTypes`, the `props` of
  `makeCodegenModel`) are association lists read with `List.lookup` and written with
  `mapSet`; a Go map has distinct keys, and a `range` over a map visits the entries in
  the order of the list.
* A Go pointer that may be nil is an `Option`; a `float64` is the rational it denotes.
* A Go function returning `(result, err)` returns a `Res`: callers in the source test
  `err` before they look at `result`, so an error carries no result. A failed unchecked
  type assertion is `Res.panic`.
* `ResolveSchema` is recursive through reference targets and `makeCodegenModel` through
  the definitions that `allOf` branches name, which is not structural; they and
  `makeGenModelProperty` take a `fuel : Nat` bounding the depth of nested calls and
  answer `Res.outOfFuel` when the bound is reached. An answer other than
  `Res.outOfFuel` is the same with any larger fuel (`ResolveSchema_mono`,
  `makeGenModelProperty_mono`, `makeCodegenModel_mono`).
* Functions of other packages (`spec.ResolveRef`, `swag.ToGoName`, `swag.ToJSONName`,
  `filepath.Base`, ...) and `commentedLines` are fields of `Externals`; theorems quantify
  over them, and `localExternals` is the instance on which concrete documents are
  evaluated. The type `sharedParam` and the function `makeGenValidations`, whose file is
  not among the sources, are modelled from the specification.
-/

namespace Generator

/-! ## Input data: JSON values, references, schemas -/

/-- A value of Go type `interface{}` obtained by decoding JSON: the dynamic type is one
of nil, bool, float64, string, slice and map. -/
inductive JSONValue where
  | null
  | bool (b : Bool)
  | number (q : ℚ)
  | string (s : String)
  | array (xs : List JSONValue)
  | object (kvs : List (String × JSONValue))

/-- The URL of a parsed reference (`schema.Ref.GetURL()`): the part before `#` and the
fragment after it. -/
structure URL where
  Location : String := ""
  Fragment : String := ""

/-- XML metadata of a schema (`spec.XMLObject`), the fields the generator reads. -/
structure XMLObject where
  Name : String := ""
  Attribute : Bool := false

/-- The type `spec.SchemaOrArray` (the `items` of a schema): a single schema or a list
of schemas. The parameter is the schema type itself. -/
structure SchemaOrArrayOf (σ : Type) where
  Schema : Option σ := none
  Schemas : List σ := []

/-- The type `spec.SchemaOrBool` (`additionalItems`, `additionalProperties`): a
boolean or a schema. The parameter is the schema type itself. -/
structure SchemaOrBoolOf (σ : Type) where
  Allows : Bool := false
  Schema : Option σ := none

/-- A schema node (`spec.Schema`), the fields the generator reads. `Type_` is the
field `Type`. -/
structure Schema where
  Ref : Option URL
  Type_ : List String
  Format : String
  Extensions : List (String × JSONValue)
  Items : Option (SchemaOrArrayOf Schema)
  AdditionalItems : Option (SchemaOrBoolOf Schema)
  Properties : List (String × Schema)
  AdditionalProperties : Option (SchemaOrBoolOf Schema)
  AllOf : List Schema
  Required : List String
  Title : String
  Description : String
  Default : Option JSONValue
  Example : Option JSONValue
  Maximum : Option ℚ
  ExclusiveMaximum : Bool
  Minimum : Option ℚ
  ExclusiveMinimum : Bool
  MaxLength : Option Int
  MinLength : Option Int
  Pattern : String
  MaxItems : Option Int
  MinItems : Option Int
  UniqueItems : Bool
  MultipleOf : Option ℚ
  Enum : List JSONValue
  XML : Option XMLObject

/-- The zero value `spec.Schema{}`. -/
def Schema.zero : Schema where
  Ref := none
  Type_ := []
  Format := ""
  Extensions := []
  Items := none
  AdditionalItems := none
  Properties := []
  AdditionalProperties := none
  AllOf := []
  Required := []
  Title := ""
  Description := ""
  Default := none
  Example := none
  Maximum := none
  ExclusiveMaximum := false
  Minimum := none
  ExclusiveMinimum := false
  MaxLength := none
  MinLength := none
  Pattern := ""
  MaxItems := none
  MinItems := none
  UniqueItems := false
  MultipleOf := none
  Enum := []
  XML := none

abbrev SchemaOrArray := SchemaOrArrayOf Schema

abbrev SchemaOrBool := SchemaOrBoolOf Schema

/-- The document behind a `typeResolver` (`spec.Document`): its named definitions. -/
structure Document where
  Definitions : List (String × Schema)

/-- The functions of other packages that the two source files call. -/
structure Externals where
  /-- The function `spec.ResolveRef(doc.Spec(), &ref)`: the referenced schema, or an
  error when the reference is not found -/
  ResolveRef : Document → URL → Except String Schema
  /-- The function `swag.ToGoName` -/
  ToGoName : String → String
  /-- The function `swag.ToJSONName` -/
  ToJSONName : String → String
  /-- The function `filepath.Base` -/
  Base : String → String
  /-- The function `swag.ToHumanNameLower` -/
  ToHumanNameLower : String → String
  /-- The call `fmt.Sprintf("%#v", v)`: the Go syntax of a value -/
  FormatGoSyntax : JSONValue → String
  /-- The function `strings.TrimSpace` -/
  TrimSpace : String → String
  /-- The function `commentedLines` of the package, whose file is not among the
  sources: a text as comment lines -/
  commentedLines : String → String

/-! ## Results -/

/-- The errors `ResolveSchema` returns: the error of `spec.ResolveRef`, passed on, and
`fmt.Errorf("unresolvable: %v (format %q)", schema.Type, schema.Format)`. -/
inductive ResolveError where
  | reference (msg : String)
  | unresolvable (tpe : List String) (format : String)

/-- Outcome of a call: a result, a returned error, a run-time panic (a failed
unchecked type assertion) or exhaustion of the recursion bound. -/
inductive Res (α : Type) where
  | ok (a : α)
  | error (e : ResolveError)
  | panic
  | outOfFuel

/-- Sequencing of fallible steps: the first step that does not produce a result ends
the call. -/
def Res.bind {α β : Type} (r : Res α) (f : α → Res β) : Res β :=
  match r with
  | .ok a => f a
  | .error e => .error e
  | .panic => .panic
  | .outOfFuel => .outOfFuel

/-- A loop `for _, x := range xs` that calls `f x`, returns at the first failure and
otherwise appends the result. -/
def Res.mapList {α β : Type} (f : α → Res β) : List α → Res (List β)
  | [] => .ok []
  | x :: xs => (f x).bind fun y => (Res.mapList f xs).bind fun ys => .ok (y :: ys)

/-- The call returned a result (`err == nil`). -/
def Res.isOk {α : Type} : Res α → Bool
  | .ok _ => true
  | _ => false

/-- The call returned an error (`err != nil`). -/
def Res.isError {α : Type} : Res α → Bool
  | .error _ => true
  | _ => false

/-- A resolved type (`resolvedType`). -/
structure resolvedType where
  IsAnonymous : Bool
  IsArray : Bool
  IsMap : Bool
  IsInterface : Bool
  IsPrimitive : Bool
  IsNullable : Bool
  IsTuple : Bool
  HasAdditionalItems : Bool
  IsComplexObject : Bool
  GoType : String
  SwaggerType : String
  SwaggerFormat : String
  ElementType : Option resolvedType
  TupleTypes : List resolvedType
  AdditionalItems : Option resolvedType
  PropertyTypes : List (String × resolvedType)

/-- The zero value of `resolvedType`, with which every named result starts. -/
def resolvedType.zero : resolvedType where
  IsAnonymous := false
  IsArray := false
  IsMap := false
  IsInterface := false
  IsPrimitive := false
  IsNullable := false
  IsTuple := false
  HasAdditionalItems := false
  IsComplexObject := false
  GoType := ""
  SwaggerType := ""
  SwaggerFormat := ""
  ElementType := none
  TupleTypes := []
  AdditionalItems := none
  PropertyTypes := []

/-- The resolver (`typeResolver`). -/
structure typeResolver where
  Doc : Document
  ModelsPackage : String

/-! ## The tables and helpers of `types.go` -/

/-- The table `typeMapping`: a format or type name and its Go type. -/
def typeMapping : List (String × String) :=
  [ ("byte", "strfmt.Base64"),
    ("date", "strfmt.Date"),
    ("datetime", "strfmt.DateTime"),
    ("uri", "strfmt.URI"),
    ("email", "strfmt.Email"),
    ("hostname", "strfmt.Hostname"),
    ("ipv4", "strfmt.IPv4"),
    ("ipv6", "strfmt.IPv6"),
    ("uuid", "strfmt.UUID"),
    ("uuid3", "strfmt.UUID3"),
    ("uuid4", "strfmt.UUID4"),
    ("uuid5", "strfmt.UUID5"),
    ("isbn", "strfmt.ISBN"),
    ("isbn10", "strfmt.ISBN10"),
    ("isbn13", "strfmt.ISBN13"),
    ("creditcard", "strfmt.CreditCard"),
    ("ssn", "strfmt.SSN"),
    ("hexcolor", "strfmt.HexColor"),
    ("rgbcolor", "strfmt.RGBColor"),
    ("duration", "strfmt.Duration"),
    ("password", "strfmt.Password"),
    ("char", "rune"),
    ("int", "int64"),
    ("int8", "int8"),
    ("int16", "int16"),
    ("int32", "int32"),
    ("int64", "int64"),
    ("uint", "uint64"),
    ("uint8", "uint8"),
    ("uint16", "uint16"),
    ("uint32", "uint32"),
    ("uint64", "uint64"),
    ("float", "float32"),
    ("double", "float64"),
    ("number", "float64"),
    ("integer", "int64"),
    ("boolean", "bool"),
    ("file", "httpkit.File") ]

/-- The call `strings.Replace(s, "-", "", -1)`: every hyphen removed. -/
def removeHyphens (s : String) : String :=
  String.mk (s.data.filter fun c => c != '-')

/-- The method `StringOrArray.Contains`: some declared type equals `value`. -/
def Contains (types : List String) (value : String) : Bool :=
  types.any fun str => decide (str = value)

/-- The method `typeResolver.isNullable`. The comma-ok assertion `.(bool)` succeeds
when the extension is present with dynamic type bool; its value is discarded. -/
def isNullable (schema : Schema) : Bool :=
  let ok : Bool :=
    match schema.Extensions.lookup "x-isnullable" with
    | some (JSONValue.bool _) => true
    | _ => false
  Contains schema.Type_ "object" || ok

/-- The method `typeResolver.firstType`. -/
def firstType (schema : Schema) : String :=
  match schema.Type_ with
  | [] => "object"
  | tpe :: _ => if tpe = "" then "object" else tpe

/-- The method `typeResolver.resolveFormat`; `none` is `returns = false`. Its `err` is
always nil. -/
def resolveFormat (schema : Schema) : Option (Res resolvedType) :=
  if schema.Format ≠ "" then
    match typeMapping.lookup (removeHyphens schema.Format) with
    | some tpe =>
      some (Res.ok
        { resolvedType.zero with
          SwaggerType := match schema.Type_ with
            | [] => "string"
            | first :: _ => first
          SwaggerFormat := schema.Format
          GoType := tpe
          IsPrimitive := true
          IsNullable := isNullable schema })
    | none => none
  else none

/-- The name `tn` computed in `resolveSchemaRef`: the `x-go-name` extension of the
target, asserted to be a string without a check (a panic otherwise), or the Go name of
the last segment of the fragment. -/
def refTypeName (x : Externals) (ref : Schema) (url : URL) : Res String :=
  match ref.Extensions.lookup "x-go-name" with
  | some (JSONValue.string gn) => Res.ok gn
  | some _ => Res.panic
  | none => Res.ok (x.ToGoName (x.Base url.Fragment))

/-- The method `typeResolver.resolveSchemaRef`; `none` is `returns = false`, and
`resolve` is the recursive call of `ResolveSchema`. In the branch of a target that is
not an object the assignment `result, err = t.ResolveSchema(ref, true)` replaces the
whole result. -/
def resolveSchemaRef (x : Externals) (t : typeResolver)
    (resolve : Option Schema → Bool → Res resolvedType) (schema : Schema) :
    Option (Res resolvedType) :=
  match schema.Ref with
  | none => none
  | some url =>
    some <|
      match x.ResolveRef t.Doc url with
      | Except.error er => Res.error (ResolveError.reference er)
      | Except.ok ref =>
        (refTypeName x ref url).bind fun tn =>
          let result : resolvedType :=
            { resolvedType.zero with IsNullable := isNullable ref, IsAnonymous := false }
          if Contains ref.Type_ "object" then
            Res.ok { result with
              GoType := t.ModelsPackage ++ "." ++ tn
              SwaggerType := "object"
              IsComplexObject := true }
          else
            resolve (some ref) true

/-- The element type of an array without items and of an open map:
`&resolvedType{IsInterface: true, GoType: "interface{}"}`. -/
def interfaceType : resolvedType :=
  { resolvedType.zero with IsInterface := true, GoType := "interface\x7b\x7d" }

/-- The first part of `resolveArray`: the additional items. -/
def resolveAdditionalItems (resolve : Option Schema → Bool → Res resolvedType)
    (schema : Schema) (result : resolvedType) : Res resolvedType :=
  match schema.AdditionalItems with
  | none => Res.ok result
  | some ai =>
    if ai.Allows || ai.Schema.isSome then
      (resolve ai.Schema true).bind fun rs =>
        Res.ok { result with HasAdditionalItems := true, AdditionalItems := some rs }
    else Res.ok result

/-- The method `typeResolver.resolveArray`. -/
def resolveArray (resolve : Option Schema → Bool → Res resolvedType) (schema : Schema) :
    Res resolvedType :=
  let result : resolvedType := { resolvedType.zero with IsArray := true, IsNullable := false }
  (resolveAdditionalItems resolve schema result).bind fun result =>
    match schema.Items with
    | none =>
      Res.ok { result with
        GoType := "[]interface\x7b\x7d"
        SwaggerType := "array"
        ElementType := some interfaceType }
    | some items =>
      if items.Schemas.length > 0 then
        (Res.mapList (fun esch => resolve (some esch) true) items.Schemas).bind fun ets =>
          Res.ok { result with IsArray := false, IsTuple := true, TupleTypes := ets }
      else
        (resolve items.Schema true).bind fun rt =>
          Res.ok { result with
            GoType := "[]" ++ rt.GoType
            SwaggerType := "array"
            ElementType := some rt }

/-- The first part of `resolveObject`: the map of property types, built in an
anonymous context when the schema has properties. -/
def resolveProperties (resolve : Option Schema → Bool → Res resolvedType)
    (schema : Schema) (isAnonymous : Bool) (result : resolvedType) : Res resolvedType :=
  if isAnonymous && decide (schema.Properties.length > 0) then
    (Res.mapList
        (fun kp : String × Schema =>
          (resolve (some kp.2) true).bind fun prt => Res.ok (kp.1, prt))
        schema.Properties).bind fun pts =>
      Res.ok { result with IsComplexObject := true, PropertyTypes := pts }
  else Res.ok result

/-- The schema of `schema.AdditionalProperties` when
`schema.AdditionalProperties != nil && schema.AdditionalProperties.Schema != nil`. -/
def additionalPropertiesSchema (schema : Schema) : Option Schema :=
  match schema.AdditionalProperties with
  | none => none
  | some ap => ap.Schema

/-- The method `typeResolver.resolveObject`. -/
def resolveObject (resolve : Option Schema → Bool → Res resolvedType) (schema : Schema)
    (isAnonymous : Bool) : Res resolvedType :=
  let result : resolvedType :=
    { resolvedType.zero with IsAnonymous := isAnonymous, IsNullable := isNullable schema }
  (resolveProperties resolve schema isAnonymous result).bind fun result =>
    match additionalPropertiesSchema schema with
    | some aps =>
      (resolve (some aps) true).bind fun et =>
        Res.ok { result with
          GoType := "map[string]" ++ et.GoType
          ElementType := some et
          IsMap := true
          SwaggerType := "object"
          IsNullable := false }
    | none =>
      if schema.Properties.length > 0 then Res.ok result
      else
        Res.ok { result with
          GoType := "map[string]interface\x7b\x7d"
          ElementType := some interfaceType
          IsMap := true
          SwaggerType := "object"
          IsNullable := false }

/-- The `switch tpe` of `ResolveSchema`, after the reference and the format. -/
def resolveByType (resolve : Option Schema → Bool → Res resolvedType) (schema : Schema)
    (isAnonymous : Bool) : Res resolvedType :=
  let tpe := firstType schema
  if tpe = "array" then resolveArray resolve schema
  else if tpe = "file" ∨ tpe = "number" ∨ tpe = "integer" ∨ tpe = "boolean" then
    Res.ok { resolvedType.zero with
      GoType := (typeMapping.lookup tpe).getD ""
      SwaggerType := tpe
      IsPrimitive := decide (tpe ≠ "file") }
  else if tpe = "string" then
    Res.ok { resolvedType.zero with
      GoType := "string"
      SwaggerType := "string"
      IsPrimitive := true }
  else if tpe = "object" then resolveObject resolve schema isAnonymous
  else Res.error (ResolveError.unresolvable schema.Type_ schema.Format)

/-- The method `typeResolver.ResolveSchema`. `fuel` bounds the depth of nested calls:
every call made by the body runs with one unit less. -/
def ResolveSchema (x : Externals) (t : typeResolver) :
    Nat → Option Schema → Bool → Res resolvedType
  | 0, _, _ => Res.outOfFuel
  | _ + 1, none, _ => Res.ok interfaceType
  | fuel + 1, some schema, isAnonymous =>
    match resolveSchemaRef x t (ResolveSchema x t fuel) schema with
    | some r => r
    | none =>
      match resolveFormat schema with
      | some r => r
      | none => resolveByType (ResolveSchema x t fuel) schema isAnonymous

/-! ## The model builder of `model.go` -/

/-- The table `primitives` of `types.go`: the Go types that are primitive. -/
def primitives : List String :=
  [ "bool", "uint", "uint8", "uint16", "uint32", "uint64", "int", "int8", "int16", "int32",
    "int64", "float32", "float64", "string", "complex64", "complex128", "byte", "[]byte",
    "rune" ]

/-- The table `customFormatters` of `types.go`; `strfmt.DateTime`, `strfmt.Date` and
`strfmt.Duration` are commented out in the source. -/
def customFormatters : List String :=
  [ "strfmt.URI", "strfmt.Email", "strfmt.Hostname", "strfmt.IPv4", "strfmt.IPv6",
    "strfmt.UUID", "strfmt.UUID3", "strfmt.UUID4", "strfmt.UUID5", "strfmt.ISBN",
    "strfmt.ISBN10", "strfmt.ISBN13", "strfmt.CreditCard", "strfmt.SSN", "strfmt.Password",
    "strfmt.HexColor", "strfmt.RGBColor", "strfmt.Base64" ]

/-- The build context of a property (`propGenBuildParams`). -/
structure propGenBuildParams where
  Path : String
  Name : String
  ParamName : String
  Accessor : String
  Receiver : String
  IndexVar : String
  ValueExpr : String
  Schema : Generator.Schema
  Required : Bool
  TypeResolver : typeResolver

/-- The method `propGenBuildParams.NewSliceBranch`. -/
def propGenBuildParams.NewSliceBranch (pg : propGenBuildParams) (schema : Generator.Schema) :
    propGenBuildParams :=
  let indexVar := pg.IndexVar
  { pg with
    Path := "fmt.Sprintf(\"%s.%v\", " ++ pg.Path ++ ", " ++ indexVar ++ ")"
    IndexVar := indexVar ++ "i"
    ValueExpr := pg.ValueExpr ++ "[" ++ indexVar ++ "]"
    Schema := schema
    Required := false }

/-- The type `propertyDescriptor`, with the fields that the literal in
`modelValidations` sets. -/
structure propertyDescriptor where
  PropertyName : String
  ParamName : String
  ValueExpression : String
  IndexVar : String
  Path : String
  IsContainer : Bool
  IsPrimitive : Bool
  IsCustomFormatter : Bool
  IsMap : Bool
  T : resolvedType

/-- The type `commonValidations`, with the fields that the literal in
`modelValidations` sets; `Type_` is the field `Type`. -/
structure commonValidations extends propertyDescriptor where
  Required : Bool
  Type_ : String
  Format : String
  Default : Option JSONValue
  Maximum : Option ℚ
  ExclusiveMaximum : Bool
  Minimum : Option ℚ
  ExclusiveMinimum : Bool
  MaxLength : Option Int
  MinLength : Option Int
  Pattern : String
  MaxItems : Option Int
  MinItems : Option Int
  UniqueItems : Bool
  MultipleOf : Option ℚ
  Enum : List JSONValue

/-- Modelled from the spec: the type `sharedParam`, whose declaration is not among the
source files. It carries what `modelValidations` derived, "required, numeric bounds,
length bounds, pattern, enum values, item-count bounds, uniqueness, multiple-of,
default" and the classification flags, and the two aggregate flags "has validations"
and "has slice validations" that `makeGenModelProperty` reads and writes. -/
structure sharedParam extends commonValidations where
  HasValidations : Bool
  HasSliceValidations : Bool

/-- Modelled from the spec: the function `makeGenValidations`, whose file is not among
the sources. The derived validations are copied through; "an aggregate has validations
flag is true if required or any of the above constraints is present (a default value
alone does not count as a validation)", the constraints being "multipleOf, bounds,
pattern, enum, and uniqueness"; has slice validations is "false unless
item-count/uniqueness constraints are present". -/
def makeGenValidations (s : commonValidations) : sharedParam :=
  let hasNumberValidation := s.Maximum.isSome || s.Minimum.isSome || s.MultipleOf.isSome
  let hasStringValidation := s.MaxLength.isSome || s.MinLength.isSome || s.Pattern != ""
  let hasSliceValidations := s.MaxItems.isSome || s.MinItems.isSome || s.UniqueItems
  { s with
    HasValidations := s.Required || hasNumberValidation || hasStringValidation ||
      hasSliceValidations || decide (s.Enum.length > 0)
    HasSliceValidations := hasSliceValidations }

/-- The literal `commonValidations{...}` that `modelValidations` returns for the
resolved type `tpe`. -/
def validationsOf (params : propGenBuildParams) (tpe : resolvedType) : commonValidations :=
  let isPrimitive := primitives.contains tpe.GoType
  let isCustomFormatter := customFormatters.contains tpe.GoType
  let model := params.Schema
  { PropertyName := params.Accessor
    ParamName := params.ParamName
    ValueExpression := params.ValueExpr
    IndexVar := params.IndexVar
    Path := params.Path
    IsContainer := tpe.IsArray
    IsPrimitive := isPrimitive
    IsCustomFormatter := isCustomFormatter
    IsMap := tpe.IsMap
    T := tpe
    Required := params.Required
    Type_ := tpe.GoType
    Format := model.Format
    Default := model.Default
    Maximum := model.Maximum
    ExclusiveMaximum := model.ExclusiveMaximum
    Minimum := model.Minimum
    ExclusiveMinimum := model.ExclusiveMinimum
    MaxLength := model.MaxLength
    MinLength := model.MinLength
    Pattern := model.Pattern
    MaxItems := model.MaxItems
    MinItems := model.MinItems
    UniqueItems := model.UniqueItems
    MultipleOf := model.MultipleOf
    Enum := model.Enum }

/-- The function `modelValidations`; `fuel` is the fuel of its call of
`ResolveSchema`. -/
def modelValidations (x : Externals) (fuel : Nat) (params : propGenBuildParams)
    (isAnonymous : Bool) : Res commonValidations :=
  (ResolveSchema x params.TypeResolver fuel (some params.Schema) isAnonymous).bind fun tpe =>
    Res.ok (validationsOf params tpe)

/-- The function `propertyDocString`. -/
def propertyDocString (x : Externals) (propertyName description example_ : String) : String :=
  let ex := if x.TrimSpace example_ ≠ "" then " eg.\n\n    " ++ example_ else ""
  x.commentedLines (propertyName ++ " " ++ description ++ ex)

/-- A property of a generated model (`genModelProperty`); the embedded `sharedParam`
is the field of that name. -/
structure genModelProperty where
  sharedParam : Generator.sharedParam
  Example : String
  Name : String
  Title : String
  Description : String
  DataType : String
  DocString : String
  Location : String
  ReceiverName : String
  IsComplexObject : Bool
  SingleSchemaSlice : Bool
  Items : List genModelProperty
  ItemsLen : Nat
  AllowsAdditionalItems : Bool
  HasAdditionalItems : Bool
  AdditionalItems : Option genModelProperty
  Object : Option genModelProperty
  XMLName : String

/-- The test `params.Schema.Items != nil && params.Schema.Items.Schema != nil` of
`makeGenModelProperty`. -/
def singleSchemaSlice (schema : Schema) : Bool :=
  match schema.Items with
  | none => false
  | some items => items.Schema.isSome

/-- The items of `makeGenModelProperty`: the one child of a single items schema, or a
child for each schema of the list, each built by `build` in the context
`NewSliceBranch`. -/
def buildItems (build : propGenBuildParams → Res genModelProperty)
    (params : propGenBuildParams) : Res (List genModelProperty) :=
  match params.Schema.Items with
  | none => Res.ok []
  | some items =>
    match items.Schema with
    | some s => (build (params.NewSliceBranch s)).bind fun elProp => Res.ok [elProp]
    | none => Res.mapList (fun s => build (params.NewSliceBranch s)) items.Schemas

/-- The test `allowsAdditionalItems` of `makeGenModelProperty`. -/
def allowsAdditionalItems (schema : Schema) : Bool :=
  match schema.AdditionalItems with
  | none => false
  | some ai => ai.Allows || ai.Schema.isSome

/-- The additional items of `makeGenModelProperty`: a child when
`params.Schema.AdditionalItems != nil && params.Schema.AdditionalItems.Schema != nil`. -/
def buildAdditionalItems (build : propGenBuildParams → Res genModelProperty)
    (params : propGenBuildParams) : Res (Option genModelProperty) :=
  match params.Schema.AdditionalItems with
  | none => Res.ok none
  | some ai =>
    match ai.Schema with
    | none => Res.ok none
    | some s => (build (params.NewSliceBranch s)).bind fun it => Res.ok (some it)

/-- The XML name computed by `makeGenModelProperty`. -/
def xmlNameOf (params : propGenBuildParams) : String :=
  match params.Schema.XML with
  | none => ""
  | some xml =>
    if xml.Name ≠ "" then
      if xml.Attribute then xml.Name ++ ",attr" else xml.Name
    else params.ParamName

/-- The end of `makeGenModelProperty`, once the validations, the items and the
additional items are there: the two aggregate flags and the returned literal. The
assignment `ctx.HasSliceValidations = true` of the single-schema branch is overwritten
by `ctx.HasSliceValidations = len(items) > 0 || hasAdditionalItems`, which is the one
that appears here. -/
def assembleProperty (x : Externals) (params : propGenBuildParams)
    (validations : commonValidations) (items : List genModelProperty)
    (additionalItems : Option genModelProperty) : genModelProperty :=
  let ex :=
    match params.Schema.Example with
    | some v => x.FormatGoSyntax v
    | none => ""
  let ctx := makeGenValidations validations
  let hasAdditionalItems :=
    allowsAdditionalItems params.Schema && !singleSchemaSlice params.Schema
  let hasSliceValidations := decide (items.length > 0) || hasAdditionalItems
  let ctx : Generator.sharedParam :=
    { ctx with
      HasSliceValidations := hasSliceValidations
      HasValidations := ctx.HasValidations || hasSliceValidations }
  { sharedParam := ctx
    DataType := ctx.Type_
    Example := ex
    Name := params.Name
    DocString := propertyDocString x params.Accessor params.Schema.Description ex
    Title := params.Schema.Title
    Description := params.Schema.Description
    Location := ""
    ReceiverName := params.Receiver
    IsComplexObject := !ctx.IsPrimitive && !ctx.IsCustomFormatter && !ctx.IsContainer
    HasAdditionalItems := hasAdditionalItems
    AllowsAdditionalItems := allowsAdditionalItems params.Schema
    AdditionalItems := additionalItems
    Object := none
    Items := items
    ItemsLen := items.length
    SingleSchemaSlice := singleSchemaSlice params.Schema
    XMLName := xmlNameOf params }

/-- The function `makeGenModelProperty`. `fuel` bounds the depth of nested calls: the
call of `modelValidations` and the calls for the children run with one unit less. -/
def makeGenModelProperty (x : Externals) : Nat → propGenBuildParams → Res genModelProperty
  | 0, _ => Res.outOfFuel
  | fuel + 1, params =>
    (modelValidations x fuel params false).bind fun validations =>
      (buildItems (makeGenModelProperty x fuel) params).bind fun items =>
        (buildAdditionalItems (makeGenModelProperty x fuel) params).bind fun additionalItems =>
          Res.ok (assembleProperty x params validations items additionalItems)

/-- A generated model (`genModel`); `Imports` and `DefaultImports` are left nil by
`makeCodegenModel`. -/
structure genModel where
  Package : String
  ReceiverName : String
  ClassName : String
  Name : String
  Title : String
  Description : String
  Properties : List genModelProperty
  DocString : String
  HumanClassName : String
  Imports : List (String × String)
  DefaultImports : List String
  HasValidations : Bool

/-- The function `modelDocString`. -/
def modelDocString (x : Externals) (className desc : String) : String :=
  x.commentedLines (className ++ " " ++ desc)

/-- The assignment `m[k] = v` on a Go map: the entry of key `k` is replaced where it
is, or added. -/
def mapSet {α : Type} (k : String) (v : α) : List (String × α) → List (String × α)
  | [] => [(k, v)]
  | (k', v') :: rest => if k' = k then (k, v) :: rest else (k', v') :: mapSet k v rest

/-- The first loop of `makeCodegenModel`, for one property `pn` with schema `p`: its
required flag and the call of `makeGenModelProperty`. -/
def buildOwnProperty (x : Externals) (build : propGenBuildParams → Res genModelProperty)
    (pkg : String) (schema : Schema) (specDoc : Document) (pn : String) (p : Schema) :
    Res genModelProperty :=
  let receiver := "m"
  let required := schema.Required.any fun v => decide (v = pn)
  build
    { Path := "\"" ++ pn ++ "\""
      ParamName := x.ToJSONName pn
      Name := pn
      Accessor := x.ToGoName pn
      Receiver := receiver
      IndexVar := "i"
      ValueExpr := receiver ++ "." ++ x.ToGoName pn
      Schema := p
      Required := required
      TypeResolver := { ModelsPackage := x.Base pkg, Doc := specDoc } }

/-- The first loop of `makeCodegenModel`: every property is built and stored under its
JSON name; the first error ends the call. -/
def buildOwnProperties (x : Externals) (build : propGenBuildParams → Res genModelProperty)
    (pkg : String) (schema : Schema) (specDoc : Document) :
    List (String × Schema) → List (String × genModelProperty) →
      Res (List (String × genModelProperty))
  | [], props => Res.ok props
  | (pn, p) :: rest, props =>
    (buildOwnProperty x build pkg schema specDoc pn p).bind fun gmp =>
      buildOwnProperties x build pkg schema specDoc rest (mapSet (x.ToJSONName pn) gmp props)

/-- The substitution at the head of the second loop of `makeCodegenModel`: a branch
that is a reference is replaced by `specDoc.Spec().Definitions[tn]`, the zero schema
when the document has no definition `tn`. -/
def allOfBranch (x : Externals) (specDoc : Document) (p : Schema) : Schema :=
  match p.Ref with
  | some url => (specDoc.Definitions.lookup (x.Base url.Fragment)).getD Schema.zero
  | none => p

/-- The inner loop `for _, prop := range mod.Properties { props[prop.ParamName] = prop }`. -/
def mergeProperties (properties : List genModelProperty)
    (props : List (String × genModelProperty)) : List (String × genModelProperty) :=
  properties.foldl (fun acc prop => mapSet prop.sharedParam.ParamName prop acc) props

/-- The second loop of `makeCodegenModel`: the model of every `allOf` branch is built
by `build` and its properties are stored under their `ParamName`. -/
def mergeAllOf (x : Externals) (build : Schema → Res genModel) (specDoc : Document) :
    List Schema → List (String × genModelProperty) → Res (List (String × genModelProperty))
  | [], props => Res.ok props
  | p :: rest, props =>
    (build (allOfBranch x specDoc p)).bind fun mod =>
      mergeAllOf x build specDoc rest (mergeProperties mod.Properties props)

/-- The last loop of `makeCodegenModel`: the list of the properties and the flag
`hasValidations`. -/
def collectProperties (props : List (String × genModelProperty)) :
    List genModelProperty × Bool :=
  props.foldl
    (fun acc kv =>
      (acc.1 ++ [kv.2],
        if kv.2.sharedParam.HasValidations then kv.2.sharedParam.HasValidations else acc.2))
    ([], false)

/-- The function `makeCodegenModel`. `fuel` bounds the depth of nested calls: the
calls of `makeGenModelProperty` and the calls for the `allOf` branches run with one
unit less. -/
def makeCodegenModel (x : Externals) :
    Nat → String → String → Schema → Document → Res genModel
  | 0, _, _, _, _ => Res.outOfFuel
  | fuel + 1, name, pkg, schema, specDoc =>
    let receiver := "m"
    (buildOwnProperties x (makeGenModelProperty x fuel) pkg schema specDoc
        schema.Properties []).bind fun props =>
      (mergeAllOf x (fun p => makeCodegenModel x fuel name pkg p specDoc) specDoc
          schema.AllOf props).bind fun props =>
        let collected := collectProperties props
        Res.ok
          { Package := x.Base pkg
            ClassName := x.ToGoName name
            Name := name
            ReceiverName := receiver
            Properties := collected.1
            Description := schema.Description
            Title := schema.Title
            DocString := modelDocString x (x.ToGoName name) schema.Description
            HumanClassName := x.ToHumanNameLower (x.ToGoName name)
            Imports := []
            DefaultImports := []
            HasValidations := collected.2 }

/-! ## An instance of the external functions, for concrete documents -/

/-- The function `filepath.Base` on slash-separated paths: `"."` for the empty path,
otherwise the text after the last slash once trailing slashes are removed, and `"/"`
when nothing else is left. -/
def pathBase (path : String) : String :=
  if path.data = [] then "."
  else
    let trimmed := (path.data.reverse.dropWhile fun c => c == '/')
    let seg := (trimmed.takeWhile fun c => c != '/').reverse
    if seg = [] then "/" else String.mk seg

/-- Modelled from the spec: the reference-resolution operation of the document
(`spec.ResolveRef`, of package `spec`, which is not among the source files), "reference
token → schema, capable of returning an error when unresolved". A local reference
`#/definitions/<name>` resolves to the definition `<name>` of the document; every
other reference is unresolved. -/
def resolveLocalRef (doc : Document) (url : URL) : Except String Schema :=
  let lead := "/definitions/".data
  if url.Location = "" ∧ url.Fragment.data.take lead.length = lead then
    match doc.Definitions.lookup (String.mk (url.Fragment.data.drop lead.length)) with
    | some schema => Except.ok schema
    | none => Except.error ("unresolved reference: " ++ url.Fragment)
  else Except.error ("unresolved reference: " ++ url.Fragment)

/-- An instance of the external functions on which concrete documents are evaluated:
local references, and names that are single capitalised words, which `swag.ToGoName`
and `swag.ToJSONName` return unchanged apart from the case of the first letter; texts
of one line without surrounding white space other than blanks, and example values that
are booleans or plain strings. -/
def localExternals : Externals where
  ResolveRef := resolveLocalRef
  ToGoName := fun name =>
    match name.data with
    | [] => ""
    | c :: cs => String.mk (c.toUpper :: cs)
  ToJSONName := fun name =>
    match name.data with
    | [] => ""
    | c :: cs => String.mk (c.toLower :: cs)
  Base := pathBase
  ToHumanNameLower := fun name => String.mk (name.data.map Char.toLower)
  FormatGoSyntax := fun v =>
    match v with
    | JSONValue.bool true => "true"
    | JSONValue.bool false => "false"
    | JSONValue.string str => "\"" ++ str ++ "\""
    | _ => "<nil>"
  TrimSpace := fun text =>
    String.mk ((text.data.dropWhile fun c => c == ' ').reverse.dropWhile fun c => c == ' ').reverse
  commentedLines := fun text => "// " ++ text

/-- A local reference `#/definitions/<name>`. -/
def refTo (name : String) : Schema :=
  { Schema.zero with Ref := some { Location := "", Fragment := "/definitions/" ++ name } }

/-- A schema `{type: tpe}`. -/
def typed (tpe : String) : Schema :=
  { Schema.zero with Type_ := [tpe] }

/-- The function `g` answers as `f` wherever `f` did not exhaust its fuel. -/
def Extends (f g : Option Schema → Bool → Res resolvedType) : Prop :=
  ∀ s a, f s a ≠ Res.outOfFuel → g s a = f s a

/-- The five structural classifications of a resolved type: primitive, array (array
or tuple), map, complex object, interface. -/
def classifications (r : resolvedType) : List Bool :=
  [r.IsPrimitive, r.IsArray || r.IsTuple, r.IsMap, r.IsComplexObject, r.IsInterface]

/-- The schema has a format that `resolveFormat` maps to a Go type. -/
def hasKnownFormat (schema : Schema) : Bool :=
  (typeMapping.lookup (removeHyphens schema.Format)).isSome

/-- The declared type tokens that the `switch` of `ResolveSchema` recognises. -/
def recognisedTypes : List String :=
  ["array", "file", "number", "integer", "boolean", "string", "object"]

/-! ## A concrete document -/

/-- Definition `Pet`: an object with a required string `name` and an array of strings
`tags`. -/
def petSchema : Schema :=
  { typed "object" with
    Required := ["name"]
    Properties :=
      [ ("name", typed "string"),
        ("tags", { typed "array" with Items := some { Schema := some (typed "string") } }) ] }

/-- Definition `Name`: `{type: string, x-isnullable: true}`. -/
def nameSchema : Schema :=
  { typed "string" with Extensions := [("x-isnullable", JSONValue.bool true)] }

/-- Definition `Label`: an object named `Tag` by `x-go-name`, with a property of an
unknown type. -/
def labelSchema : Schema :=
  { typed "object" with
    Extensions := [("x-go-name", JSONValue.string "Tag")]
    Properties := [("weird", typed "bogus")] }

/-- Definition `Odd`: an object whose `x-go-name` is the number 5. -/
def oddSchema : Schema :=
  { typed "object" with Extensions := [("x-go-name", JSONValue.number 5)] }

/-- Definition `Tags`: `{type: array, x-isnullable: true, items: {type: string}}`. -/
def tagsSchema : Schema :=
  { typed "array" with
    Extensions := [("x-isnullable", JSONValue.bool true)]
    Items := some { Schema := some (typed "string") } }

/-- Definition `Any`: `{description: "anything"}`, a schema that declares no type. -/
def anySchema : Schema :=
  { Schema.zero with Description := "anything" }

/-- A document with the definitions `Pet`, `Name`, `Label`, `Odd`, `Tags` and `Any`. -/
def sampleDoc : Document where
  Definitions :=
    [ ("Pet", petSchema), ("Name", nameSchema), ("Label", labelSchema),
      ("Odd", oddSchema), ("Tags", tagsSchema), ("Any", anySchema) ]

/-- A resolver on `sampleDoc` with models package `models`. -/
def sampleResolver : typeResolver where
  Doc := sampleDoc
  ModelsPackage := "models"

/-- The schema `{type: string, format: uuid}`. -/
def uuidSchema : Schema :=
  { typed "string" with Format := "uuid" }

/-- The schema `{type: string, x-isnullable: false}`. -/
def notNullableString : Schema :=
  { typed "string" with Extensions := [("x-isnullable", JSONValue.bool false)] }

/-- A tuple `[string, integer]` whose additional items have the unknown type `bogus`. -/
def tupleWithBadAdditionalItems : Schema :=
  { typed "array" with
    Items := some { Schemas := [typed "string", typed "integer"] }
    AdditionalItems := some { Schema := some (typed "bogus") } }

/-- The tuple `[string, integer]` with additional items of type boolean. -/
def tupleSchema : Schema :=
  { typed "array" with
    Items := some { Schemas := [typed "string", typed "integer"] }
    AdditionalItems := some { Schema := some (typed "boolean") } }

/-- An object with a property `id` and additional properties of type integer. -/
def mapWithProperties : Schema :=
  { typed "object" with
    Properties := [("id", typed "string")]
    AdditionalProperties := some { Schema := some (typed "integer") } }

/-- The Go type, Swagger type and primitive flag that the `switch` of `ResolveSchema`
gives to the scalar type tokens. -/
def scalarRows : List (String × String × Bool) :=
  [ ("number", "float64", true),
    ("integer", "int64", true),
    ("boolean", "bool", true),
    ("string", "string", true),
    ("file", "httpkit.File", false) ]

/-- The primitive string, as `ResolveSchema` returns it for `{type: string}`. -/
def stringType : resolvedType :=
  { resolvedType.zero with GoType := "string", SwaggerType := "string", IsPrimitive := true }

/-- The array of strings, as `ResolveSchema` returns it for
`{type: array, items: {type: string}}`. -/
def stringArrayType : resolvedType :=
  { resolvedType.zero with
    IsArray := true, GoType := "[]string", SwaggerType := "array",
    ElementType := some stringType }

/-- The primitive `int64`, as `ResolveSchema` returns it for `{type: integer}`. -/
def integerType : resolvedType :=
  { resolvedType.zero with GoType := "int64", SwaggerType := "integer", IsPrimitive := true }

/-- The schema `{type: object, additionalProperties: {type: integer}}`. -/
def intMapSchema : Schema :=
  { typed "object" with AdditionalProperties := some { Schema := some (typed "integer") } }

/-- An object with a property of the unknown type `bogus` and additional properties of
type integer. -/
def mapWithBadProperty : Schema :=
  { typed "object" with
    Properties := [("weird", typed "bogus")]
    AdditionalProperties := some { Schema := some (typed "integer") } }

/-- The schema `{type: array, items: {type: string}}`, the property `tags` of `Pet`. -/
def stringArraySchema : Schema :=
  { typed "array" with Items := some { Schema := some (typed "string") } }

/-- The build context that `makeCodegenModel` makes for a property `pn` with schema `p`
of a definition of `sampleDoc`, in the package `models`. -/
def sampleParams (pn : String) (p : Schema) (required : Bool) : propGenBuildParams where
  Path := "\"" ++ pn ++ "\""
  ParamName := localExternals.ToJSONName pn
  Name := pn
  Accessor := localExternals.ToGoName pn
  Receiver := "m"
  IndexVar := "i"
  ValueExpr := "m." ++ localExternals.ToGoName pn
  Schema := p
  Required := required
  TypeResolver := sampleResolver

/-- A string that is an XML attribute without an explicit XML name. -/
def xmlAttributeSchema : Schema :=
  { typed "string" with XML := some { Name := "", Attribute := true } }

/-- The property of name `k` after the merge, in the words of the specification: the
own properties are overridden by the properties of the first branch, then of the
second, and so on, so that the name carries the property of the last branch that
declares it, and the own property when no branch declares it. -/
def lastDeclared (own : List genModelProperty) (branches : List genModel) (k : String) :
    Option genModelProperty :=
  match (branches.flatMap fun m => m.Properties).reverse.find?
      (fun p => p.sharedParam.ParamName == k) with
  | some p => some p
  | none => own.find? fun p => p.sharedParam.ParamName == k

/-- The result of a call that succeeded, and `d` otherwise. -/
def Res.getD {α : Type} (r : Res α) (d : α) : α :=
  match r with
  | Res.ok a => a
  | _ => d

/-- A model without properties. -/
def genModel.zero : genModel where
  Package := ""
  ReceiverName := ""
  ClassName := ""
  Name := ""
  Title := ""
  Description := ""
  Properties := []
  DocString := ""
  HumanClassName := ""
  Imports := []
  DefaultImports := []
  HasValidations := false

/-- A definition whose only `allOf` branch is a reference to `Missing`, which
`sampleDoc` does not define. -/
def danglingAllOf : Schema :=
  { Schema.zero with AllOf := [refTo "Missing"] }

/-- A schema with the one property `pn` of schema `p`. -/
def withProperty (pn : String) (p : Schema) : Schema :=
  { Schema.zero with Properties := [(pn, p)] }

/-- A string of at most `n` characters. -/
def capped (n : Int) : Schema :=
  { typed "string" with MaxLength := some n }

/-- A definition with the own property `own` and five `allOf` branches: four declare
`a`, `b`, `c` with `maxLength: 5` and `c` with `maxLength: 9`, and the last one is a
reference to the definition `Pet`, which declares `name` and `tags`. -/
def mergedSchema : Schema :=
  { Schema.zero with
    Properties := [("own", typed "string")]
    AllOf :=
      [ withProperty "a" (typed "string"), withProperty "b" (typed "integer"),
        withProperty "c" (capped 5), withProperty "c" (capped 9), refTo "Pet" ] }

/-- The model that `makeCodegenModel` builds for a branch of `mergedSchema`. -/
def branchModel (b : Schema) : genModel :=
  (makeCodegenModel localExternals 4 "Merged" "models"
    (allOfBranch localExternals sampleDoc b) sampleDoc).getD genModel.zero

/-- A definition whose own properties `Foo` and `foo` have the same normalised name. -/
def collidingSchema : Schema :=
  { Schema.zero with Properties := [("Foo", typed "string"), ("foo", typed "integer")] }

/-- The result of a call that succeeded. -/
def Res.toOption {α : Type} : Res α → Option α
  | Res.ok a => some a
  | _ => none

/-- The normalised name `k` is declared by the schema: by one of its own properties,
whose name `swag.ToJSONName` normalises to `k`, or by one of its `allOf` branches, where
a branch that is a reference stands for the definition it names. -/
inductive Declares (x : Externals) (specDoc : Document) : Schema → String → Prop where
  | own (schema : Schema) (pn : String) (p : Schema) :
      (pn, p) ∈ schema.Properties → Declares x specDoc schema (x.ToJSONName pn)
  | branch (schema b : Schema) (k : String) :
      b ∈ schema.AllOf → Declares x specDoc (allOfBranch x specDoc b) k →
        Declares x specDoc schema k

/-- The own property of normalised name `k`: the property that `build` makes of the
declaration that the first loop of `makeCodegenModel` stores last under the key `k`.
The loop runs through the properties in the order of the list `schema.Properties`, so
that of two own properties with one normalised name the later one stays. -/
def ownDeclared (x : Externals) (build : propGenBuildParams → Res genModelProperty)
    (pkg : String) (schema : Schema) (specDoc : Document) (k : String) :
    Option genModelProperty :=
  match schema.Properties.reverse.find? (fun d => x.ToJSONName d.1 == k) with
  | some d => (buildOwnProperty x build pkg schema specDoc d.1 d.2).toOption
  | none => none

/-- The property of normalised name `k` after the merge, in the words of the
specification and in terms of what the schema declares: the property of the last
branch model that has the name, and the own property of that name when no branch has
it. -/
def declaredProperty (x : Externals) (build : propGenBuildParams → Res genModelProperty)
    (pkg : String) (schema : Schema) (specDoc : Document) (branches : List genModel)
    (k : String) : Option genModelProperty :=
  match (branches.flatMap fun m => m.Properties).reverse.find?
      (fun p => p.sharedParam.ParamName == k) with
  | some p => some p
  | none => ownDeclared x build pkg schema specDoc k

/-- The schemas nested in a schema, those on which `resolveArray` and `resolveObject`
call `ResolveSchema`: the schema of the additional items, the single items schema,
the schemas of an items list, the schemas of the properties and the schema of the
additional properties. -/
def Schema.children (s : Schema) : List Schema :=
  (match s.AdditionalItems with
    | some ai => ai.Schema.toList
    | none => []) ++
  (match s.Items with
    | some items => items.Schema.toList ++ items.Schemas
    | none => []) ++
  s.Properties.map Prod.snd ++
  (match s.AdditionalProperties with
    | some ap => ap.Schema.toList
    | none => [])

/-- The schema `s` is a reference that the document resolves to `b`. -/
def RefersTo (x : Externals) (doc : Document) (s b : Schema) : Prop :=
  ∃ url, s.Ref = some url ∧ x.ResolveRef doc url = Except.ok b

/-- The schema `a` reaches `b` through a reference: `a` or a schema nested in it, at
any depth, is a reference to `b`. -/
def Reaches (x : Externals) (doc : Document) (a b : Schema) : Prop :=
  ∃ s, Relation.ReflTransGen (fun p c => c ∈ p.children) a s ∧ RefersTo x doc s b

/-- The reference graph of the document is acyclic: no schema reaches itself through a
chain of references. -/
def Acyclic (x : Externals) (doc : Document) : Prop :=
  ∀ d, ¬ Relation.TransGen (Reaches x doc) d d

/-- The document is finite: the schemas that its references resolve to are those of a
list. -/
def FiniteTargets (x : Externals) (doc : Document) : Prop :=
  ∃ targets : List Schema, ∀ url b, x.ResolveRef doc url = Except.ok b → b ∈ targets

/-- Every `x-go-name` extension of a schema that a reference resolves to is a string. -/
def StringGoNames (x : Externals) (doc : Document) : Prop :=
  ∀ url ref v, x.ResolveRef doc url = Except.ok ref →
    ref.Extensions.lookup "x-go-name" = some v → ∃ gn, v = JSONValue.string gn

/-- The call ended: with a result or an error, or, when `allowPanic` holds, with a
panic; it did not exhaust the fuel. -/
def Res.ended {α : Type} (allowPanic : Bool) : Res α → Bool
  | Res.ok _ => true
  | Res.error _ => true
  | Res.panic => allowPanic
  | Res.outOfFuel => false

/-- A document in which `Alias` is a reference to `Name`, the nullable string. -/
def aliasDoc : Document where
  Definitions := [("Alias", refTo "Name"), ("Name", nameSchema)]

/-- A document with the one definition `Odd`, an object whose `x-go-name` is the
number 5. -/
def oddDoc : Document where
  Definitions := [("Odd", oddSchema)]

/-- A resolver on `aliasDoc`. -/
def aliasResolver : typeResolver where
  Doc := aliasDoc
  ModelsPackage := "models"

/-- A resolver on `oddDoc`. -/
def oddResolver : typeResolver where
  Doc := oddDoc
  ModelsPackage := "models"

/-- A rank on the definitions of `aliasDoc` and `oddDoc`: one for a reference, zero
otherwise. -/
def referenceRank (s : Schema) : Nat :=
  if s.Ref.isSome then 1 else 0

/-! ## Nested array levels and simple types -/

/-- Nested array levels: `NewSliceBranch` applied once for each schema of the list, the
outermost first. -/
def nestSlices (pg : propGenBuildParams) (schemas : List Schema) : propGenBuildParams :=
  schemas.foldl (fun acc s => acc.NewSliceBranch s) pg

/-- The index token `v` followed by `k` copies of `i`. -/
def indexToken (v : String) : Nat → String
  | 0 => v
  | k + 1 => indexToken v k ++ "i"

/-- The subscripts `[v]`, `[vi]`, ..., of the first `k` nesting levels, in that order. -/
def subscripts (v : String) : Nat → String
  | 0 => ""
  | k + 1 => subscripts v k ++ "[" ++ indexToken v k ++ "]"

/-- A pointer `*spec.Items`, the items of a header or of a parameter that is not in
the body: nil, or a type name, a format and the nested items. -/
inductive Items where
  | nil
  | mk (Type_ : String) (Format : String) (Items : Items)

/-- A response header (`spec.Header`), the fields that `typeForHeader` reads. -/
structure Header where
  Type_ : String
  Format : String
  Items : Items

/-- A parameter (`spec.Parameter`), the fields that `typeForParameter` reads. -/
structure Parameter where
  Type_ : String
  Format : String
  Items : Items

/-- The function `resolveSimpleType`. -/
def resolveSimpleType (tn fmt : String) (items : Items) : String :=
  match (if fmt ≠ "" then typeMapping.lookup (removeHyphens fmt) else none) with
  | some tpe => tpe
  | none =>
    match typeMapping.lookup tn with
    | some tpe => tpe
    | none =>
      if tn = "array" then
        match items with
        | Items.nil => "[]interface\x7b\x7d"
        | Items.mk itemsType itemsFormat itemsItems =>
          "[]" ++ resolveSimpleType itemsType itemsFormat itemsItems
      else tn

/-- The function `typeForHeader`. -/
def typeForHeader (header : Header) : String :=
  resolveSimpleType header.Type_ header.Format header.Items

/-- The function `typeForParameter`. -/
def typeForParameter (param : Parameter) : String :=
  resolveSimpleType param.Type_ param.Format param.Items

/-- The schema that corresponds to a simple type description: the same type, the same
format, and the items as a single items schema. -/
def simpleSchema (tn fmt : String) (items : Items) : Schema :=
  { Schema.zero with
    Type_ := [tn]
    Format := fmt
    Items :=
      match items with
      | Items.nil => none
      | Items.mk itemsType itemsFormat itemsItems =>
        some { Schema := some (simpleSchema itemsType itemsFormat itemsItems), Schemas := [] } }

/-- The scalar type names of a simple type description. -/
def simpleScalars : List String :=
  ["string", "number", "integer", "boolean", "file"]

/-- The simple type description is built from the scalar type names and from arrays of
such descriptions, with or without items. -/
def isSimpleType (tn : String) (items : Items) : Bool :=
  simpleScalars.contains tn ||
    (tn == "array" &&
      match items with
      | Items.nil => true
      | Items.mk itemsType _ itemsItems => isSimpleType itemsType itemsItems)

/-- An array schema whose items carry both a single schema and a list of schemas. -/
def itemsBothForms : Schema :=
  { typed "array" with
    Items := some { Schema := some (typed "string"), Schemas := [typed "string", typed "integer"] } }

/-! ## Sequencing lemmas -/

@[simp] theorem Res.bind_ok {α β : Type} (a : α) (f : α → Res β) :
    (Res.ok a).bind f = f a := rfl

@[simp] theorem Res.bind_error {α β : Type} (e : ResolveError) (f : α → Res β) :
    (Res.error e : Res α).bind f = Res.error e := rfl

@[simp] theorem Res.bind_panic {α β : Type} (f : α → Res β) :
    (Res.panic : Res α).bind f = Res.panic := rfl

@[simp] theorem Res.bind_outOfFuel {α β : Type} (f : α → Res β) :
    (Res.outOfFuel : Res α).bind f = Res.outOfFuel := rfl

/-- A sequence of two steps is unchanged when each step is replaced by one that agrees
with it wherever it did not exhaust the fuel. -/
theorem Res.bind_stable {α β : Type} {r r' : Res α} {f f' : α → Res β}
    (hr : r ≠ Res.outOfFuel → r' = r)
    (hf : ∀ a, f a ≠ Res.outOfFuel → f' a = f a)
    (h : r.bind f ≠ Res.outOfFuel) : r'.bind f' = r.bind f := by
  cases r with
  | ok a =>
    rw [hr (by simp)]
    exact hf a h
  | error e => rw [hr (by simp)]; rfl
  | panic => rw [hr (by simp)]; rfl
  | outOfFuel => exact absurd rfl h

theorem Res.mapList_stable {α β : Type} {f g : α → Res β}
    (hfg : ∀ a, f a ≠ Res.outOfFuel → g a = f a) :
    ∀ xs : List α, Res.mapList f xs ≠ Res.outOfFuel → Res.mapList g xs = Res.mapList f xs
  | [], _ => rfl
  | x :: xs, h => by
    simp only [Res.mapList] at h ⊢
    refine Res.bind_stable (hfg x) (fun y hy => ?_) h
    exact Res.bind_stable (Res.mapList_stable hfg xs) (fun ys _ => rfl) hy

theorem resolveSchemaRef_stable (x : Externals) (t : typeResolver)
    {f g : Option Schema → Bool → Res resolvedType} (hfg : Extends f g) (schema : Schema) :
    ∀ r, resolveSchemaRef x t f schema = some r → r ≠ Res.outOfFuel →
      resolveSchemaRef x t g schema = some r := by
  intro r hr hne
  unfold resolveSchemaRef at hr ⊢
  cases hRef : schema.Ref with
  | none => simp [hRef] at hr
  | some url =>
    simp only [hRef, Option.some.injEq] at hr ⊢
    subst hr
    cases hres : x.ResolveRef t.Doc url with
    | error er => rfl
    | ok ref =>
      simp only [hres] at hne ⊢
      refine Res.bind_stable (fun _ => rfl) (fun tn htn => ?_) hne
      by_cases hobj : Contains ref.Type_ "object" = true
      · simp [hobj]
      · simp only [hobj] at htn ⊢
        exact hfg _ _ htn

theorem resolveSchemaRef_none (x : Externals) (t : typeResolver)
    (f g : Option Schema → Bool → Res resolvedType) (schema : Schema) :
    resolveSchemaRef x t f schema = none → resolveSchemaRef x t g schema = none := by
  unfold resolveSchemaRef
  cases schema.Ref <;> simp

theorem resolveAdditionalItems_stable {f g : Option Schema → Bool → Res resolvedType}
    (hfg : Extends f g) (schema : Schema) (result : resolvedType)
    (h : resolveAdditionalItems f schema result ≠ Res.outOfFuel) :
    resolveAdditionalItems g schema result = resolveAdditionalItems f schema result := by
  unfold resolveAdditionalItems at h ⊢
  cases hai : schema.AdditionalItems with
  | none => rfl
  | some ai =>
    simp only [hai] at h ⊢
    split
    · rename_i hc
      simp only [hc, if_true] at h
      exact Res.bind_stable (hfg _ _) (fun _ _ => rfl) h
    · rfl

theorem resolveArray_stable {f g : Option Schema → Bool → Res resolvedType}
    (hfg : Extends f g) (schema : Schema)
    (h : resolveArray f schema ≠ Res.outOfFuel) :
    resolveArray g schema = resolveArray f schema := by
  unfold resolveArray at h ⊢
  refine Res.bind_stable (resolveAdditionalItems_stable hfg schema _) (fun result hres => ?_) h
  cases hit : schema.Items with
  | none => rfl
  | some items =>
    simp only [hit] at hres ⊢
    split
    · rename_i hc
      simp only [hc, if_true] at hres
      exact Res.bind_stable (Res.mapList_stable (fun esch => hfg _ _) _) (fun _ _ => rfl) hres
    · rename_i hc
      simp only [hc, if_false] at hres
      exact Res.bind_stable (hfg _ _) (fun _ _ => rfl) hres

theorem resolveProperties_stable {f g : Option Schema → Bool → Res resolvedType}
    (hfg : Extends f g) (schema : Schema) (isAnonymous : Bool) (result : resolvedType)
    (h : resolveProperties f schema isAnonymous result ≠ Res.outOfFuel) :
    resolveProperties g schema isAnonymous result =
      resolveProperties f schema isAnonymous result := by
  unfold resolveProperties at h ⊢
  split
  · rename_i hc
    simp only [hc, if_true] at h
    refine Res.bind_stable (Res.mapList_stable (fun kp hkp => ?_) _) (fun _ _ => rfl) h
    exact Res.bind_stable (hfg _ _) (fun _ _ => rfl) hkp
  · rfl

theorem resolveObject_stable {f g : Option Schema → Bool → Res resolvedType}
    (hfg : Extends f g) (schema : Schema) (isAnonymous : Bool)
    (h : resolveObject f schema isAnonymous ≠ Res.outOfFuel) :
    resolveObject g schema isAnonymous = resolveObject f schema isAnonymous := by
  unfold resolveObject at h ⊢
  refine Res.bind_stable (resolveProperties_stable hfg schema isAnonymous _)
    (fun result hres => ?_) h
  cases hap : additionalPropertiesSchema schema with
  | none => rfl
  | some aps =>
    simp only [hap] at hres ⊢
    exact Res.bind_stable (hfg _ _) (fun _ _ => rfl) hres

theorem resolveByType_stable {f g : Option Schema → Bool → Res resolvedType}
    (hfg : Extends f g) (schema : Schema) (isAnonymous : Bool)
    (h : resolveByType f schema isAnonymous ≠ Res.outOfFuel) :
    resolveByType g schema isAnonymous = resolveByType f schema isAnonymous := by
  unfold resolveByType at h ⊢
  simp only at h ⊢
  split_ifs at h ⊢ with h1 h2 h3 h4
  · exact resolveArray_stable hfg schema h
  · rfl
  · rfl
  · exact resolveObject_stable hfg schema isAnonymous h
  · rfl

theorem ResolveSchema_some (x : Externals) (t : typeResolver) (fuel : Nat) (schema : Schema)
    (isAnonymous : Bool) :
    ResolveSchema x t (fuel + 1) (some schema) isAnonymous =
      match resolveSchemaRef x t (ResolveSchema x t fuel) schema with
      | some r => r
      | none =>
        match resolveFormat schema with
        | some r => r
        | none => resolveByType (ResolveSchema x t fuel) schema isAnonymous := rfl

/-- One more unit of fuel does not change an answer that did not exhaust the fuel. -/
theorem ResolveSchema_succ (x : Externals) (t : typeResolver) :
    ∀ fuel, Extends (ResolveSchema x t fuel) (ResolveSchema x t (fuel + 1))
  | 0 => fun s a h => absurd rfl h
  | fuel + 1 => by
    intro s a h
    have ih := ResolveSchema_succ x t fuel
    cases s with
    | none => rfl
    | some schema =>
      rw [ResolveSchema_some] at h
      rw [ResolveSchema_some x t (fuel + 1), ResolveSchema_some x t fuel]
      cases href : resolveSchemaRef x t (ResolveSchema x t fuel) schema with
      | some r =>
        simp only [href] at h ⊢
        rw [resolveSchemaRef_stable x t ih schema r href h]
      | none =>
        simp only [href] at h ⊢
        rw [resolveSchemaRef_none x t _ (ResolveSchema x t (fuel + 1)) schema href]
        cases hfmt : resolveFormat schema with
        | some r => rfl
        | none =>
          simp only [hfmt] at h ⊢
          exact resolveByType_stable ih schema a h

/-- More fuel does not change an answer that did not exhaust the fuel. -/
theorem ResolveSchema_mono (x : Externals) (t : typeResolver) {n m : Nat} (hnm : n ≤ m)
    (s : Option Schema) (a : Bool) (h : ResolveSchema x t n s a ≠ Res.outOfFuel) :
    ResolveSchema x t m s a = ResolveSchema x t n s a := by
  induction hnm with
  | refl => rfl
  | step _ ih => rw [ResolveSchema_succ x t _ s a (by rw [ih]; exact h), ih]

/-! ## Unfolding lemmas for the three stages of `ResolveSchema` -/

theorem resolveSchemaRef_of_no_ref (x : Externals) (t : typeResolver)
    (f : Option Schema → Bool → Res resolvedType) (schema : Schema)
    (hRef : schema.Ref = none) : resolveSchemaRef x t f schema = none := by
  unfold resolveSchemaRef
  rw [hRef]

theorem resolveFormat_of_known (schema : Schema) (tpe : String)
    (hFmt : typeMapping.lookup (removeHyphens schema.Format) = some tpe) :
    resolveFormat schema = some (Res.ok
      { resolvedType.zero with
        SwaggerType := match schema.Type_ with
          | [] => "string"
          | first :: _ => first
        SwaggerFormat := schema.Format
        GoType := tpe
        IsPrimitive := true
        IsNullable := isNullable schema }) := by
  have hne : schema.Format ≠ "" := by
    intro h
    have hEmpty : typeMapping.lookup (removeHyphens "") = none := by decide
    rw [h, hEmpty] at hFmt
    cases hFmt
  unfold resolveFormat
  rw [if_pos hne, hFmt]

theorem resolveFormat_of_unknown (schema : Schema)
    (hFmt : typeMapping.lookup (removeHyphens schema.Format) = none) :
    resolveFormat schema = none := by
  unfold resolveFormat
  split
  · rw [hFmt]
  · rfl

/-- Without a reference and without a known format, `ResolveSchema` is the `switch` on
the first declared type. -/
theorem ResolveSchema_by_type (x : Externals) (t : typeResolver) (fuel : Nat)
    (schema : Schema) (isAnonymous : Bool) (hRef : schema.Ref = none)
    (hFmt : typeMapping.lookup (removeHyphens schema.Format) = none) :
    ResolveSchema x t (fuel + 1) (some schema) isAnonymous =
      resolveByType (ResolveSchema x t fuel) schema isAnonymous := by
  rw [ResolveSchema_some, resolveSchemaRef_of_no_ref x t _ schema hRef,
    resolveFormat_of_unknown schema hFmt]

/-- What `isNullable` computes: the type list contains `object`, or the extension
`x-isnullable` holds a boolean, whichever its value. -/
theorem isNullable_iff (schema : Schema) :
    isNullable schema = true ↔
      "object" ∈ schema.Type_ ∨
        ∃ b, schema.Extensions.lookup "x-isnullable" = some (JSONValue.bool b) := by
  unfold isNullable Contains
  simp only [Bool.or_eq_true, List.any_eq_true, decide_eq_true_eq]
  constructor
  · rintro (⟨str, hmem, rfl⟩ | h)
    · exact Or.inl hmem
    · right
      split at h
      · rename_i b hb
        exact ⟨b, hb⟩
      · exact absurd h (by simp)
  · rintro (h | ⟨b, hb⟩)
    · exact Or.inl ⟨_, h, rfl⟩
    · right
      rw [hb]

/-! ## The shape of successful results -/

theorem Res.bind_eq_ok {α β : Type} {r : Res α} {f : α → Res β} {b : β}
    (h : r.bind f = Res.ok b) : ∃ a, r = Res.ok a ∧ f a = Res.ok b := by
  cases r with
  | ok a => exact ⟨a, rfl, h⟩
  | error e => cases h
  | panic => cases h
  | outOfFuel => cases h

/-- The additional items change only `HasAdditionalItems` and `AdditionalItems`. -/
theorem resolveAdditionalItems_ok {f : Option Schema → Bool → Res resolvedType}
    {schema : Schema} {result r : resolvedType}
    (h : resolveAdditionalItems f schema result = Res.ok r) :
    ∃ has ai, r = { result with HasAdditionalItems := has, AdditionalItems := ai } := by
  unfold resolveAdditionalItems at h
  split at h
  · cases h
    exact ⟨result.HasAdditionalItems, result.AdditionalItems, by cases result; rfl⟩
  · split at h
    · obtain ⟨rs, _, hrs⟩ := Res.bind_eq_ok h
      cases hrs
      exact ⟨_, _, rfl⟩
    · cases h
      exact ⟨result.HasAdditionalItems, result.AdditionalItems, by cases result; rfl⟩

/-- A result of `resolveArray` is an array or a tuple, not both, not nullable, and
nothing else. -/
theorem resolveArray_flags {f : Option Schema → Bool → Res resolvedType}
    {schema : Schema} {r : resolvedType} (h : resolveArray f schema = Res.ok r) :
    r.IsNullable = false ∧ r.IsPrimitive = false ∧ r.IsMap = false ∧
      r.IsComplexObject = false ∧ r.IsInterface = false ∧
      ((r.IsArray = true ∧ r.IsTuple = false) ∨ (r.IsArray = false ∧ r.IsTuple = true)) := by
  unfold resolveArray at h
  obtain ⟨base, hbase, hrest⟩ := Res.bind_eq_ok h
  obtain ⟨has, ai, rfl⟩ := resolveAdditionalItems_ok hbase
  split at hrest
  · cases hrest
    simp [resolvedType.zero]
  · split at hrest
    · obtain ⟨ets, _, hr⟩ := Res.bind_eq_ok hrest
      cases hr
      simp [resolvedType.zero]
    · obtain ⟨rt, _, hr⟩ := Res.bind_eq_ok hrest
      cases hr
      simp [resolvedType.zero]

/-- The property types change only `IsComplexObject` and `PropertyTypes`. -/
theorem resolveProperties_ok {f : Option Schema → Bool → Res resolvedType}
    {schema : Schema} {isAnonymous : Bool} {result r : resolvedType}
    (h : resolveProperties f schema isAnonymous result = Res.ok r) :
    ∃ c pts, r = { result with IsComplexObject := c, PropertyTypes := pts } := by
  unfold resolveProperties at h
  split at h
  · obtain ⟨pts, _, hr⟩ := Res.bind_eq_ok h
    cases hr
    exact ⟨_, _, rfl⟩
  · cases h
    exact ⟨result.IsComplexObject, result.PropertyTypes, by cases result; rfl⟩

/-- A result of `resolveObject` is a map that is not nullable, or it is not a map and
then either a complex object or a result without a Go type; it is never a primitive,
an array, a tuple or an interface. -/
theorem resolveObject_flags {f : Option Schema → Bool → Res resolvedType}
    {schema : Schema} {isAnonymous : Bool} {r : resolvedType}
    (h : resolveObject f schema isAnonymous = Res.ok r) :
    r.IsPrimitive = false ∧ r.IsArray = false ∧ r.IsTuple = false ∧ r.IsInterface = false ∧
      ((r.IsMap = true ∧ r.IsNullable = false) ∨
        (r.IsMap = false ∧ (r.IsComplexObject = true ∨ r.GoType = ""))) := by
  unfold resolveObject at h
  obtain ⟨base, hbase, hrest⟩ := Res.bind_eq_ok h
  obtain ⟨c, pts, rfl⟩ := resolveProperties_ok hbase
  split at hrest
  · obtain ⟨et, _, hr⟩ := Res.bind_eq_ok hrest
    cases hr
    simp [resolvedType.zero]
  · split at hrest
    · cases hrest
      cases c <;> simp [resolvedType.zero]
    · cases hrest
      simp [resolvedType.zero]

/-- The successful results of `ResolveSchema`, by the stage that produced them: the
interface of a nil schema, the named complex object of a reference to an object, the
result of a nested call on a reference target, the primitive of a known format, or a
result of the `switch` on the declared type. -/
theorem ResolveSchema_ok_cases (x : Externals) (t : typeResolver) (fuel : Nat)
    (s : Option Schema) (a : Bool) (r : resolvedType)
    (h : ResolveSchema x t (fuel + 1) s a = Res.ok r) :
    r = interfaceType ∨
      (∃ n g, r = { resolvedType.zero with
          IsNullable := n, GoType := g, SwaggerType := "object", IsComplexObject := true }) ∨
      (∃ ref, ResolveSchema x t fuel (some ref) true = Res.ok r) ∨
      (∃ st sf g n, r = { resolvedType.zero with
          SwaggerType := st, SwaggerFormat := sf, GoType := g, IsPrimitive := true,
          IsNullable := n }) ∨
      (∃ schema, resolveByType (ResolveSchema x t fuel) schema a = Res.ok r) := by
  cases s with
  | none =>
    left
    cases h
    rfl
  | some schema =>
    right
    rw [ResolveSchema_some] at h
    cases href : resolveSchemaRef x t (ResolveSchema x t fuel) schema with
    | some res =>
      rw [href] at h
      simp only at h
      subst h
      unfold resolveSchemaRef at href
      split at href
      · cases href
      · simp only [Option.some.injEq] at href
        split at href
        · cases href
        · rename_i ref _
          obtain ⟨tn, _, htn⟩ := Res.bind_eq_ok href
          split at htn
          · left
            cases htn
            exact ⟨_, _, rfl⟩
          · right; left
            exact ⟨ref, htn⟩
    | none =>
      rw [href] at h
      simp only at h
      right; right
      cases hfmt : resolveFormat schema with
      | some res =>
        rw [hfmt] at h
        simp only at h
        subst h
        left
        unfold resolveFormat at hfmt
        split at hfmt
        · split at hfmt
          · cases hfmt
            exact ⟨_, _, _, _, rfl⟩
          · cases hfmt
        · cases hfmt
      | none =>
        rw [hfmt] at h
        exact Or.inr ⟨schema, h⟩

/-- A result of the `switch` on the declared type: what `resolveArray` or
`resolveObject` returned, or a scalar. -/
theorem resolveByType_ok_cases {f : Option Schema → Bool → Res resolvedType}
    {schema : Schema} {isAnonymous : Bool} {r : resolvedType}
    (h : resolveByType f schema isAnonymous = Res.ok r) :
    resolveArray f schema = Res.ok r ∨
      resolveObject f schema isAnonymous = Res.ok r ∨
      (∃ g st p, r = { resolvedType.zero with GoType := g, SwaggerType := st, IsPrimitive := p }
        ∧ (p = true ∨ g = "httpkit.File")) := by
  unfold resolveByType at h
  simp only at h
  split_ifs at h with h1 h2 h3 h4
  · exact Or.inl h
  · right; right
    cases h
    refine ⟨_, _, _, rfl, ?_⟩
    by_cases hf : firstType schema = "file"
    · right
      rw [hf]
      decide
    · left
      simpa using hf
  · right; right
    cases h
    exact ⟨_, _, _, rfl, Or.inl rfl⟩
  · exact Or.inr (Or.inl h)

/-! ## The claims -/

/-- C1 (code at the failing input): on the schema `{type: string, x-isnullable: false}`,
whose type list does not contain `object` and whose extension is the boolean false,
`isNullable` answers true. -/
theorem isNullable_of_false_extension :
    isNullable notNullableString = true ∧
      Contains notNullableString.Type_ "object" = false ∧
      notNullableString.Extensions.lookup "x-isnullable" = some (JSONValue.bool false) :=
  ⟨rfl, rfl, rfl⟩

/-- C2: a schema that is not a reference and whose format, hyphens removed, is a key of
`typeMapping` resolves, with any fuel of at least one and in either context, to a
primitive whose Go type is the entry of the table, whose Swagger format is the format
as written and whose nullability is `isNullable` of the schema; the declared type plays
no part. -/
theorem ResolveSchema_known_format (x : Externals) (t : typeResolver) (fuel : Nat)
    (schema : Schema) (isAnonymous : Bool) (tpe : String)
    (hRef : schema.Ref = none)
    (hFmt : typeMapping.lookup (removeHyphens schema.Format) = some tpe) :
    ∃ r, ResolveSchema x t (fuel + 1) (some schema) isAnonymous = Res.ok r ∧
      r.GoType = tpe ∧ r.IsPrimitive = true ∧ r.SwaggerFormat = schema.Format ∧
      r.IsNullable = isNullable schema := by
  rw [ResolveSchema_some, resolveSchemaRef_of_no_ref x t _ schema hRef,
    resolveFormat_of_known schema tpe hFmt]
  exact ⟨_, rfl, rfl, rfl, rfl, rfl⟩

/-- C2 at `{type: string, format: uuid}`: the Go type is `strfmt.UUID`. -/
theorem ResolveSchema_known_format_witness :
    ∃ r, ResolveSchema localExternals sampleResolver 1 (some uuidSchema) false = Res.ok r ∧
      r.GoType = "strfmt.UUID" ∧ r.IsPrimitive = true ∧ r.SwaggerFormat = uuidSchema.Format ∧
      r.IsNullable = isNullable uuidSchema :=
  ResolveSchema_known_format localExternals sampleResolver 0 uuidSchema false "strfmt.UUID"
    rfl (by decide)

/-- C3 (as stated, refuted): the reference to the definition `Odd`, an object found in
the document whose `x-go-name` is a number, is resolved by no amount of fuel: the
unchecked assertion `gn.(string)` panics. -/
theorem ResolveSchema_ref_object_panics :
    (sampleResolver.Doc.Definitions.lookup "Odd").map (fun s => Contains s.Type_ "object")
        = some true ∧
      ¬ ∃ fuel, (ResolveSchema localExternals sampleResolver fuel (some (refTo "Odd"))
        false).isOk = true := by
  refine ⟨rfl, ?_⟩
  rintro ⟨fuel, h⟩
  cases fuel with
  | zero => exact absurd h (by decide)
  | succ n =>
    have : ResolveSchema localExternals sampleResolver (n + 1) (some (refTo "Odd")) false
        = Res.panic := rfl
    rw [this] at h
    exact absurd h (by decide)

/-- C3 (amended): a reference whose target is found, declares `object` among its types
and has an `x-go-name` extension that is a string or absent resolves, with any fuel of
at least one and in either context, to exactly the named complex object: Go type
`ModelsPackage.N` with `N` the `x-go-name` or else the Go name of the last segment of
the fragment, Swagger type `object`, complex object, nullable, and every other field
zero (no element type, tuple types or property types). Neither the other fields of the
referencing schema nor the properties of the target occur in the result. -/
theorem ResolveSchema_ref_object (x : Externals) (t : typeResolver) (fuel : Nat)
    (schema : Schema) (isAnonymous : Bool) (url : URL) (ref : Schema)
    (hRef : schema.Ref = some url)
    (hFound : x.ResolveRef t.Doc url = Except.ok ref)
    (hObj : Contains ref.Type_ "object" = true)
    (hName : ∀ v, ref.Extensions.lookup "x-go-name" = some v → ∃ gn, v = JSONValue.string gn) :
    ResolveSchema x t (fuel + 1) (some schema) isAnonymous =
      Res.ok { resolvedType.zero with
        IsNullable := true
        GoType := t.ModelsPackage ++ "." ++
          (match ref.Extensions.lookup "x-go-name" with
            | some (JSONValue.string gn) => gn
            | _ => x.ToGoName (x.Base url.Fragment))
        SwaggerType := "object"
        IsComplexObject := true } := by
  have hNull : isNullable ref = true := by
    unfold isNullable
    rw [hObj]
    rfl
  rw [ResolveSchema_some]
  unfold resolveSchemaRef
  simp only [hRef, hFound]
  unfold refTypeName
  cases hgn : ref.Extensions.lookup "x-go-name" with
  | none => simp [hObj, hNull, resolvedType.zero]
  | some v =>
    obtain ⟨gn, rfl⟩ := hName v hgn
    simp [hObj, hNull, resolvedType.zero]

/-- C3 (amended) at the reference to `Label`, an object named `Tag` by `x-go-name` and
carrying a property of unknown type: the result is the complex object `models.Tag`. -/
theorem ResolveSchema_ref_object_witness :
    ResolveSchema localExternals sampleResolver 1 (some (refTo "Label")) true =
      Res.ok { resolvedType.zero with
        IsNullable := true
        GoType := "models.Tag"
        SwaggerType := "object"
        IsComplexObject := true } :=
  ResolveSchema_ref_object localExternals sampleResolver 0 (refTo "Label") true
    { Location := "", Fragment := "/definitions/Label" } labelSchema rfl rfl rfl
    (by
      intro v hv
      have hl : labelSchema.Extensions.lookup "x-go-name" = some (JSONValue.string "Tag") := rfl
      rw [hl] at hv
      exact ⟨"Tag", (Option.some.inj hv).symm⟩)

/-- C4 (code at the failing input): the reference to the definition `Name`,
`{type: string, x-isnullable: true}`, resolves to the primitive string with
`IsNullable = false`, although `isNullable` of the target is true: the assignment
`result, err = t.ResolveSchema(ref, true)` replaces the result in which
`resolveSchemaRef` had recorded the nullability of the target. -/
theorem ResolveSchema_ref_drops_nullable (fuel : Nat) :
    ∃ r, ResolveSchema localExternals sampleResolver (fuel + 2) (some (refTo "Name")) false
        = Res.ok r ∧
      r.IsNullable = false ∧ isNullable nameSchema = true ∧
      r.IsArray = false ∧ r.IsTuple = false ∧ r.IsMap = false ∧ r.GoType = "string" :=
  ⟨_, rfl, rfl, rfl, rfl, rfl, rfl, rfl⟩

/-- C5 (code at the failing input): the reference to the definition `Any`,
`{description: "anything"}`, a schema that declares no type, is found by the document
and resolves, in a context that is not anonymous, to the open map
`map[string]interface{}` with `IsAnonymous = true`: the assignment
`result, err = t.ResolveSchema(ref, true)` replaces the result in which
`resolveSchemaRef` had set `IsAnonymous = false`, and `resolveObject` runs in an
anonymous context. -/
theorem ResolveSchema_ref_stays_anonymous (fuel : Nat) :
    sampleDoc.Definitions.lookup "Any" = some anySchema ∧
      anySchema.Type_ = [] ∧ anySchema.Description = "anything" ∧
      ∃ r, ResolveSchema localExternals sampleResolver (fuel + 2) (some (refTo "Any")) false
          = Res.ok r ∧
        r.IsAnonymous = true ∧ r.IsMap = true ∧ r.GoType = "map[string]interface\x7b\x7d" :=
  ⟨rfl, rfl, rfl, _, rfl, rfl, rfl, rfl⟩

/-- C6: whenever `ResolveSchema` succeeds, with whatever fuel, document, schema and
context, a result that is an array, a tuple or a map is not nullable. -/
theorem ResolveSchema_container_not_nullable (x : Externals) (t : typeResolver) (fuel : Nat)
    (s : Option Schema) (a : Bool) (r : resolvedType)
    (h : ResolveSchema x t fuel s a = Res.ok r)
    (hc : r.IsArray = true ∨ r.IsTuple = true ∨ r.IsMap = true) : r.IsNullable = false := by
  induction fuel generalizing s a with
  | zero => cases h
  | succ n ih =>
    rcases ResolveSchema_ok_cases x t n s a r h with
      rfl | ⟨nl, g, rfl⟩ | ⟨ref, href⟩ | ⟨st, sf, g, nl, rfl⟩ | ⟨schema, hsw⟩
    · rfl
    · simp [resolvedType.zero] at hc
    · exact ih _ _ href
    · simp [resolvedType.zero] at hc
    · rcases resolveByType_ok_cases hsw with harr | hobj | ⟨g, st, p, rfl, _⟩
      · exact (resolveArray_flags harr).1
      · obtain ⟨_, h2, h3, _, h5⟩ := resolveObject_flags hobj
        rcases h5 with ⟨_, hn⟩ | ⟨hm, _⟩
        · exact hn
        · rw [h2, h3, hm] at hc
          simp at hc
      · simp [resolvedType.zero] at hc

/-- C6 at the reference to `Tags`, `{type: array, x-isnullable: true, items: string}`:
`isNullable` of the target is true and the resolved array is not nullable. -/
theorem ResolveSchema_container_not_nullable_witness :
    ResolveSchema localExternals sampleResolver 3 (some (refTo "Tags")) false
        = Res.ok stringArrayType ∧
      (stringArrayType.IsArray = true ∨ stringArrayType.IsTuple = true ∨
        stringArrayType.IsMap = true) ∧
      isNullable tagsSchema = true ∧ stringArrayType.IsNullable = false :=
  ⟨rfl, Or.inl rfl, rfl,
    ResolveSchema_container_not_nullable localExternals sampleResolver 3
      (some (refTo "Tags")) false stringArrayType rfl (Or.inl rfl)⟩

/-- C7 (as stated, refuted): the schema `{type: file}` resolves to a result on which
none of the five classifications holds. -/
theorem ResolveSchema_file_unclassified :
    ∃ r, ResolveSchema localExternals sampleResolver 1 (some (typed "file")) false = Res.ok r ∧
      (classifications r).count true = 0 :=
  ⟨_, rfl, by decide⟩

/-- C7 (amended): whenever `ResolveSchema` succeeds, the result is never both an array
and a tuple, and either exactly one of the five classifications holds, or none holds
and the Go type is `httpkit.File` or empty, or exactly the two classifications map and
complex object hold. -/
theorem ResolveSchema_classification (x : Externals) (t : typeResolver) (fuel : Nat)
    (s : Option Schema) (a : Bool) (r : resolvedType)
    (h : ResolveSchema x t fuel s a = Res.ok r) :
    ¬ (r.IsArray = true ∧ r.IsTuple = true) ∧
      ((classifications r).count true = 1 ∨
        ((classifications r).count true = 0 ∧ (r.GoType = "httpkit.File" ∨ r.GoType = "")) ∨
        classifications r = [false, false, true, true, false]) := by
  induction fuel generalizing s a with
  | zero => cases h
  | succ n ih =>
    rcases ResolveSchema_ok_cases x t n s a r h with
      rfl | ⟨nl, g, rfl⟩ | ⟨ref, href⟩ | ⟨st, sf, g, nl, rfl⟩ | ⟨schema, hsw⟩
    · exact ⟨by decide, Or.inl (by decide)⟩
    · exact ⟨by simp [resolvedType.zero], Or.inl (by simp [classifications, resolvedType.zero])⟩
    · exact ih _ _ href
    · exact ⟨by simp [resolvedType.zero], Or.inl (by simp [classifications, resolvedType.zero])⟩
    · rcases resolveByType_ok_cases hsw with harr | hobj | ⟨g, st, p, rfl, hp⟩
      · obtain ⟨_, h1, h2, h3, h4, h5⟩ := resolveArray_flags harr
        rcases h5 with ⟨ha, ht⟩ | ⟨ha, ht⟩
        · exact ⟨by simp [ha, ht], Or.inl (by simp [classifications, h1, h2, h3, h4, ha, ht])⟩
        · exact ⟨by simp [ha, ht], Or.inl (by simp [classifications, h1, h2, h3, h4, ha, ht])⟩
      · obtain ⟨h1, h2, h3, h4, h5⟩ := resolveObject_flags hobj
        refine ⟨by simp [h2], ?_⟩
        rcases h5 with ⟨hm, _⟩ | ⟨hm, hc | hg⟩
        · cases hc : r.IsComplexObject
          · exact Or.inl (by simp [classifications, h1, h2, h3, h4, hm, hc])
          · exact Or.inr (Or.inr (by simp [classifications, h1, h2, h3, h4, hm, hc]))
        · exact Or.inl (by simp [classifications, h1, h2, h3, h4, hm, hc])
        · cases hc : r.IsComplexObject
          · exact Or.inr (Or.inl ⟨by simp [classifications, h1, h2, h3, h4, hm, hc], Or.inr hg⟩)
          · exact Or.inl (by simp [classifications, h1, h2, h3, h4, hm, hc])
      · refine ⟨by simp [resolvedType.zero], ?_⟩
        rcases hp with rfl | rfl
        · exact Or.inl (by simp [classifications, resolvedType.zero])
        · cases p
          · exact Or.inr (Or.inl ⟨by simp [classifications, resolvedType.zero], Or.inl rfl⟩)
          · exact Or.inl (by simp [classifications, resolvedType.zero])

/-- C7 (amended) at an object with a property and additional properties of type
integer, resolved in an anonymous context: the result is both a map and a complex
object. -/
theorem ResolveSchema_classification_witness :
    ∃ r, ResolveSchema localExternals sampleResolver 2 (some mapWithProperties) true = Res.ok r ∧
      classifications r = [false, false, true, true, false] ∧
      (¬ (r.IsArray = true ∧ r.IsTuple = true) ∧
        ((classifications r).count true = 1 ∨
          ((classifications r).count true = 0 ∧ (r.GoType = "httpkit.File" ∨ r.GoType = "")) ∨
          classifications r = [false, false, true, true, false])) :=
  ⟨_, rfl, rfl,
    ResolveSchema_classification localExternals sampleResolver 2 (some mapWithProperties) true
      _ rfl⟩

/-! ### The `switch` on the declared type -/

/-- The first declared type is outside the recognised tokens exactly when the first
token of the type list is not empty and none of them. -/
theorem firstType_not_recognised_iff (schema : Schema) :
    firstType schema ∉ recognisedTypes ↔
      ∃ tok rest, schema.Type_ = tok :: rest ∧ tok ≠ "" ∧ tok ∉ recognisedTypes := by
  unfold firstType
  cases hT : schema.Type_ with
  | nil => simp [recognisedTypes]
  | cons tok rest =>
    by_cases he : tok = ""
    · subst he
      simp [recognisedTypes]
    · simp [he]

/-- With no schema under `items` and `additionalItems`, `resolveArray` returns a
result as soon as the nested call on a nil schema does. -/
theorem resolveArray_leaf (f : Option Schema → Bool → Res resolvedType) (schema : Schema)
    (hf : ∀ b, f none b = Res.ok interfaceType)
    (hItems : ∀ items, schema.Items = some items → items.Schema = none ∧ items.Schemas = [])
    (hAI : ∀ ai, schema.AdditionalItems = some ai → ai.Schema = none) :
    ∃ r, resolveArray f schema = Res.ok r := by
  have hbase : ∃ base, resolveAdditionalItems f schema
      { resolvedType.zero with IsArray := true, IsNullable := false } = Res.ok base := by
    unfold resolveAdditionalItems
    cases hai : schema.AdditionalItems with
    | none => exact ⟨_, rfl⟩
    | some ai =>
      simp only [hAI ai hai, hf, Res.bind_ok]
      split <;> exact ⟨_, rfl⟩
  obtain ⟨base, hb⟩ := hbase
  unfold resolveArray
  simp only [hb, Res.bind_ok]
  cases hit : schema.Items with
  | none => exact ⟨_, rfl⟩
  | some items =>
    obtain ⟨h1, h2⟩ := hItems items hit
    simp only [h1, h2, List.length_nil, lt_self_iff_false, if_false, hf, Res.bind_ok]
    exact ⟨_, rfl⟩

/-- With no properties and no schema under `additionalProperties`, `resolveObject`
returns the open map. -/
theorem resolveObject_leaf (f : Option Schema → Bool → Res resolvedType) (schema : Schema)
    (a : Bool) (hProps : schema.Properties = [])
    (hAP : ∀ ap, schema.AdditionalProperties = some ap → ap.Schema = none) :
    resolveObject f schema a =
      Res.ok { resolvedType.zero with
        IsAnonymous := a
        GoType := "map[string]interface\x7b\x7d"
        ElementType := some interfaceType
        IsMap := true
        SwaggerType := "object" } := by
  have haps : additionalPropertiesSchema schema = none := by
    unfold additionalPropertiesSchema
    cases hap : schema.AdditionalProperties with
    | none => rfl
    | some ap => exact hAP ap hap
  unfold resolveObject resolveProperties
  simp [haps, hProps, resolvedType.zero]

/-- On a schema without nested schemas the `switch` returns a result for a recognised
first type and the error `unresolvable` otherwise. -/
theorem resolveByType_leaf (f : Option Schema → Bool → Res resolvedType) (schema : Schema)
    (a : Bool) (hf : ∀ b, f none b = Res.ok interfaceType)
    (hItems : ∀ items, schema.Items = some items → items.Schema = none ∧ items.Schemas = [])
    (hAI : ∀ ai, schema.AdditionalItems = some ai → ai.Schema = none)
    (hProps : schema.Properties = [])
    (hAP : ∀ ap, schema.AdditionalProperties = some ap → ap.Schema = none) :
    (firstType schema ∈ recognisedTypes →
        (resolveByType f schema a).isOk = true ∧ (resolveByType f schema a).isError = false) ∧
      (firstType schema ∉ recognisedTypes →
        (resolveByType f schema a).isOk = false ∧ (resolveByType f schema a).isError = true) := by
  unfold resolveByType
  simp only
  split_ifs with h1 h2 h3 h4
  · obtain ⟨r, hr⟩ := resolveArray_leaf f schema hf hItems hAI
    simp [h1, recognisedTypes, hr, Res.isOk, Res.isError]
  · rcases h2 with h | h | h | h <;> simp [h, recognisedTypes, Res.isOk, Res.isError]
  · simp [h3, recognisedTypes, Res.isOk, Res.isError]
  · simp [h4, recognisedTypes, resolveObject_leaf f schema a hProps hAP, Res.isOk, Res.isError]
  · have hnot : firstType schema ∉ recognisedTypes := by
      simp only [recognisedTypes, List.mem_cons, List.mem_singleton, List.not_mem_nil,
        not_or, or_false]
      simp only [not_or] at h2
      exact ⟨h1, h2.1, h2.2.1, h2.2.2.1, h2.2.2.2, h3, h4⟩
    simp [hnot, Res.isOk, Res.isError]

/-- C8: for a schema that is not a reference, has no known format and no nested
schemas (no schema under items, additional items and additional properties, and no
properties), `ResolveSchema` (any fuel of at least two, either context) returns an
error exactly when the first declared type token is not empty and is none of array,
file, number, integer, boolean, string, object, and returns a result in every other
case; with no declared type or an empty first token the schema is dispatched as
`object` and the result is the open map. -/
theorem ResolveSchema_error_iff (x : Externals) (t : typeResolver) (fuel : Nat)
    (schema : Schema) (a : Bool)
    (hRef : schema.Ref = none)
    (hFmt : typeMapping.lookup (removeHyphens schema.Format) = none)
    (hItems : ∀ items, schema.Items = some items → items.Schema = none ∧ items.Schemas = [])
    (hAI : ∀ ai, schema.AdditionalItems = some ai → ai.Schema = none)
    (hProps : schema.Properties = [])
    (hAP : ∀ ap, schema.AdditionalProperties = some ap → ap.Schema = none) :
    ((ResolveSchema x t (fuel + 2) (some schema) a).isError = true ↔
        ∃ tok rest, schema.Type_ = tok :: rest ∧ tok ≠ "" ∧ tok ∉ recognisedTypes) ∧
      ((ResolveSchema x t (fuel + 2) (some schema) a).isOk = true ↔
        ¬ ∃ tok rest, schema.Type_ = tok :: rest ∧ tok ≠ "" ∧ tok ∉ recognisedTypes) ∧
      ((schema.Type_ = [] ∨ ∃ rest, schema.Type_ = "" :: rest) →
        firstType schema = "object" ∧
        ResolveSchema x t (fuel + 2) (some schema) a =
          Res.ok { resolvedType.zero with
            IsAnonymous := a
            GoType := "map[string]interface\x7b\x7d"
            ElementType := some interfaceType
            IsMap := true
            SwaggerType := "object" }) := by
  rw [ResolveSchema_by_type x t (fuel + 1) schema a hRef hFmt, ← firstType_not_recognised_iff]
  obtain ⟨hin, hout⟩ :=
    resolveByType_leaf (ResolveSchema x t (fuel + 1)) schema a (fun _ => rfl)
      hItems hAI hProps hAP
  refine ⟨?_, ?_, ?_⟩
  · constructor
    · intro he hmem
      rw [(hin hmem).2] at he
      cases he
    · exact fun hn => (hout hn).2
  · constructor
    · intro hok hn
      rw [(hout hn).1] at hok
      cases hok
    · intro hn
      exact (hin (not_not.mp hn)).1
  · intro hT
    have hfirst : firstType schema = "object" := by
      unfold firstType
      rcases hT with h | ⟨rest, h⟩ <;> simp [h]
    refine ⟨hfirst, ?_⟩
    unfold resolveByType
    simp [hfirst, resolveObject_leaf (ResolveSchema x t (fuel + 1)) schema a hProps hAP]

/-- C8 at `{type: bogus}`: an error; the hypotheses hold of this schema. -/
theorem ResolveSchema_error_iff_witness :
    (ResolveSchema localExternals sampleResolver 2 (some (typed "bogus")) false).isError = true ∧
      ∃ tok rest, (typed "bogus").Type_ = tok :: rest ∧ tok ≠ "" ∧ tok ∉ recognisedTypes :=
  have h := (ResolveSchema_error_iff localExternals sampleResolver 0 (typed "bogus") false
    rfl (by decide) (fun _ hi => nomatch hi) (fun _ hi => nomatch hi) rfl
    (fun _ hi => nomatch hi)).1
  ⟨rfl, h.mp rfl⟩

/-- C9: for a schema that is not a reference and has no known format, whose first
declared type is number, integer, boolean, string or file, `ResolveSchema` (any fuel of
at least one, either context) returns exactly the result with the Go type of the row
(`float64`, `int64`, `bool`, `string`, `httpkit.File`), the declared token as Swagger
type, `IsPrimitive` true except for file, and every other field zero: not an array, a
map, a tuple or a complex object. -/
theorem ResolveSchema_scalar (x : Externals) (t : typeResolver) (fuel : Nat)
    (schema : Schema) (a : Bool) (tpe goType : String) (prim : Bool)
    (hRef : schema.Ref = none)
    (hFmt : typeMapping.lookup (removeHyphens schema.Format) = none)
    (hType : firstType schema = tpe)
    (hRow : (tpe, goType, prim) ∈ scalarRows) :
    ∃ r, ResolveSchema x t (fuel + 1) (some schema) a = Res.ok r ∧
      r = { resolvedType.zero with GoType := goType, SwaggerType := tpe, IsPrimitive := prim } ∧
      r.GoType = goType ∧ r.SwaggerType = tpe ∧ r.IsPrimitive = prim ∧
      r.IsArray = false ∧ r.IsMap = false ∧ r.IsTuple = false ∧ r.IsComplexObject = false := by
  refine ⟨_, ?_, rfl, rfl, rfl, rfl, rfl, rfl, rfl, rfl⟩
  rw [ResolveSchema_by_type x t fuel schema a hRef hFmt]
  unfold resolveByType
  simp only [scalarRows, List.mem_cons, Prod.mk.injEq, List.mem_singleton, List.not_mem_nil,
    or_false] at hRow
  rcases hRow with ⟨rfl, rfl, rfl⟩ | ⟨rfl, rfl, rfl⟩ | ⟨rfl, rfl, rfl⟩ | ⟨rfl, rfl, rfl⟩ |
    ⟨rfl, rfl, rfl⟩ <;> rw [hType] <;> rfl

/-- C9 at `{type: file}`: the Go type is `httpkit.File` and the result is not
primitive. -/
theorem ResolveSchema_scalar_witness :
    ∃ r, ResolveSchema localExternals sampleResolver 1 (some (typed "file")) true = Res.ok r ∧
      r = { resolvedType.zero with
        GoType := "httpkit.File", SwaggerType := "file", IsPrimitive := false } ∧
      r.GoType = "httpkit.File" ∧ r.SwaggerType = "file" ∧ r.IsPrimitive = false ∧
      r.IsArray = false ∧ r.IsMap = false ∧ r.IsTuple = false ∧ r.IsComplexObject = false :=
  ResolveSchema_scalar localExternals sampleResolver 0 (typed "file") true "file"
    "httpkit.File" false rfl (by decide) rfl (by decide)

/-! ### Tuples -/

theorem Res.mapList_ok {α β : Type} {f : α → Res β} {xs : List α} {ys : List β}
    (h : List.Forall₂ (fun x y => f x = Res.ok y) xs ys) : Res.mapList f xs = Res.ok ys := by
  induction h with
  | nil => rfl
  | cons hxy _ ih => simp [Res.mapList, hxy, ih]

/-- Schemas that resolve one by one, each with its own fuel, resolve together with any
fuel above a common bound. -/
theorem ResolveSchema_common_fuel (x : Externals) (t : typeResolver) {ss : List Schema}
    {rs : List resolvedType}
    (h : List.Forall₂ (fun s r => ∃ n, ResolveSchema x t n (some s) true = Res.ok r) ss rs) :
    ∃ n, ∀ m, n ≤ m →
      List.Forall₂ (fun s r => ResolveSchema x t m (some s) true = Res.ok r) ss rs := by
  induction h with
  | nil => exact ⟨0, fun _ _ => List.Forall₂.nil⟩
  | cons hsr _ ih =>
    obtain ⟨n1, h1⟩ := hsr
    obtain ⟨n2, h2⟩ := ih
    refine ⟨max n1 n2, fun m hm => List.Forall₂.cons ?_ (h2 m (le_trans (le_max_right _ _) hm))⟩
    rw [ResolveSchema_mono x t (le_trans (le_max_left _ _) hm) _ _ (by rw [h1]; simp), h1]

/-- C10 (as stated, refuted): the items of `tupleWithBadAdditionalItems`, the list
`[string, integer]`, each resolve, yet no amount of fuel resolves the array schema:
its additional items have an unknown type and the error is returned before the items
are looked at. -/
theorem ResolveSchema_tuple_fails :
    List.Forall₂
        (fun s r => ResolveSchema localExternals sampleResolver 1 (some s) true = Res.ok r)
        [typed "string", typed "integer"] [stringType, integerType] ∧
      ¬ ∃ fuel, (ResolveSchema localExternals sampleResolver fuel
        (some tupleWithBadAdditionalItems) false).isOk = true := by
  refine ⟨List.Forall₂.cons rfl (List.Forall₂.cons rfl List.Forall₂.nil), ?_⟩
  rintro ⟨fuel, h⟩
  match fuel with
  | 0 => exact absurd h (by decide)
  | 1 => exact absurd h (by decide)
  | n + 2 =>
    have : ResolveSchema localExternals sampleResolver (n + 2)
        (some tupleWithBadAdditionalItems) false
        = Res.error (ResolveError.unresolvable ["bogus"] "") := rfl
    rw [this] at h
    exact absurd h (by decide)

/-- C10 (amended): for an array schema, not a reference and without a known format,
whose items are a non-empty list of schemas that each resolve in an anonymous context,
and whose additional items, when the schema allows them or gives them a schema,
resolve as well, `ResolveSchema` returns, with any fuel above some bound and in either
context, a tuple that is not an array and whose tuple types are the results of the
items, one for each item and in the declared order. -/
theorem ResolveSchema_tuple (x : Externals) (t : typeResolver) (schema : Schema) (a : Bool)
    (items : SchemaOrArray) (ets : List resolvedType)
    (hRef : schema.Ref = none)
    (hFmt : typeMapping.lookup (removeHyphens schema.Format) = none)
    (hType : firstType schema = "array")
    (hItems : schema.Items = some items)
    (hNonEmpty : items.Schemas ≠ [])
    (hAdditional : ∀ ai, schema.AdditionalItems = some ai →
      (ai.Allows || ai.Schema.isSome) = true →
      ∃ n rs, ResolveSchema x t n ai.Schema true = Res.ok rs)
    (hEach : List.Forall₂
      (fun s r => ∃ n, ResolveSchema x t n (some s) true = Res.ok r) items.Schemas ets) :
    ∃ n, ∀ m, n ≤ m →
      ∃ r, ResolveSchema x t m (some schema) a = Res.ok r ∧
        r.IsTuple = true ∧ r.IsArray = false ∧ r.TupleTypes = ets ∧
        r.TupleTypes.length = items.Schemas.length := by
  obtain ⟨n1, h1⟩ := ResolveSchema_common_fuel x t hEach
  have hlen : 0 < items.Schemas.length := List.length_pos.mpr hNonEmpty
  have hAdd : ∃ n2, ∀ m, n2 ≤ m → ∃ base : resolvedType,
      resolveAdditionalItems (ResolveSchema x t m) schema
        { resolvedType.zero with IsArray := true, IsNullable := false } = Res.ok base ∧
      base.IsArray = true ∧ base.IsTuple = false := by
    unfold resolveAdditionalItems
    cases hai : schema.AdditionalItems with
    | none => exact ⟨0, fun m _ => ⟨_, rfl, rfl, rfl⟩⟩
    | some ai =>
      by_cases hc : (ai.Allows || ai.Schema.isSome) = true
      · obtain ⟨n2, rs, h2⟩ := hAdditional ai hai hc
        refine ⟨n2, fun m hm => ?_⟩
        have hm2 : ResolveSchema x t m ai.Schema true = Res.ok rs := by
          rw [ResolveSchema_mono x t hm _ _ (by rw [h2]; simp), h2]
        simp only [hc, if_true, hm2, Res.bind_ok]
        exact ⟨_, rfl, rfl, rfl⟩
      · simp only [hc]
        exact ⟨0, fun m _ => ⟨_, rfl, rfl, rfl⟩⟩
  obtain ⟨n2, h2⟩ := hAdd
  refine ⟨max n1 n2 + 1, fun m hm => ?_⟩
  obtain ⟨k, rfl⟩ : ∃ k, m = k + 1 := ⟨m - 1, by omega⟩
  have hk1 : n1 ≤ k := by have := le_max_left n1 n2; omega
  have hk2 : n2 ≤ k := by have := le_max_right n1 n2; omega
  obtain ⟨base, hbase, hbA, hbT⟩ := h2 k hk2
  have hmap := Res.mapList_ok (h1 k hk1)
  rw [ResolveSchema_by_type x t k schema a hRef hFmt]
  unfold resolveByType
  simp only [hType, if_true]
  unfold resolveArray
  simp only [hbase, Res.bind_ok, hItems, hlen, if_true, hmap]
  exact ⟨_, rfl, rfl, rfl, rfl, (List.Forall₂.length_eq hEach).symm⟩

/-- C10 (amended) at the tuple `[string, integer]` with additional items of type
boolean: the tuple types are the primitive string and the primitive `int64`, in that
order. -/
theorem ResolveSchema_tuple_witness :
    ∃ n, ∀ m, n ≤ m →
      ∃ r, ResolveSchema localExternals sampleResolver m (some tupleSchema) false = Res.ok r ∧
        r.IsTuple = true ∧ r.IsArray = false ∧ r.TupleTypes = [stringType, integerType] ∧
        r.TupleTypes.length = [typed "string", typed "integer"].length :=
  ResolveSchema_tuple localExternals sampleResolver tupleSchema false
    { Schemas := [typed "string", typed "integer"] } [stringType, integerType]
    rfl (by decide) rfl rfl (by simp)
    (fun ai hai _ => by
      have hb : tupleSchema.AdditionalItems = some { Schema := some (typed "boolean") } := rfl
      rw [hb] at hai
      cases hai
      exact ⟨1, _, rfl⟩)
    (List.Forall₂.cons ⟨1, rfl⟩ (List.Forall₂.cons ⟨1, rfl⟩ List.Forall₂.nil))

/-! ### Maps -/

/-- Properties that resolve one by one, each with its own fuel, resolve together with
any fuel above a common bound. -/
theorem resolveProperties_common_fuel (x : Externals) (t : typeResolver)
    (props : List (String × Schema))
    (h : ∀ kp ∈ props, ∃ n r, ResolveSchema x t n (some kp.2) true = Res.ok r) :
    ∃ n, ∀ m, n ≤ m → ∃ pts,
      Res.mapList
        (fun kp : String × Schema =>
          (ResolveSchema x t m (some kp.2) true).bind fun prt => Res.ok (kp.1, prt))
        props = Res.ok pts := by
  induction props with
  | nil => exact ⟨0, fun _ _ => ⟨[], rfl⟩⟩
  | cons kp rest ih =>
    obtain ⟨n1, r, h1⟩ := h kp (List.mem_cons_self _ _)
    obtain ⟨n2, h2⟩ := ih fun kp' hkp' => h kp' (List.mem_cons_of_mem _ hkp')
    refine ⟨max n1 n2, fun m hm => ?_⟩
    obtain ⟨pts, hpts⟩ := h2 m (le_trans (le_max_right _ _) hm)
    have hm1 : ResolveSchema x t m (some kp.2) true = Res.ok r := by
      rw [ResolveSchema_mono x t (le_trans (le_max_left _ _) hm) _ _ (by rw [h1]; simp), h1]
    exact ⟨(kp.1, r) :: pts, by simp [Res.mapList, hm1, hpts]⟩

/-- C11 (as stated, refuted): the additional-properties schema of `mapWithBadProperty`
resolves, yet in an anonymous context no amount of fuel resolves the schema: its
inline property has an unknown type and `resolveObject` returns that error before it
looks at the additional properties. -/
theorem ResolveSchema_map_fails :
    additionalPropertiesSchema mapWithBadProperty = some (typed "integer") ∧
      ResolveSchema localExternals sampleResolver 1 (some (typed "integer")) true
        = Res.ok integerType ∧
      ¬ ∃ fuel, (ResolveSchema localExternals sampleResolver fuel (some mapWithBadProperty)
        true).isOk = true := by
  refine ⟨rfl, rfl, ?_⟩
  rintro ⟨fuel, h⟩
  match fuel with
  | 0 => exact absurd h (by decide)
  | 1 => exact absurd h (by decide)
  | n + 2 =>
    have : ResolveSchema localExternals sampleResolver (n + 2) (some mapWithBadProperty) true
        = Res.error (ResolveError.unresolvable ["bogus"] "") := rfl
    rw [this] at h
    exact absurd h (by decide)

/-- C11 (amended): for a schema that is not a reference and has no known format, whose
first declared type is `object` (or undeclared), whose additional properties carry a
schema that resolves in an anonymous context to `E`, and whose inline properties, when
the context is anonymous, each resolve, `ResolveSchema` returns, with any fuel above
some bound, a map of Go type `map[string]` followed by the Go type of `E`, with element
type `E`, not nullable. In a context that is not anonymous the inline properties are
not looked at. -/
theorem ResolveSchema_map (x : Externals) (t : typeResolver) (schema : Schema) (a : Bool)
    (aps : Schema) (E : resolvedType)
    (hRef : schema.Ref = none)
    (hFmt : typeMapping.lookup (removeHyphens schema.Format) = none)
    (hType : firstType schema = "object")
    (hAP : additionalPropertiesSchema schema = some aps)
    (hE : ∃ n, ResolveSchema x t n (some aps) true = Res.ok E)
    (hProps : a = true →
      ∀ kp ∈ schema.Properties, ∃ n r, ResolveSchema x t n (some kp.2) true = Res.ok r) :
    ∃ n, ∀ m, n ≤ m →
      ∃ r, ResolveSchema x t m (some schema) a = Res.ok r ∧
        r.IsMap = true ∧ r.GoType = "map[string]" ++ E.GoType ∧ r.ElementType = some E ∧
        r.IsNullable = false := by
  obtain ⟨n1, h1⟩ := hE
  have hP : ∃ n2, ∀ m, n2 ≤ m → ∃ base : resolvedType,
      resolveProperties (ResolveSchema x t m) schema a
        { resolvedType.zero with IsAnonymous := a, IsNullable := isNullable schema }
        = Res.ok base := by
    unfold resolveProperties
    by_cases hc : (a && decide (schema.Properties.length > 0)) = true
    · have ha : a = true := by
        cases a
        · simp at hc
        · rfl
      obtain ⟨n2, h2⟩ := resolveProperties_common_fuel x t schema.Properties (hProps ha)
      refine ⟨n2, fun m hm => ?_⟩
      obtain ⟨pts, hpts⟩ := h2 m hm
      simp only [hc, if_true, hpts, Res.bind_ok]
      exact ⟨_, rfl⟩
    · simp only [hc]
      exact ⟨0, fun m _ => ⟨_, rfl⟩⟩
  obtain ⟨n2, h2⟩ := hP
  refine ⟨max n1 n2 + 1, fun m hm => ?_⟩
  obtain ⟨k, rfl⟩ : ∃ k, m = k + 1 := ⟨m - 1, by omega⟩
  have hk1 : n1 ≤ k := by have := le_max_left n1 n2; omega
  have hk2 : n2 ≤ k := by have := le_max_right n1 n2; omega
  obtain ⟨base, hbase⟩ := h2 k hk2
  have hE' : ResolveSchema x t k (some aps) true = Res.ok E := by
    rw [ResolveSchema_mono x t hk1 _ _ (by rw [h1]; simp), h1]
  rw [ResolveSchema_by_type x t k schema a hRef hFmt]
  unfold resolveByType
  simp only [hType]
  unfold resolveObject
  simp only [hbase, Res.bind_ok, hAP, hE']
  exact ⟨_, rfl, rfl, rfl, rfl, rfl⟩

/-- C11 (amended) at `{type: object, additionalProperties: {type: integer}}`: the Go
type is `map[string]int64`. -/
theorem ResolveSchema_map_witness :
    "map[string]" ++ integerType.GoType = "map[string]int64" ∧
      ∃ n, ∀ m, n ≤ m →
        ∃ r, ResolveSchema localExternals sampleResolver m (some intMapSchema) false = Res.ok r ∧
          r.IsMap = true ∧ r.GoType = "map[string]" ++ integerType.GoType ∧
          r.ElementType = some integerType ∧ r.IsNullable = false :=
  ⟨by decide,
    ResolveSchema_map localExternals sampleResolver intMapSchema false (typed "integer")
      integerType rfl (by decide) rfl rfl ⟨1, rfl⟩ (fun h => nomatch h)⟩

/-! ## The model builder -/

theorem makeGenModelProperty_succ (x : Externals) (fuel : Nat) (params : propGenBuildParams) :
    makeGenModelProperty x (fuel + 1) params =
      (modelValidations x fuel params false).bind fun validations =>
        (buildItems (makeGenModelProperty x fuel) params).bind fun items =>
          (buildAdditionalItems (makeGenModelProperty x fuel) params).bind
            fun additionalItems =>
              Res.ok (assembleProperty x params validations items additionalItems) := rfl

theorem modelValidations_ok {x : Externals} {fuel : Nat} {params : propGenBuildParams}
    {a : Bool} {cv : commonValidations} (h : modelValidations x fuel params a = Res.ok cv) :
    ∃ tpe, ResolveSchema x params.TypeResolver fuel (some params.Schema) a = Res.ok tpe ∧
      cv = validationsOf params tpe := by
  unfold modelValidations at h
  obtain ⟨tpe, htpe, hcv⟩ := Res.bind_eq_ok h
  cases hcv
  exact ⟨tpe, htpe, rfl⟩

/-- A property that was built is the literal assembled from the resolved type of its
schema, its items and its additional items. -/
theorem makeGenModelProperty_ok {x : Externals} {fuel : Nat} {params : propGenBuildParams}
    {gmp : genModelProperty} (h : makeGenModelProperty x fuel params = Res.ok gmp) :
    ∃ n tpe items additionalItems, fuel = n + 1 ∧
      ResolveSchema x params.TypeResolver n (some params.Schema) false = Res.ok tpe ∧
      buildItems (makeGenModelProperty x n) params = Res.ok items ∧
      buildAdditionalItems (makeGenModelProperty x n) params = Res.ok additionalItems ∧
      gmp = assembleProperty x params (validationsOf params tpe) items additionalItems := by
  cases fuel with
  | zero => cases h
  | succ n =>
    rw [makeGenModelProperty_succ] at h
    obtain ⟨cv, hcv, h1⟩ := Res.bind_eq_ok h
    obtain ⟨items, hitems, h2⟩ := Res.bind_eq_ok h1
    obtain ⟨ai, hai, h3⟩ := Res.bind_eq_ok h2
    obtain ⟨tpe, htpe, rfl⟩ := modelValidations_ok hcv
    cases h3
    exact ⟨n, tpe, items, ai, rfl, htpe, hitems, hai, rfl⟩

/-- C15: the context `pg.NewSliceBranch(s)` has `Required = false` and `Schema = s`,
whatever `pg.Required` is; the validations that `modelValidations` derives in that
context, with any fuel and in either context of resolution, have `Required = false`;
and `makeGenModelProperty` builds the child of a single items schema, of every schema
of an items list and of the additional items in such a context only: the items and the
additional items are the same when the builder of the children refuses every context
that is required. -/
theorem NewSliceBranch_not_required (x : Externals) (pg : propGenBuildParams) (s : Schema)
    (build : propGenBuildParams → Res genModelProperty) :
    (pg.NewSliceBranch s).Required = false ∧ (pg.NewSliceBranch s).Schema = s ∧
      (∀ fuel a cv, modelValidations x fuel (pg.NewSliceBranch s) a = Res.ok cv →
        cv.Required = false) ∧
      buildItems build pg =
        buildItems (fun c => if c.Required = false then build c else Res.panic) pg ∧
      buildAdditionalItems build pg =
        buildAdditionalItems (fun c => if c.Required = false then build c else Res.panic) pg := by
  refine ⟨rfl, rfl, ?_, ?_, ?_⟩
  · intro fuel a cv h
    obtain ⟨tpe, _, rfl⟩ := modelValidations_ok h
    rfl
  · unfold buildItems
    cases pg.Schema.Items with
    | none => rfl
    | some items =>
      cases items.Schema with
      | none => rfl
      | some el => rfl
  · unfold buildAdditionalItems
    cases pg.Schema.AdditionalItems with
    | none => rfl
    | some ai =>
      cases ai.Schema with
      | none => rfl
      | some el => rfl

/-- C15 at the required property `tags` of type array of strings: the validations of
its element are not required. -/
theorem NewSliceBranch_not_required_witness :
    (sampleParams "tags" stringArraySchema true).Required = true ∧
      modelValidations localExternals 1
          ((sampleParams "tags" stringArraySchema true).NewSliceBranch (typed "string")) false
        = Res.ok (validationsOf
          ((sampleParams "tags" stringArraySchema true).NewSliceBranch (typed "string"))
          stringType) ∧
      (validationsOf
        ((sampleParams "tags" stringArraySchema true).NewSliceBranch (typed "string"))
        stringType).Required = false :=
  ⟨rfl, rfl,
    (NewSliceBranch_not_required localExternals (sampleParams "tags" stringArraySchema true)
      (typed "string") (makeGenModelProperty localExternals 1)).2.2.1 1 false _ rfl⟩

/-- The items of a single items schema are one child. -/
theorem buildItems_single {build : propGenBuildParams → Res genModelProperty}
    {params : propGenBuildParams} {items : List genModelProperty}
    (hSingle : singleSchemaSlice params.Schema = true)
    (h : buildItems build params = Res.ok items) : items.length = 1 := by
  unfold singleSchemaSlice at hSingle
  unfold buildItems at h
  cases hit : params.Schema.Items with
  | none => simp [hit] at hSingle
  | some it =>
    simp only [hit] at hSingle h
    cases hs : it.Schema with
    | none => simp [hs] at hSingle
    | some el =>
      simp only [hs] at h
      obtain ⟨elProp, _, hel⟩ := Res.bind_eq_ok h
      cases hel
      rfl

/-- Without an items specification there is no child. -/
theorem buildItems_none {build : propGenBuildParams → Res genModelProperty}
    {params : propGenBuildParams} {items : List genModelProperty}
    (hNone : params.Schema.Items = none)
    (h : buildItems build params = Res.ok items) : items = [] := by
  unfold buildItems at h
  rw [hNone] at h
  cases h
  rfl

/-- C16 (as stated, refuted): the optional property `tags` of `Pet`, an array with a
single items schema, no additional items and no item-count or uniqueness constraint,
is built with `HasSliceValidations = true`. -/
theorem makeGenModelProperty_tags_slice_validations :
    stringArraySchema.AdditionalItems.isNone = true ∧
      stringArraySchema.MaxItems = none ∧ stringArraySchema.MinItems = none ∧
      stringArraySchema.UniqueItems = false ∧
      ∃ gmp, makeGenModelProperty localExternals 3 (sampleParams "tags" stringArraySchema false)
          = Res.ok gmp ∧
        gmp.sharedParam.HasSliceValidations = true :=
  ⟨rfl, rfl, rfl, rfl, _, rfl, rfl⟩

/-- C16 (amended): a property whose schema has a single items schema, once built, has
`HasSliceValidations = true`, whatever its item-count and uniqueness constraints: the
flag is `len(items) > 0 || hasAdditionalItems` and the single items schema gives one
item. -/
theorem makeGenModelProperty_single_slice_validations (x : Externals) (fuel : Nat)
    (params : propGenBuildParams) (gmp : genModelProperty)
    (hSingle : singleSchemaSlice params.Schema = true)
    (h : makeGenModelProperty x fuel params = Res.ok gmp) :
    gmp.sharedParam.HasSliceValidations = true := by
  obtain ⟨n, tpe, items, ai, _, _, hitems, _, rfl⟩ := makeGenModelProperty_ok h
  have hlen := buildItems_single hSingle hitems
  simp [assembleProperty, hlen]

/-- C16 (amended) at the property `tags` of `Pet`. -/
theorem makeGenModelProperty_single_slice_validations_witness :
    singleSchemaSlice (sampleParams "tags" stringArraySchema false).Schema = true ∧
      (makeGenModelProperty localExternals 3 (sampleParams "tags" stringArraySchema false)).isOk
        = true ∧
      ((assembleProperty localExternals (sampleParams "tags" stringArraySchema false)
        (validationsOf (sampleParams "tags" stringArraySchema false) stringArrayType)
        [assembleProperty localExternals
          ((sampleParams "tags" stringArraySchema false).NewSliceBranch (typed "string"))
          (validationsOf
            ((sampleParams "tags" stringArraySchema false).NewSliceBranch (typed "string"))
            stringType) [] none]
        none).sharedParam.HasSliceValidations = true) :=
  ⟨rfl, rfl,
    makeGenModelProperty_single_slice_validations localExternals 3
      (sampleParams "tags" stringArraySchema false) _ rfl rfl⟩

/-- C17 (as stated, refuted): the property `tags` of `Pet`, built with
`Required = false` from a schema that declares none of maximum, minimum, maxLength,
minLength, pattern, maxItems, minItems, uniqueItems, multipleOf and enum, has
`HasValidations = true`: the schema declares an items schema, and
`ctx.HasValidations = ctx.HasValidations || ctx.HasSliceValidations`. -/
theorem makeGenModelProperty_tags_validations :
    (sampleParams "tags" stringArraySchema false).Required = false ∧
      (stringArraySchema.Maximum = none ∧ stringArraySchema.Minimum = none ∧
        stringArraySchema.MaxLength = none ∧ stringArraySchema.MinLength = none ∧
        stringArraySchema.Pattern = "" ∧ stringArraySchema.MaxItems = none ∧
        stringArraySchema.MinItems = none ∧ stringArraySchema.UniqueItems = false ∧
        stringArraySchema.MultipleOf = none ∧ stringArraySchema.Enum = []) ∧
      ∃ gmp, makeGenModelProperty localExternals 3 (sampleParams "tags" stringArraySchema false)
          = Res.ok gmp ∧
        gmp.sharedParam.HasValidations = true :=
  ⟨rfl, ⟨rfl, rfl, rfl, rfl, rfl, rfl, rfl, rfl, rfl, rfl⟩, _, rfl, rfl⟩

/-- The schema declares none of maximum, minimum, maxLength, minLength, pattern,
maxItems, minItems, uniqueItems, multipleOf and enum. -/
theorem makeGenValidations_unconstrained (params : propGenBuildParams) (tpe : resolvedType)
    (hReq : params.Required = false)
    (hMax : params.Schema.Maximum = none) (hMin : params.Schema.Minimum = none)
    (hMaxLen : params.Schema.MaxLength = none) (hMinLen : params.Schema.MinLength = none)
    (hPat : params.Schema.Pattern = "")
    (hMaxItems : params.Schema.MaxItems = none) (hMinItems : params.Schema.MinItems = none)
    (hUnique : params.Schema.UniqueItems = false)
    (hMul : params.Schema.MultipleOf = none) (hEnum : params.Schema.Enum = []) :
    (makeGenValidations (validationsOf params tpe)).HasValidations = false := by
  simp [makeGenValidations, validationsOf, hReq, hMax, hMin, hMaxLen, hMinLen, hPat,
    hMaxItems, hMinItems, hUnique, hMul, hEnum]

/-- C17 (amended): a property built with `Required = false` from a schema that declares
none of maximum, minimum, maxLength, minLength, pattern, maxItems, minItems,
uniqueItems, multipleOf and enum has `HasValidations` equal to `HasSliceValidations`:
false when the schema has no items specification and no additional items that are
allowed or have a schema, true when the schema has a single items schema. -/
theorem makeGenModelProperty_unconstrained (x : Externals) (fuel : Nat)
    (params : propGenBuildParams) (gmp : genModelProperty)
    (h : makeGenModelProperty x fuel params = Res.ok gmp)
    (hReq : params.Required = false)
    (hMax : params.Schema.Maximum = none) (hMin : params.Schema.Minimum = none)
    (hMaxLen : params.Schema.MaxLength = none) (hMinLen : params.Schema.MinLength = none)
    (hPat : params.Schema.Pattern = "")
    (hMaxItems : params.Schema.MaxItems = none) (hMinItems : params.Schema.MinItems = none)
    (hUnique : params.Schema.UniqueItems = false)
    (hMul : params.Schema.MultipleOf = none) (hEnum : params.Schema.Enum = []) :
    gmp.sharedParam.HasValidations = gmp.sharedParam.HasSliceValidations ∧
      (params.Schema.Items = none → allowsAdditionalItems params.Schema = false →
        gmp.sharedParam.HasValidations = false) ∧
      (singleSchemaSlice params.Schema = true → gmp.sharedParam.HasValidations = true) := by
  obtain ⟨n, tpe, items, ai, _, _, hitems, _, rfl⟩ := makeGenModelProperty_ok h
  have hbase := makeGenValidations_unconstrained params tpe hReq hMax hMin hMaxLen hMinLen hPat
    hMaxItems hMinItems hUnique hMul hEnum
  refine ⟨?_, ?_, ?_⟩
  · simp [assembleProperty, hbase]
  · intro hNone hAllows
    have hnil := buildItems_none hNone hitems
    simp [assembleProperty, hbase, hnil, hAllows]
  · intro hSingle
    have hlen := buildItems_single hSingle hitems
    simp [assembleProperty, hlen]

/-- C17 (amended) at an optional property of type string without constraints: no
validations. -/
theorem makeGenModelProperty_unconstrained_witness :
    (makeGenModelProperty localExternals 2 (sampleParams "nick" (typed "string") false)).isOk
        = true ∧
      (assembleProperty localExternals (sampleParams "nick" (typed "string") false)
        (validationsOf (sampleParams "nick" (typed "string") false) stringType) []
        none).sharedParam.HasValidations = false :=
  ⟨rfl,
    (makeGenModelProperty_unconstrained localExternals 2
      (sampleParams "nick" (typed "string") false) _ rfl rfl rfl rfl rfl rfl rfl rfl rfl rfl rfl
      rfl).2.1 rfl rfl⟩

/-! ### Go types of containers -/

theorem resolveArray_goType {f : Option Schema → Bool → Res resolvedType}
    {schema : Schema} {r : resolvedType} (h : resolveArray f schema = Res.ok r) :
    r.IsMap = false ∧ (r.IsTuple = true → r.GoType = "") := by
  unfold resolveArray at h
  obtain ⟨base, hbase, hrest⟩ := Res.bind_eq_ok h
  obtain ⟨has, ai, rfl⟩ := resolveAdditionalItems_ok hbase
  split at hrest
  · cases hrest
    simp [resolvedType.zero]
  · split at hrest
    · obtain ⟨ets, _, hr⟩ := Res.bind_eq_ok hrest
      cases hr
      simp [resolvedType.zero]
    · obtain ⟨rt, _, hr⟩ := Res.bind_eq_ok hrest
      cases hr
      simp [resolvedType.zero]

theorem resolveObject_goType {f : Option Schema → Bool → Res resolvedType}
    {schema : Schema} {isAnonymous : Bool} {r : resolvedType}
    (h : resolveObject f schema isAnonymous = Res.ok r) :
    r.IsMap = true → ∃ rest, r.GoType = "map[string]" ++ rest := by
  unfold resolveObject at h
  obtain ⟨base, hbase, hrest⟩ := Res.bind_eq_ok h
  obtain ⟨c, pts, rfl⟩ := resolveProperties_ok hbase
  split at hrest
  · obtain ⟨et, _, hr⟩ := Res.bind_eq_ok hrest
    cases hr
    exact fun _ => ⟨et.GoType, rfl⟩
  · split at hrest
    · cases hrest
      simp [resolvedType.zero]
    · cases hrest
      exact fun _ => ⟨"interface\x7b\x7d", rfl⟩

/-- The Go type of a resolved tuple is empty, the Go type of a resolved map starts with
`map[string]`, and neither is an array. -/
theorem ResolveSchema_container_goType (x : Externals) (t : typeResolver) (fuel : Nat)
    (s : Option Schema) (a : Bool) (r : resolvedType)
    (h : ResolveSchema x t fuel s a = Res.ok r) :
    (r.IsTuple = true → r.GoType = "" ∧ r.IsArray = false) ∧
      (r.IsMap = true → (∃ rest, r.GoType = "map[string]" ++ rest) ∧ r.IsArray = false) := by
  induction fuel generalizing s a with
  | zero => cases h
  | succ n ih =>
    rcases ResolveSchema_ok_cases x t n s a r h with
      rfl | ⟨nl, g, rfl⟩ | ⟨ref, href⟩ | ⟨st, sf, g, nl, rfl⟩ | ⟨schema, hsw⟩
    · exact ⟨fun ht => absurd ht (by simp [interfaceType, resolvedType.zero]),
        fun hm => absurd hm (by simp [interfaceType, resolvedType.zero])⟩
    · exact ⟨fun ht => absurd ht (by simp [interfaceType, resolvedType.zero]),
        fun hm => absurd hm (by simp [interfaceType, resolvedType.zero])⟩
    · exact ih _ _ href
    · exact ⟨fun ht => absurd ht (by simp [interfaceType, resolvedType.zero]),
        fun hm => absurd hm (by simp [interfaceType, resolvedType.zero])⟩
    · rcases resolveByType_ok_cases hsw with harr | hobj | ⟨g, st, p, rfl, _⟩
      · obtain ⟨_, _, hm, _, _, h5⟩ := resolveArray_flags harr
        obtain ⟨_, hg⟩ := resolveArray_goType harr
        refine ⟨fun ht => ⟨hg ht, ?_⟩, fun hm' => ?_⟩
        · rcases h5 with ⟨_, hT⟩ | ⟨hA, _⟩
          · rw [hT] at ht
            cases ht
          · exact hA
        · rw [hm] at hm'
          cases hm'
      · obtain ⟨_, hA, hT, _, _⟩ := resolveObject_flags hobj
        refine ⟨fun ht => ?_, fun hm => ⟨resolveObject_goType hobj hm, hA⟩⟩
        rw [hT] at ht
        cases ht
      · exact ⟨fun ht => absurd ht (by simp [interfaceType, resolvedType.zero]),
        fun hm => absurd hm (by simp [interfaceType, resolvedType.zero])⟩

/-- No entry of the tables `primitives` and `customFormatters` is empty or starts with
the letter `m`. -/
theorem table_entries_head :
    ∀ g ∈ primitives ++ customFormatters, g.data.head? ≠ none ∧ g.data.head? ≠ some 'm' := by
  decide

theorem map_goType_not_in_tables (rest : String) :
    ("map[string]" ++ rest) ∉ primitives ∧ ("map[string]" ++ rest) ∉ customFormatters := by
  have hhead : ("map[string]" ++ rest).data.head? = some 'm' := by
    simp [String.data_append]
  constructor
  · intro hmem
    exact (table_entries_head _ (List.mem_append_left _ hmem)).2 hhead
  · intro hmem
    exact (table_entries_head _ (List.mem_append_right _ hmem)).2 hhead

theorem empty_goType_not_in_tables : "" ∉ primitives ∧ "" ∉ customFormatters := by
  constructor <;> decide

/-- C18 (as stated, refuted): the property with schema
`{type: object, additionalProperties: {type: integer}}` resolves to a map, and is
built with `IsContainer = false` and `IsComplexObject = true`: `modelValidations` sets
`IsContainer` to `tpe.IsArray` alone. -/
theorem makeGenModelProperty_map_complex :
    ∃ gmp, makeGenModelProperty localExternals 3 (sampleParams "counts" intMapSchema false)
        = Res.ok gmp ∧
      gmp.sharedParam.T.IsMap = true ∧ gmp.sharedParam.Type_ = "map[string]int64" ∧
      gmp.sharedParam.IsContainer = false ∧ gmp.IsComplexObject = true :=
  ⟨_, rfl, rfl, by decide, rfl, rfl⟩

/-- C18 (amended): a property that was built carries the resolved type `tpe` of its
schema and the flags that `modelValidations` computes from it: `IsPrimitive` and
`IsCustomFormatter` say whether the Go type is in the tables `primitives` and
`customFormatters`, `IsContainer` is `tpe.IsArray` and `IsMap` is `tpe.IsMap`;
`IsComplexObject` is true exactly when the Go type is in neither table and the resolved
type is not an array. A resolved type that is a tuple or a map makes a complex object
that is not a container. -/
theorem makeGenModelProperty_classification (x : Externals) (fuel : Nat)
    (params : propGenBuildParams) (gmp : genModelProperty)
    (h : makeGenModelProperty x fuel params = Res.ok gmp) :
    ∃ n tpe, fuel = n + 1 ∧
      ResolveSchema x params.TypeResolver n (some params.Schema) false = Res.ok tpe ∧
      gmp.sharedParam.T = tpe ∧
      gmp.sharedParam.IsPrimitive = primitives.contains tpe.GoType ∧
      gmp.sharedParam.IsCustomFormatter = customFormatters.contains tpe.GoType ∧
      gmp.sharedParam.IsContainer = tpe.IsArray ∧
      gmp.sharedParam.IsMap = tpe.IsMap ∧
      (gmp.IsComplexObject = true ↔
        tpe.GoType ∉ primitives ∧ tpe.GoType ∉ customFormatters ∧ tpe.IsArray = false) ∧
      ((tpe.IsTuple = true ∨ tpe.IsMap = true) →
        gmp.IsComplexObject = true ∧ gmp.sharedParam.IsContainer = false) := by
  obtain ⟨n, tpe, items, ai, hn, htpe, _, _, rfl⟩ := makeGenModelProperty_ok h
  have hiff : (assembleProperty x params (validationsOf params tpe) items ai).IsComplexObject
      = true ↔
      tpe.GoType ∉ primitives ∧ tpe.GoType ∉ customFormatters ∧ tpe.IsArray = false := by
    simp [assembleProperty, makeGenValidations, validationsOf, and_assoc]
  refine ⟨n, tpe, hn, htpe, rfl, rfl, rfl, rfl, rfl, hiff, ?_⟩
  intro hc
  obtain ⟨hT, hM⟩ := ResolveSchema_container_goType x params.TypeResolver n _ false tpe htpe
  have hfacts : tpe.GoType ∉ primitives ∧ tpe.GoType ∉ customFormatters ∧ tpe.IsArray = false := by
    rcases hc with ht | hm
    · obtain ⟨hg, hA⟩ := hT ht
      rw [hg]
      exact ⟨empty_goType_not_in_tables.1, empty_goType_not_in_tables.2, hA⟩
    · obtain ⟨⟨rest, hg⟩, hA⟩ := hM hm
      rw [hg]
      exact ⟨(map_goType_not_in_tables rest).1, (map_goType_not_in_tables rest).2, hA⟩
  exact ⟨hiff.mpr hfacts, hfacts.2.2⟩

/-- C18 (amended) at the property with schema
`{type: object, additionalProperties: {type: integer}}`: the build succeeds and the
property is a complex object, not a container. -/
theorem makeGenModelProperty_classification_witness :
    ∃ gmp, makeGenModelProperty localExternals 3 (sampleParams "counts" intMapSchema false)
        = Res.ok gmp ∧
      ∃ n tpe, 3 = n + 1 ∧
        ResolveSchema localExternals (sampleParams "counts" intMapSchema false).TypeResolver n
          (some (sampleParams "counts" intMapSchema false).Schema) false = Res.ok tpe ∧
        gmp.sharedParam.T = tpe ∧
        gmp.sharedParam.IsPrimitive = primitives.contains tpe.GoType ∧
        gmp.sharedParam.IsCustomFormatter = customFormatters.contains tpe.GoType ∧
        gmp.sharedParam.IsContainer = tpe.IsArray ∧
        gmp.sharedParam.IsMap = tpe.IsMap ∧
        (gmp.IsComplexObject = true ↔
          tpe.GoType ∉ primitives ∧ tpe.GoType ∉ customFormatters ∧ tpe.IsArray = false) ∧
        ((tpe.IsTuple = true ∨ tpe.IsMap = true) →
          gmp.IsComplexObject = true ∧ gmp.sharedParam.IsContainer = false) :=
  ⟨_, rfl,
    makeGenModelProperty_classification localExternals 3
      (sampleParams "counts" intMapSchema false) _ rfl⟩

/-- C19 (code at the failing input): a property whose schema is an XML attribute
without an explicit XML name is built with the XML name `id`, its `ParamName`, and
not `id,attr`: the test of `XML.Attribute` is nested in the test `XML.Name != ""`. -/
theorem makeGenModelProperty_xml_attribute_unmarked :
    xmlAttributeSchema.XML = some { Name := "", Attribute := true } ∧
      ∃ gmp, makeGenModelProperty localExternals 2 (sampleParams "Id" xmlAttributeSchema false)
          = Res.ok gmp ∧
        gmp.sharedParam.ParamName = "id" ∧ gmp.XMLName = "id" :=
  ⟨rfl, _, rfl, by decide, by decide⟩

/-! ### Go maps as association lists -/

theorem lookup_cons_if {α : Type} (a k : String) (b : α) (es : List (String × α)) :
    List.lookup a ((k, b) :: es) = if a = k then some b else List.lookup a es := by
  by_cases h : a = k
  · subst h
    simp [List.lookup]
  · have hb : (a == k) = false := beq_eq_false_iff_ne.mpr h
    simp [List.lookup, hb, h]

theorem lookup_mapSet {α : Type} (k k' : String) (v : α) (m : List (String × α)) :
    (mapSet k v m).lookup k' = if k' = k then some v else m.lookup k' := by
  induction m with
  | nil => rw [mapSet, lookup_cons_if]
  | cons kv rest ih =>
    obtain ⟨k0, v0⟩ := kv
    by_cases h0 : k0 = k
    · subst h0
      simp only [mapSet, if_true, lookup_cons_if]
      by_cases h1 : k' = k0 <;> simp [h1]
    · simp only [mapSet, h0, if_false, lookup_cons_if, ih]
      by_cases h1 : k' = k0
      · subst h1
        simp [h0]
      · simp [h1]

theorem mem_keys_mapSet {α : Type} (k k' : String) (v : α) (m : List (String × α)) :
    k' ∈ (mapSet k v m).map Prod.fst ↔ k' = k ∨ k' ∈ m.map Prod.fst := by
  induction m with
  | nil => simp [mapSet]
  | cons kv rest ih =>
    obtain ⟨k0, v0⟩ := kv
    by_cases h0 : k0 = k
    · subst h0
      simp [mapSet]
    · simp only [mapSet, h0, if_false, List.map_cons, List.mem_cons, ih]
      tauto

theorem nodup_keys_mapSet {α : Type} (k : String) (v : α) (m : List (String × α))
    (h : (m.map Prod.fst).Nodup) : ((mapSet k v m).map Prod.fst).Nodup := by
  induction m with
  | nil => simp [mapSet]
  | cons kv rest ih =>
    obtain ⟨k0, v0⟩ := kv
    simp only [List.map_cons, List.nodup_cons] at h
    by_cases h0 : k0 = k
    · subst h0
      simpa [mapSet] using h
    · simp only [mapSet, h0, if_false, List.map_cons, List.nodup_cons]
      refine ⟨?_, ih h.2⟩
      rw [mem_keys_mapSet]
      rintro (e | hmem)
      · exact h0 e
      · exact h.1 hmem

theorem mem_mapSet {α : Type} (k : String) (v : α) (m : List (String × α))
    (kv : String × α) (h : kv ∈ mapSet k v m) : kv = (k, v) ∨ kv ∈ m := by
  induction m with
  | nil =>
    simp only [mapSet, List.mem_singleton] at h
    exact Or.inl h
  | cons kv0 rest ih =>
    obtain ⟨k0, v0⟩ := kv0
    by_cases h0 : k0 = k
    · simp only [mapSet, h0, if_true, List.mem_cons] at h
      rcases h with h | h
      · exact Or.inl h
      · exact Or.inr (List.mem_cons_of_mem _ h)
    · simp only [mapSet, h0, if_false, List.mem_cons] at h
      rcases h with h | h
      · exact Or.inr (by rw [h]; exact List.mem_cons_self _ _)
      · rcases ih h with h | h
        · exact Or.inl h
        · exact Or.inr (List.mem_cons_of_mem _ h)

/-- Every entry of the map is stored under the `ParamName` of its property. -/
theorem keyed_mapSet (k : String) (v : genModelProperty)
    (m : List (String × genModelProperty)) (hv : v.sharedParam.ParamName = k)
    (hm : ∀ kv ∈ m, kv.2.sharedParam.ParamName = kv.1) :
    ∀ kv ∈ mapSet k v m, kv.2.sharedParam.ParamName = kv.1 := by
  intro kv hkv
  rcases mem_mapSet k v m kv hkv with rfl | h
  · exact hv
  · exact hm kv h

/-- In a map whose entries are stored under their `ParamName`, the property found by
`ParamName` among the values is the entry of that key. -/
theorem find_values_eq_lookup (m : List (String × genModelProperty))
    (hm : ∀ kv ∈ m, kv.2.sharedParam.ParamName = kv.1) (k : String) :
    (m.map Prod.snd).find? (fun p => p.sharedParam.ParamName == k) = m.lookup k := by
  induction m with
  | nil => rfl
  | cons kv rest ih =>
    obtain ⟨k0, v0⟩ := kv
    have h0 : v0.sharedParam.ParamName = k0 := hm (k0, v0) (List.mem_cons_self _ _)
    have hrest := ih fun kv hkv => hm kv (List.mem_cons_of_mem _ hkv)
    rw [List.map_cons, lookup_cons_if, List.find?_cons]
    by_cases h : k = k0
    · subst h
      simp [h0]
    · have hb : (v0.sharedParam.ParamName == k) = false := by
        rw [h0]
        exact beq_eq_false_iff_ne.mpr fun e => h e.symm
      simp only [hb, h, if_false]
      exact hrest

theorem mergeProperties_cons (p : genModelProperty) (ps : List genModelProperty)
    (props : List (String × genModelProperty)) :
    mergeProperties (p :: ps) props =
      mergeProperties ps (mapSet p.sharedParam.ParamName p props) := rfl

theorem mergeProperties_append (ps qs : List genModelProperty)
    (props : List (String × genModelProperty)) :
    mergeProperties (ps ++ qs) props = mergeProperties qs (mergeProperties ps props) := by
  unfold mergeProperties
  rw [List.foldl_append]

/-- The inner loop of the merge: a name carries the last property of the list that has
it as `ParamName`, or else what the map had. -/
theorem lookup_mergeProperties (ps : List genModelProperty)
    (props : List (String × genModelProperty)) (k : String) :
    (mergeProperties ps props).lookup k =
      match ps.reverse.find? (fun p => p.sharedParam.ParamName == k) with
      | some p => some p
      | none => props.lookup k := by
  induction ps generalizing props with
  | nil => rfl
  | cons p ps ih =>
    rw [mergeProperties_cons, ih, List.reverse_cons, List.find?_append]
    cases hfind : ps.reverse.find? (fun p => p.sharedParam.ParamName == k) with
    | some q => rfl
    | none =>
      simp only [Option.none_or, List.find?_cons, List.find?_nil, lookup_mapSet]
      by_cases h : k = p.sharedParam.ParamName
      · have hb : (p.sharedParam.ParamName == k) = true := by rw [h]; simp
        simp [hb, h]
      · have hb : (p.sharedParam.ParamName == k) = false :=
          beq_eq_false_iff_ne.mpr fun e => h e.symm
        simp [hb, h]

theorem keyed_mergeProperties (ps : List genModelProperty)
    (props : List (String × genModelProperty))
    (hm : ∀ kv ∈ props, kv.2.sharedParam.ParamName = kv.1) :
    ∀ kv ∈ mergeProperties ps props, kv.2.sharedParam.ParamName = kv.1 := by
  induction ps generalizing props with
  | nil => exact hm
  | cons p ps ih =>
    rw [mergeProperties_cons]
    exact ih _ (keyed_mapSet _ p props rfl hm)

theorem nodup_keys_mergeProperties (ps : List genModelProperty)
    (props : List (String × genModelProperty)) (hm : (props.map Prod.fst).Nodup) :
    ((mergeProperties ps props).map Prod.fst).Nodup := by
  induction ps generalizing props with
  | nil => exact hm
  | cons p ps ih =>
    rw [mergeProperties_cons]
    exact ih _ (nodup_keys_mapSet _ p props hm)

/-- The second loop of `makeCodegenModel`, when every branch builds: the properties of
the branches are merged in the order of the branches. -/
theorem mergeAllOf_ok (x : Externals) (build : Schema → Res genModel) (specDoc : Document)
    {bs : List Schema} {ms : List genModel}
    (h : List.Forall₂ (fun b m => build (allOfBranch x specDoc b) = Res.ok m) bs ms)
    (props : List (String × genModelProperty)) :
    mergeAllOf x build specDoc bs props =
      Res.ok (mergeProperties (ms.flatMap fun m => m.Properties) props) := by
  induction h generalizing props with
  | nil => rfl
  | cons hbm _ ih =>
    rw [mergeAllOf, hbm, Res.bind_ok, ih, List.flatMap_cons, mergeProperties_append]

/-- The last loop of `makeCodegenModel` lists the values of the map and raises the flag
when a value has validations. -/
theorem collectProperties_eq (props : List (String × genModelProperty)) :
    collectProperties props =
      (props.map Prod.snd, props.any fun kv => kv.2.sharedParam.HasValidations) := by
  have hgen : ∀ (l : List (String × genModelProperty)) (acc : List genModelProperty × Bool),
      l.foldl
        (fun acc kv =>
          (acc.1 ++ [kv.2],
            if kv.2.sharedParam.HasValidations then kv.2.sharedParam.HasValidations
            else acc.2))
        acc =
      (acc.1 ++ l.map Prod.snd,
        acc.2 || l.any fun kv => kv.2.sharedParam.HasValidations) := by
    intro l
    induction l with
    | nil => intro acc; simp
    | cons kv rest ih =>
      intro acc
      rw [List.foldl_cons, ih]
      cases hv : kv.2.sharedParam.HasValidations <;> simp [hv]
  unfold collectProperties
  rw [hgen]
  simp

theorem makeCodegenModel_succ (x : Externals) (fuel : Nat) (name pkg : String)
    (schema : Schema) (specDoc : Document) :
    makeCodegenModel x (fuel + 1) name pkg schema specDoc =
      (buildOwnProperties x (makeGenModelProperty x fuel) pkg schema specDoc
          schema.Properties []).bind fun props =>
        (mergeAllOf x (fun p => makeCodegenModel x fuel name pkg p specDoc) specDoc
            schema.AllOf props).bind fun props =>
          Res.ok
            { Package := x.Base pkg
              ClassName := x.ToGoName name
              Name := name
              ReceiverName := "m"
              Properties := (collectProperties props).1
              Description := schema.Description
              Title := schema.Title
              DocString := modelDocString x (x.ToGoName name) schema.Description
              HumanClassName := x.ToHumanNameLower (x.ToGoName name)
              Imports := []
              DefaultImports := []
              HasValidations := (collectProperties props).2 } := rfl

/-- A model that was built lists the values of a map of properties, and its flag says
whether one of them has validations. -/
theorem makeCodegenModel_ok {x : Externals} {fuel : Nat} {name pkg : String}
    {schema : Schema} {specDoc : Document} {mod : genModel}
    (h : makeCodegenModel x fuel name pkg schema specDoc = Res.ok mod) :
    ∃ props : List (String × genModelProperty),
      mod.Properties = props.map Prod.snd ∧
      mod.HasValidations = props.any fun kv => kv.2.sharedParam.HasValidations := by
  cases fuel with
  | zero => cases h
  | succ n =>
    rw [makeCodegenModel_succ] at h
    obtain ⟨own, _, h1⟩ := Res.bind_eq_ok h
    obtain ⟨props, _, h2⟩ := Res.bind_eq_ok h1
    cases h2
    refine ⟨props, ?_, ?_⟩
    · simp [collectProperties_eq]
    · simp [collectProperties_eq]

/-- The own properties are stored under the `ParamName` that the builder gives them,
each key once. -/
theorem buildOwnProperties_keyed (x : Externals)
    (build : propGenBuildParams → Res genModelProperty) (pkg : String) (schema : Schema)
    (specDoc : Document)
    (hbuild : ∀ params gmp, build params = Res.ok gmp →
      gmp.sharedParam.ParamName = params.ParamName)
    (l : List (String × Schema)) (props own : List (String × genModelProperty))
    (h : buildOwnProperties x build pkg schema specDoc l props = Res.ok own)
    (hk : ∀ kv ∈ props, kv.2.sharedParam.ParamName = kv.1)
    (hn : (props.map Prod.fst).Nodup) :
    (∀ kv ∈ own, kv.2.sharedParam.ParamName = kv.1) ∧ (own.map Prod.fst).Nodup := by
  induction l generalizing props with
  | nil =>
    cases h
    exact ⟨hk, hn⟩
  | cons pnp rest ih =>
    obtain ⟨pn, p⟩ := pnp
    rw [buildOwnProperties] at h
    obtain ⟨gmp, hgmp, hrest⟩ := Res.bind_eq_ok h
    have hname : gmp.sharedParam.ParamName = x.ToJSONName pn := hbuild _ gmp hgmp
    exact ih _ hrest (keyed_mapSet _ gmp props hname hk) (nodup_keys_mapSet _ gmp props hn)

theorem makeGenModelProperty_paramName (x : Externals) (fuel : Nat)
    (params : propGenBuildParams) (gmp : genModelProperty)
    (h : makeGenModelProperty x fuel params = Res.ok gmp) :
    gmp.sharedParam.ParamName = params.ParamName := by
  obtain ⟨n, tpe, items, ai, _, _, _, _, rfl⟩ := makeGenModelProperty_ok h
  rfl

/-! ### More fuel for the model builder -/

theorem modelValidations_mono (x : Externals) {n m : Nat} (hnm : n ≤ m)
    (params : propGenBuildParams) (a : Bool)
    (h : modelValidations x n params a ≠ Res.outOfFuel) :
    modelValidations x m params a = modelValidations x n params a := by
  unfold modelValidations at h ⊢
  refine Res.bind_stable (fun hne => ResolveSchema_mono x _ hnm _ _ hne) (fun _ _ => rfl) h

theorem buildItems_stable {f g : propGenBuildParams → Res genModelProperty}
    (hfg : ∀ c, f c ≠ Res.outOfFuel → g c = f c) (params : propGenBuildParams)
    (h : buildItems f params ≠ Res.outOfFuel) : buildItems g params = buildItems f params := by
  unfold buildItems at h ⊢
  cases hit : params.Schema.Items with
  | none => rfl
  | some items =>
    simp only [hit] at h ⊢
    cases hs : items.Schema with
    | some el =>
      simp only [hs] at h ⊢
      exact Res.bind_stable (hfg _) (fun _ _ => rfl) h
    | none =>
      simp only [hs] at h ⊢
      exact Res.mapList_stable (fun s => hfg _) _ h

theorem buildAdditionalItems_stable {f g : propGenBuildParams → Res genModelProperty}
    (hfg : ∀ c, f c ≠ Res.outOfFuel → g c = f c) (params : propGenBuildParams)
    (h : buildAdditionalItems f params ≠ Res.outOfFuel) :
    buildAdditionalItems g params = buildAdditionalItems f params := by
  unfold buildAdditionalItems at h ⊢
  cases hai : params.Schema.AdditionalItems with
  | none => rfl
  | some ai =>
    simp only [hai] at h ⊢
    cases hs : ai.Schema with
    | none => rfl
    | some el =>
      simp only [hs] at h ⊢
      exact Res.bind_stable (hfg _) (fun _ _ => rfl) h

/-- One more unit of fuel does not change a property that was built, nor an error. -/
theorem makeGenModelProperty_succ_stable (x : Externals) :
    ∀ fuel params, makeGenModelProperty x fuel params ≠ Res.outOfFuel →
      makeGenModelProperty x (fuel + 1) params = makeGenModelProperty x fuel params
  | 0, _, h => absurd rfl h
  | fuel + 1, params, h => by
    have ih := makeGenModelProperty_succ_stable x fuel
    rw [makeGenModelProperty_succ] at h
    rw [makeGenModelProperty_succ x (fuel + 1), makeGenModelProperty_succ x fuel]
    refine Res.bind_stable (modelValidations_mono x (Nat.le_succ _) params false)
      (fun validations hv => ?_) h
    refine Res.bind_stable (buildItems_stable ih params) (fun items hi => ?_) hv
    exact Res.bind_stable (buildAdditionalItems_stable ih params) (fun _ _ => rfl) hi

theorem makeGenModelProperty_mono (x : Externals) {n m : Nat} (hnm : n ≤ m)
    (params : propGenBuildParams) (h : makeGenModelProperty x n params ≠ Res.outOfFuel) :
    makeGenModelProperty x m params = makeGenModelProperty x n params := by
  induction hnm with
  | refl => rfl
  | step _ ih => rw [makeGenModelProperty_succ_stable x _ params (by rw [ih]; exact h), ih]

theorem buildOwnProperties_stable (x : Externals)
    {f g : propGenBuildParams → Res genModelProperty}
    (hfg : ∀ c, f c ≠ Res.outOfFuel → g c = f c) (pkg : String) (schema : Schema)
    (specDoc : Document) :
    ∀ (l : List (String × Schema)) (props : List (String × genModelProperty)),
      buildOwnProperties x f pkg schema specDoc l props ≠ Res.outOfFuel →
      buildOwnProperties x g pkg schema specDoc l props =
        buildOwnProperties x f pkg schema specDoc l props
  | [], _, _ => rfl
  | (pn, p) :: rest, props, h => by
    rw [buildOwnProperties] at h ⊢
    refine Res.bind_stable (hfg _) (fun gmp hg => ?_) h
    exact buildOwnProperties_stable x hfg pkg schema specDoc rest _ hg

theorem mergeAllOf_stable (x : Externals) {f g : Schema → Res genModel}
    (hfg : ∀ c, f c ≠ Res.outOfFuel → g c = f c) (specDoc : Document) :
    ∀ (l : List Schema) (props : List (String × genModelProperty)),
      mergeAllOf x f specDoc l props ≠ Res.outOfFuel →
      mergeAllOf x g specDoc l props = mergeAllOf x f specDoc l props
  | [], _, _ => rfl
  | p :: rest, props, h => by
    rw [mergeAllOf] at h ⊢
    refine Res.bind_stable (hfg _) (fun mod hm => ?_) h
    exact mergeAllOf_stable x hfg specDoc rest _ hm

/-- One more unit of fuel does not change a model that was built, nor an error. -/
theorem makeCodegenModel_succ_stable (x : Externals) (name pkg : String) (specDoc : Document) :
    ∀ fuel schema, makeCodegenModel x fuel name pkg schema specDoc ≠ Res.outOfFuel →
      makeCodegenModel x (fuel + 1) name pkg schema specDoc =
        makeCodegenModel x fuel name pkg schema specDoc
  | 0, _, h => absurd rfl h
  | fuel + 1, schema, h => by
    have ih := makeCodegenModel_succ_stable x name pkg specDoc fuel
    rw [makeCodegenModel_succ] at h
    rw [makeCodegenModel_succ x (fuel + 1), makeCodegenModel_succ x fuel]
    refine Res.bind_stable
      (buildOwnProperties_stable x (makeGenModelProperty_succ_stable x fuel) pkg schema specDoc
        schema.Properties [])
      (fun props hp => ?_) h
    exact Res.bind_stable
      (mergeAllOf_stable x ih specDoc schema.AllOf props) (fun _ _ => rfl) hp

theorem makeCodegenModel_mono (x : Externals) (name pkg : String) (specDoc : Document)
    {n m : Nat} (hnm : n ≤ m) (schema : Schema)
    (h : makeCodegenModel x n name pkg schema specDoc ≠ Res.outOfFuel) :
    makeCodegenModel x m name pkg schema specDoc =
      makeCodegenModel x n name pkg schema specDoc := by
  induction hnm with
  | refl => rfl
  | step _ ih =>
    rw [makeCodegenModel_succ_stable x name pkg specDoc _ schema (by rw [ih]; exact h), ih]

theorem buildOwnProperties_mono (x : Externals) {n m : Nat} (hnm : n ≤ m) (pkg : String)
    (schema : Schema) (specDoc : Document) (l : List (String × Schema))
    (props : List (String × genModelProperty))
    (h : buildOwnProperties x (makeGenModelProperty x n) pkg schema specDoc l props
      ≠ Res.outOfFuel) :
    buildOwnProperties x (makeGenModelProperty x m) pkg schema specDoc l props =
      buildOwnProperties x (makeGenModelProperty x n) pkg schema specDoc l props :=
  buildOwnProperties_stable x (fun c hc => makeGenModelProperty_mono x hnm c hc) pkg schema
    specDoc l props h

/-- Branches that build one by one, each with its own fuel, build together with any
fuel above a common bound. -/
theorem makeCodegenModel_common_fuel (x : Externals) (name pkg : String) (specDoc : Document)
    {bs : List Schema} {ms : List genModel}
    (h : List.Forall₂
      (fun b m => ∃ n, makeCodegenModel x n name pkg (allOfBranch x specDoc b) specDoc = Res.ok m)
      bs ms) :
    ∃ n, ∀ k, n ≤ k →
      List.Forall₂
        (fun b m => makeCodegenModel x k name pkg (allOfBranch x specDoc b) specDoc = Res.ok m)
        bs ms := by
  induction h with
  | nil => exact ⟨0, fun _ _ => List.Forall₂.nil⟩
  | cons hbm _ ih =>
    obtain ⟨n1, h1⟩ := hbm
    obtain ⟨n2, h2⟩ := ih
    refine ⟨max n1 n2, fun k hk => List.Forall₂.cons ?_ (h2 k (le_trans (le_max_right _ _) hk))⟩
    rw [makeCodegenModel_mono x name pkg specDoc (le_trans (le_max_left _ _) hk) _
      (by rw [h1]; simp), h1]

/-- The merge at one level of calls: when the own properties and every `allOf` branch
build with the fuel `fuel`, the model is built with one unit more, every `ParamName`
occurs once in it, and a name carries the property that `lastDeclared` gives it. -/
theorem makeCodegenModel_allOf_at (x : Externals) (fuel : Nat) (name pkg : String)
    (schema : Schema) (specDoc : Document) (own : List (String × genModelProperty))
    (ms : List genModel)
    (hOwn : buildOwnProperties x (makeGenModelProperty x fuel) pkg schema specDoc
      schema.Properties [] = Res.ok own)
    (hBranches : List.Forall₂
      (fun b m => makeCodegenModel x fuel name pkg (allOfBranch x specDoc b) specDoc = Res.ok m)
      schema.AllOf ms) :
    ∃ mod, makeCodegenModel x (fuel + 1) name pkg schema specDoc = Res.ok mod ∧
      (mod.Properties.map fun p => p.sharedParam.ParamName).Nodup ∧
      ∀ k, mod.Properties.find? (fun p => p.sharedParam.ParamName == k) =
        lastDeclared (own.map Prod.snd) ms k := by
  obtain ⟨hkOwn, hnOwn⟩ :=
    buildOwnProperties_keyed x (makeGenModelProperty x fuel) pkg schema specDoc
      (makeGenModelProperty_paramName x fuel) schema.Properties [] own hOwn
      (fun kv hkv => by cases hkv) (by simp)
  have hk := keyed_mergeProperties (ms.flatMap fun m => m.Properties) own hkOwn
  have hn := nodup_keys_mergeProperties (ms.flatMap fun m => m.Properties) own hnOwn
  rw [makeCodegenModel_succ, hOwn, Res.bind_ok,
    mergeAllOf_ok x (fun p => makeCodegenModel x fuel name pkg p specDoc) specDoc hBranches,
    Res.bind_ok]
  refine ⟨_, rfl, ?_, ?_⟩
  · simp only [collectProperties_eq]
    have hkeys : ((mergeProperties (ms.flatMap fun m => m.Properties) own).map Prod.snd).map
        (fun p => p.sharedParam.ParamName) =
        (mergeProperties (ms.flatMap fun m => m.Properties) own).map Prod.fst := by
      rw [List.map_map]
      exact List.map_congr_left fun kv hkv => hk kv hkv
    rw [hkeys]
    exact hn
  · intro k
    simp only [collectProperties_eq]
    rw [find_values_eq_lookup _ hk, lookup_mergeProperties, lastDeclared,
      find_values_eq_lookup _ hkOwn]

theorem Res.toOption_ok {α : Type} (a : α) : (Res.ok a).toOption = some a := rfl

/-- The first loop of `makeCodegenModel`: a key carries the property built from the
last declaration of the list that is stored under it, or else what the map had. -/
theorem buildOwnProperties_lookup (x : Externals)
    (build : propGenBuildParams → Res genModelProperty) (pkg : String) (schema : Schema)
    (specDoc : Document) (l : List (String × Schema))
    (props own : List (String × genModelProperty))
    (h : buildOwnProperties x build pkg schema specDoc l props = Res.ok own) (k : String) :
    own.lookup k =
      match l.reverse.find? (fun d => x.ToJSONName d.1 == k) with
      | some d => (buildOwnProperty x build pkg schema specDoc d.1 d.2).toOption
      | none => props.lookup k := by
  induction l generalizing props with
  | nil =>
    cases h
    rfl
  | cons pnp rest ih =>
    obtain ⟨pn, p⟩ := pnp
    rw [buildOwnProperties] at h
    obtain ⟨gmp, hgmp, hrest⟩ := Res.bind_eq_ok h
    rw [ih _ hrest, List.reverse_cons, List.find?_append]
    cases hfind : rest.reverse.find? (fun d => x.ToJSONName d.1 == k) with
    | some d => rfl
    | none =>
      simp only [Option.none_or, List.find?_cons, List.find?_nil, lookup_mapSet]
      by_cases hk : k = x.ToJSONName pn
      · have hb : (x.ToJSONName pn == k) = true := by rw [hk]; simp
        simp [hb, hk, hgmp, Res.toOption]
      · have hb : (x.ToJSONName pn == k) = false :=
          beq_eq_false_iff_ne.mpr fun e => hk e.symm
        simp [hb, hk]

/-- The keys after the first loop of `makeCodegenModel`: the normalised names of the
declarations, and the keys that the map had. -/
theorem buildOwnProperties_keys (x : Externals)
    (build : propGenBuildParams → Res genModelProperty) (pkg : String) (schema : Schema)
    (specDoc : Document) (l : List (String × Schema))
    (props own : List (String × genModelProperty))
    (h : buildOwnProperties x build pkg schema specDoc l props = Res.ok own) (k : String) :
    k ∈ own.map Prod.fst ↔ (∃ d ∈ l, x.ToJSONName d.1 = k) ∨ k ∈ props.map Prod.fst := by
  induction l generalizing props with
  | nil =>
    cases h
    simp
  | cons pnp rest ih =>
    obtain ⟨pn, p⟩ := pnp
    rw [buildOwnProperties] at h
    obtain ⟨gmp, _, hrest⟩ := Res.bind_eq_ok h
    rw [ih _ hrest, mem_keys_mapSet]
    simp only [List.mem_cons, exists_eq_or_imp]
    constructor
    · rintro (h1 | h1 | h1)
      · exact Or.inl (Or.inr h1)
      · exact Or.inl (Or.inl h1.symm)
      · exact Or.inr h1
    · rintro ((h1 | h1) | h1)
      · exact Or.inr (Or.inl h1.symm)
      · exact Or.inl h1
      · exact Or.inr (Or.inr h1)

/-- The keys after the inner loop of the merge: the names of the merged properties,
and the keys that the map had. -/
theorem mergeProperties_keys (ps : List genModelProperty)
    (props : List (String × genModelProperty)) (k : String) :
    k ∈ (mergeProperties ps props).map Prod.fst ↔
      (∃ p ∈ ps, p.sharedParam.ParamName = k) ∨ k ∈ props.map Prod.fst := by
  induction ps generalizing props with
  | nil => simp [mergeProperties]
  | cons p ps ih =>
    rw [mergeProperties_cons, ih, mem_keys_mapSet]
    simp only [List.mem_cons, exists_eq_or_imp]
    constructor
    · rintro (h1 | h1 | h1)
      · exact Or.inl (Or.inr h1)
      · exact Or.inl (Or.inl h1.symm)
      · exact Or.inr h1
    · rintro ((h1 | h1) | h1)
      · exact Or.inr (Or.inl h1.symm)
      · exact Or.inl h1
      · exact Or.inr (Or.inr h1)

/-- The second loop of `makeCodegenModel`, when it ends with a map: every branch was
built, and the properties of the branch models were merged in the order of the
branches. -/
theorem mergeAllOf_eq_ok (x : Externals) (build : Schema → Res genModel) (specDoc : Document)
    (bs : List Schema) (props res : List (String × genModelProperty))
    (h : mergeAllOf x build specDoc bs props = Res.ok res) :
    ∃ ms, List.Forall₂ (fun b m => build (allOfBranch x specDoc b) = Res.ok m) bs ms ∧
      res = mergeProperties (ms.flatMap fun m => m.Properties) props := by
  induction bs generalizing props with
  | nil =>
    cases h
    exact ⟨[], List.Forall₂.nil, rfl⟩
  | cons b rest ih =>
    rw [mergeAllOf] at h
    obtain ⟨m, hm, hrest⟩ := Res.bind_eq_ok h
    obtain ⟨ms, hms, hres⟩ := ih _ hrest
    refine ⟨m :: ms, List.Forall₂.cons hm hms, ?_⟩
    rw [hres, List.flatMap_cons, mergeProperties_append]

/-- A name is carried by a model of the list exactly when it is declared by a branch of
the list, when that holds for each branch and its model. -/
theorem exists_branch_iff {R : Schema → genModel → Prop} {P : genModel → Prop}
    {Q : Schema → Prop} {bs : List Schema} {ms : List genModel}
    (h : List.Forall₂ R bs ms) (hR : ∀ b m, R b m → (P m ↔ Q b)) :
    (∃ m ∈ ms, P m) ↔ ∃ b ∈ bs, Q b := by
  induction h with
  | nil => simp
  | cons hbm _ ih =>
    simp only [List.mem_cons, exists_eq_or_imp, ih, hR _ _ hbm]

theorem declares_iff (x : Externals) (specDoc : Document) (schema : Schema) (k : String) :
    Declares x specDoc schema k ↔
      (∃ d ∈ schema.Properties, x.ToJSONName d.1 = k) ∨
        ∃ b ∈ schema.AllOf, Declares x specDoc (allOfBranch x specDoc b) k := by
  constructor
  · intro h
    match h with
    | Declares.own _ pn p hmem => exact Or.inl ⟨(pn, p), hmem, rfl⟩
    | Declares.branch _ b _ hb hd => exact Or.inr ⟨b, hb, hd⟩
  · rintro (⟨⟨pn, p⟩, hmem, rfl⟩ | ⟨b, hb, hd⟩)
    · exact Declares.own schema pn p hmem
    · exact Declares.branch schema b k hb hd

/-- The names of the properties of a model that was built are the normalised names
that its schema declares, by its own properties or through its `allOf` branches. -/
theorem makeCodegenModel_declares (x : Externals) (name pkg : String) (specDoc : Document) :
    ∀ (fuel : Nat) (schema : Schema) (mod : genModel),
      makeCodegenModel x fuel name pkg schema specDoc = Res.ok mod →
      ∀ key, (∃ p ∈ mod.Properties, p.sharedParam.ParamName = key) ↔
        Declares x specDoc schema key
  | 0, _, _, h, _ => by cases h
  | fuel + 1, schema, mod, h, key => by
    have ih := makeCodegenModel_declares x name pkg specDoc fuel
    rw [makeCodegenModel_succ] at h
    obtain ⟨own, hOwn, h1⟩ := Res.bind_eq_ok h
    obtain ⟨props, hMerge, h2⟩ := Res.bind_eq_ok h1
    cases h2
    obtain ⟨ms, hms, rfl⟩ := mergeAllOf_eq_ok x _ specDoc schema.AllOf own props hMerge
    obtain ⟨hkOwn, _⟩ :=
      buildOwnProperties_keyed x (makeGenModelProperty x fuel) pkg schema specDoc
        (makeGenModelProperty_paramName x fuel) schema.Properties [] own hOwn
        (fun kv hkv => by cases hkv) (by simp)
    have hk := keyed_mergeProperties (ms.flatMap fun m => m.Properties) own hkOwn
    have hkeys : (∃ p ∈ (collectProperties
          (mergeProperties (ms.flatMap fun m => m.Properties) own)).1,
          p.sharedParam.ParamName = key) ↔
        key ∈ (mergeProperties (ms.flatMap fun m => m.Properties) own).map Prod.fst := by
      simp only [collectProperties_eq, List.mem_map]
      constructor
      · rintro ⟨p, ⟨kv, hkv, rfl⟩, hp⟩
        exact ⟨kv, hkv, (hk kv hkv).symm.trans hp⟩
      · rintro ⟨kv, hkv, rfl⟩
        exact ⟨kv.2, ⟨kv, hkv, rfl⟩, hk kv hkv⟩
    show (∃ p ∈ (collectProperties
          (mergeProperties (ms.flatMap fun m => m.Properties) own)).1,
          p.sharedParam.ParamName = key) ↔ _
    rw [hkeys, mergeProperties_keys,
      buildOwnProperties_keys x _ pkg schema specDoc schema.Properties [] own hOwn,
      declares_iff]
    have hbr : (∃ p ∈ ms.flatMap fun m => m.Properties, p.sharedParam.ParamName = key) ↔
        ∃ b ∈ schema.AllOf, Declares x specDoc (allOfBranch x specDoc b) key := by
      rw [← exists_branch_iff hms fun b m hbm => ih _ m hbm key]
      simp only [List.mem_flatMap]
      constructor
      · rintro ⟨p, ⟨m, hm, hp⟩, hkey⟩
        exact ⟨m, hm, p, hp, hkey⟩
      · rintro ⟨m, hm, p, hp, hkey⟩
        exact ⟨p, ⟨m, hm, hp⟩, hkey⟩
    rw [hbr]
    simp only [List.map_nil, List.not_mem_nil, or_false]
    exact or_comm

theorem buildOwnProperty_mono (x : Externals) {n m : Nat} (hnm : n ≤ m) (pkg : String)
    (schema : Schema) (specDoc : Document) (pn : String) (p : Schema) (gmp : genModelProperty)
    (h : buildOwnProperty x (makeGenModelProperty x n) pkg schema specDoc pn p = Res.ok gmp) :
    buildOwnProperty x (makeGenModelProperty x m) pkg schema specDoc pn p = Res.ok gmp := by
  unfold buildOwnProperty at h ⊢
  rw [makeGenModelProperty_mono x hnm _ (by rw [h]; simp), h]

/-- Own properties that build one by one, each with its own fuel, build together with
any fuel above a common bound. -/
theorem buildOwnProperty_common_fuel (x : Externals) (pkg : String) (schema : Schema)
    (specDoc : Document) (l : List (String × Schema))
    (h : ∀ d ∈ l, ∃ n gmp,
      buildOwnProperty x (makeGenModelProperty x n) pkg schema specDoc d.1 d.2 = Res.ok gmp) :
    ∃ n, ∀ k, n ≤ k → ∀ d ∈ l, ∃ gmp,
      buildOwnProperty x (makeGenModelProperty x k) pkg schema specDoc d.1 d.2 = Res.ok gmp := by
  induction l with
  | nil => exact ⟨0, fun _ _ d hd => by cases hd⟩
  | cons d0 rest ih =>
    obtain ⟨n1, g1, h1⟩ := h d0 (List.mem_cons_self _ _)
    obtain ⟨n2, h2⟩ := ih fun d hd => h d (List.mem_cons_of_mem _ hd)
    refine ⟨max n1 n2, fun k hk d hd => ?_⟩
    rcases List.mem_cons.mp hd with rfl | hd
    · exact ⟨g1, buildOwnProperty_mono x (le_trans (le_max_left _ _) hk) pkg schema specDoc
        _ _ g1 h1⟩
    · exact h2 k (le_trans (le_max_right _ _) hk) d hd

/-- The first loop of `makeCodegenModel` ends with a map when every declaration
builds. -/
theorem buildOwnProperties_total (x : Externals)
    (build : propGenBuildParams → Res genModelProperty) (pkg : String) (schema : Schema)
    (specDoc : Document) (l : List (String × Schema))
    (h : ∀ d ∈ l, ∃ gmp, buildOwnProperty x build pkg schema specDoc d.1 d.2 = Res.ok gmp)
    (props : List (String × genModelProperty)) :
    ∃ own, buildOwnProperties x build pkg schema specDoc l props = Res.ok own := by
  induction l generalizing props with
  | nil => exact ⟨props, rfl⟩
  | cons d0 rest ih =>
    obtain ⟨pn, p⟩ := d0
    obtain ⟨g, hg⟩ := h (pn, p) (List.mem_cons_self _ _)
    obtain ⟨own, hown⟩ :=
      ih (fun d hd => h d (List.mem_cons_of_mem _ hd)) (mapSet (x.ToJSONName pn) g props)
    exact ⟨own, by rw [buildOwnProperties, hg, Res.bind_ok, hown]⟩

/-- The own property of a name is the same with more fuel, when every declaration
builds. -/
theorem ownDeclared_mono (x : Externals) {n m : Nat} (hnm : n ≤ m) (pkg : String)
    (schema : Schema) (specDoc : Document)
    (h : ∀ d ∈ schema.Properties, ∃ gmp,
      buildOwnProperty x (makeGenModelProperty x n) pkg schema specDoc d.1 d.2 = Res.ok gmp)
    (k : String) :
    ownDeclared x (makeGenModelProperty x m) pkg schema specDoc k =
      ownDeclared x (makeGenModelProperty x n) pkg schema specDoc k := by
  unfold ownDeclared
  cases hfind : schema.Properties.reverse.find? (fun d => x.ToJSONName d.1 == k) with
  | none => rfl
  | some d =>
    have hmem : d ∈ schema.Properties := List.mem_reverse.mp (List.mem_of_find?_eq_some hfind)
    obtain ⟨g, hg⟩ := h d hmem
    show (buildOwnProperty x (makeGenModelProperty x m) pkg schema specDoc d.1 d.2).toOption =
      (buildOwnProperty x (makeGenModelProperty x n) pkg schema specDoc d.1 d.2).toOption
    rw [buildOwnProperty_mono x hnm pkg schema specDoc d.1 d.2 g hg, hg]

/-- C12: when every own property of a definition builds and all its `allOf` branches
build, `makeCodegenModel` returns, with any fuel above some bound, a model in which
every normalised name (`ParamName`) occurs once; the names of the model are the names
that the schema declares, by an own property or through a branch, and the names of the
model of a branch are those that the branch declares; and a name carries the property
of the last branch whose model has it, or, when no branch has it, the property built
from the own property of that name: the own properties overridden by the properties of
the first branch, then of the second, and so on. A branch that is a reference stands
for the definition it names; of two own properties with one normalised name the one
that the first loop stores last stays. -/
theorem makeCodegenModel_allOf (x : Externals) (name pkg : String)
    (schema : Schema) (specDoc : Document) (ms : List genModel)
    (hOwn : ∀ d ∈ schema.Properties, ∃ n gmp,
      buildOwnProperty x (makeGenModelProperty x n) pkg schema specDoc d.1 d.2 = Res.ok gmp)
    (hBranches : List.Forall₂
      (fun b m =>
        ∃ n, makeCodegenModel x n name pkg (allOfBranch x specDoc b) specDoc = Res.ok m)
      schema.AllOf ms) :
    ∃ n, ∀ k, n ≤ k →
      ∃ mod, makeCodegenModel x k name pkg schema specDoc = Res.ok mod ∧
        (mod.Properties.map fun p => p.sharedParam.ParamName).Nodup ∧
        (∀ key, (∃ p ∈ mod.Properties, p.sharedParam.ParamName = key) ↔
          Declares x specDoc schema key) ∧
        List.Forall₂
          (fun b m => ∀ key, (∃ p ∈ m.Properties, p.sharedParam.ParamName = key) ↔
            Declares x specDoc (allOfBranch x specDoc b) key)
          schema.AllOf ms ∧
        ∀ key, mod.Properties.find? (fun p => p.sharedParam.ParamName == key) =
          declaredProperty x (makeGenModelProperty x k) pkg schema specDoc ms key := by
  obtain ⟨n1, h1⟩ := buildOwnProperty_common_fuel x pkg schema specDoc schema.Properties hOwn
  obtain ⟨n2, h2⟩ := makeCodegenModel_common_fuel x name pkg specDoc hBranches
  refine ⟨max n1 n2 + 1, fun k hk => ?_⟩
  obtain ⟨j, rfl⟩ : ∃ j, k = j + 1 := ⟨k - 1, by omega⟩
  have hj1 : n1 ≤ j := by have := le_max_left n1 n2; omega
  have hj2 : n2 ≤ j := by have := le_max_right n1 n2; omega
  obtain ⟨own, hOwn'⟩ :=
    buildOwnProperties_total x (makeGenModelProperty x j) pkg schema specDoc schema.Properties
      (h1 j hj1) []
  obtain ⟨mod, hmod, hnodup, hfind⟩ :=
    makeCodegenModel_allOf_at x j name pkg schema specDoc own ms hOwn' (h2 j hj2)
  obtain ⟨hkOwn, _⟩ :=
    buildOwnProperties_keyed x (makeGenModelProperty x j) pkg schema specDoc
      (makeGenModelProperty_paramName x j) schema.Properties [] own hOwn'
      (fun kv hkv => by cases hkv) (by simp)
  refine ⟨mod, hmod, hnodup, makeCodegenModel_declares x name pkg specDoc _ schema mod hmod,
    ?_, fun key => ?_⟩
  · exact List.Forall₂.imp
      (fun b m hbm key => by
        obtain ⟨n, hn⟩ := hbm
        exact makeCodegenModel_declares x name pkg specDoc n _ m hn key)
      hBranches
  · rw [hfind, lastDeclared, declaredProperty, find_values_eq_lookup _ hkOwn,
      buildOwnProperties_lookup x _ pkg schema specDoc schema.Properties [] own hOwn' key,
      ownDeclared_mono x (Nat.le_succ j) pkg schema specDoc (h1 j hj1) key]
    rfl

/-- C12 at `mergedSchema`, with own property `own` and branches that declare `a`, `b`,
`c` with `maxLength: 5`, `c` with `maxLength: 9`, and a reference to `Pet`: the model
has `own`, `a`, `b`, `c`, and `name` and `tags` of `Pet`, each once, and its `c` is the
one of the later branch. -/
theorem makeCodegenModel_allOf_witness :
    List.Perm
        (((makeCodegenModel localExternals 5 "Merged" "models" mergedSchema sampleDoc).getD
          genModel.zero).Properties.map fun p => (p.sharedParam.ParamName, p.Name))
        [("own", "own"), ("a", "a"), ("b", "b"), ("c", "c"), ("name", "name"),
          ("tags", "tags")] ∧
      ((declaredProperty localExternals (makeGenModelProperty localExternals 5) "models"
          mergedSchema sampleDoc (mergedSchema.AllOf.map branchModel) "c").map
        fun p => p.sharedParam.MaxLength) = some (some 9) ∧
      ((declaredProperty localExternals (makeGenModelProperty localExternals 5) "models"
          mergedSchema sampleDoc (mergedSchema.AllOf.map branchModel) "own").map
        fun p => p.sharedParam.T.GoType) = some "string" ∧
      ((declaredProperty localExternals (makeGenModelProperty localExternals 5) "models"
          mergedSchema sampleDoc (mergedSchema.AllOf.map branchModel) "tags").map
        fun p => p.sharedParam.T.GoType) = some "[]string" ∧
      ∃ n, ∀ k, n ≤ k →
        ∃ mod, makeCodegenModel localExternals k "Merged" "models" mergedSchema sampleDoc
            = Res.ok mod ∧
          (mod.Properties.map fun p => p.sharedParam.ParamName).Nodup ∧
          (∀ key, (∃ p ∈ mod.Properties, p.sharedParam.ParamName = key) ↔
            Declares localExternals sampleDoc mergedSchema key) ∧
          List.Forall₂
            (fun b m => ∀ key, (∃ p ∈ m.Properties, p.sharedParam.ParamName = key) ↔
              Declares localExternals sampleDoc (allOfBranch localExternals sampleDoc b) key)
            mergedSchema.AllOf (mergedSchema.AllOf.map branchModel) ∧
          ∀ key, mod.Properties.find? (fun p => p.sharedParam.ParamName == key) =
            declaredProperty localExternals (makeGenModelProperty localExternals k) "models"
              mergedSchema sampleDoc (mergedSchema.AllOf.map branchModel) key :=
  ⟨by decide, by decide, by decide, by decide,
    makeCodegenModel_allOf localExternals "Merged" "models" mergedSchema sampleDoc
      (mergedSchema.AllOf.map branchModel)
      (fun d hd => by
        have hP : mergedSchema.Properties = [("own", typed "string")] := rfl
        rw [hP, List.mem_singleton] at hd
        subst hd
        exact ⟨3, _, rfl⟩)
      (List.Forall₂.cons ⟨4, rfl⟩ (List.Forall₂.cons ⟨4, rfl⟩ (List.Forall₂.cons ⟨4, rfl⟩
        (List.Forall₂.cons ⟨4, rfl⟩ (List.Forall₂.cons ⟨4, rfl⟩ List.Forall₂.nil)))))⟩

/-- The definition `collidingSchema`, whose own properties `Foo` and `foo` have one
normalised name, gives a model with one property, of normalised name `foo`: the map of
the first loop is keyed by the normalised name. -/
theorem makeCodegenModel_colliding :
    (collidingSchema.Properties.map fun d => localExternals.ToJSONName d.1) = ["foo", "foo"] ∧
      (((makeCodegenModel localExternals 3 "Colliding" "models" collidingSchema sampleDoc).getD
        genModel.zero).Properties.map fun p => p.sharedParam.ParamName) = ["foo"] := by
  decide

/-- C13 (code at the failing input): for the definition `danglingAllOf`, whose `allOf`
branch refers to the definition `Missing` that the document does not have,
`makeCodegenModel` returns a model, without properties, and no error: the map lookup
`specDoc.Spec().Definitions[tn]` yields the zero schema and the branch counts as
empty. -/
theorem makeCodegenModel_dangling_allOf (fuel : Nat) :
    (sampleDoc.Definitions.lookup "Missing").isNone = true ∧
      ∃ mod, makeCodegenModel localExternals (fuel + 2) "Thing" "models" danglingAllOf sampleDoc
          = Res.ok mod ∧
        mod.Properties = [] :=
  ⟨rfl, _, rfl, rfl⟩

/-- C14: the flag `HasValidations` of a model that `makeCodegenModel` returns is true
exactly when a property of its final list `Properties` has `HasValidations` true. -/
theorem makeCodegenModel_hasValidations (x : Externals) (fuel : Nat) (name pkg : String)
    (schema : Schema) (specDoc : Document) (mod : genModel)
    (h : makeCodegenModel x fuel name pkg schema specDoc = Res.ok mod) :
    mod.HasValidations = true ↔ ∃ p ∈ mod.Properties, p.sharedParam.HasValidations = true := by
  obtain ⟨props, hP, hV⟩ := makeCodegenModel_ok h
  rw [hP, hV]
  simp only [List.any_eq_true, List.mem_map]
  constructor
  · rintro ⟨kv, hkv, hv⟩
    exact ⟨kv.2, ⟨kv, hkv, rfl⟩, hv⟩
  · rintro ⟨p, ⟨kv, hkv, rfl⟩, hv⟩
    exact ⟨kv, hkv, hv⟩

/-- C14 at the definition `Pet`, whose property `name` is required: the model has
validations. -/
theorem makeCodegenModel_hasValidations_witness :
    ((makeCodegenModel localExternals 4 "Pet" "models" petSchema sampleDoc).getD
        genModel.zero).HasValidations = true ∧
      ∃ p ∈ ((makeCodegenModel localExternals 4 "Pet" "models" petSchema sampleDoc).getD
        genModel.zero).Properties, p.sharedParam.HasValidations = true :=
  ⟨rfl,
    (makeCodegenModel_hasValidations localExternals 4 "Pet" "models" petSchema sampleDoc
      ((makeCodegenModel localExternals 4 "Pet" "models" petSchema sampleDoc).getD
        genModel.zero) rfl).mp rfl⟩

/-! ## Termination -/

theorem sizeOf_lt_of_mem_toList {α : Type} [SizeOf α] {a : α} {o : Option α}
    (h : a ∈ o.toList) : sizeOf a < sizeOf o := by
  cases o with
  | none => simp at h
  | some b =>
    simp only [Option.toList_some, List.mem_singleton] at h
    subst h
    simp only [Option.some.sizeOf_spec]
    omega

theorem Schema.sizeOf_child {s c : Schema} (h : c ∈ s.children) : sizeOf c < sizeOf s := by
  cases s with
  | mk Ref Type_ Format Extensions Items AdditionalItems Properties AdditionalProperties =>
    simp only [Schema.children, List.mem_append, List.mem_map] at h
    simp only [Schema.mk.sizeOf_spec]
    rcases h with ((h | h) | ⟨kp, hkp, rfl⟩) | h
    · cases AdditionalItems with
      | none => simp at h
      | some ai =>
        have h1 := sizeOf_lt_of_mem_toList h
        cases ai
        simp only [Option.some.sizeOf_spec, SchemaOrBoolOf.mk.sizeOf_spec] at h1 ⊢
        omega
    · cases Items with
      | none => simp at h
      | some items =>
        cases items with
        | mk single list =>
          simp only [List.mem_append] at h
          simp only [Option.some.sizeOf_spec, SchemaOrArrayOf.mk.sizeOf_spec]
          rcases h with h | h
          · have h1 := sizeOf_lt_of_mem_toList h
            omega
          · have h1 := List.sizeOf_lt_of_mem h
            omega
    · have h1 := List.sizeOf_lt_of_mem hkp
      obtain ⟨k, p⟩ := kp
      simp only [Prod.mk.sizeOf_spec] at h1
      simp only
      omega
    · cases AdditionalProperties with
      | none => simp at h
      | some ap =>
        have h1 := sizeOf_lt_of_mem_toList h
        cases ap
        simp only [Option.some.sizeOf_spec, SchemaOrBoolOf.mk.sizeOf_spec] at h1 ⊢
        omega

theorem Res.ended_bind {α β : Type} {p : Bool} {r : Res α} {g : α → Res β}
    (hr : r.ended p = true) (hg : ∀ a, r = Res.ok a → (g a).ended p = true) :
    (r.bind g).ended p = true := by
  cases r with
  | ok a => exact hg a rfl
  | error e => rfl
  | panic => exact hr
  | outOfFuel => cases hr

theorem Res.ended_mapList {α β : Type} {p : Bool} {f : α → Res β} :
    ∀ xs : List α, (∀ a ∈ xs, (f a).ended p = true) → (Res.mapList f xs).ended p = true
  | [], _ => rfl
  | a :: xs, h => by
    rw [Res.mapList]
    refine Res.ended_bind (h a (List.mem_cons_self _ _)) fun y _ => ?_
    exact Res.ended_bind (Res.ended_mapList xs fun b hb => h b (List.mem_cons_of_mem _ hb))
      fun ys _ => rfl

/-- The nested call on an optional schema ends when the calls on nil and on the nested
schemas do. -/
theorem ended_optional {p : Bool} {f : Option Schema → Bool → Res resolvedType}
    {l : List Schema} (hnil : ∀ b, (f none b).ended p = true)
    (hl : ∀ c ∈ l, ∀ b, (f (some c) b).ended p = true) (o : Option Schema)
    (ho : ∀ c, o = some c → c ∈ l) (b : Bool) : (f o b).ended p = true := by
  cases o with
  | none => exact hnil b
  | some c => exact hl c (ho c rfl) b

theorem resolveArray_ended {p : Bool} {f : Option Schema → Bool → Res resolvedType}
    (schema : Schema) (hnil : ∀ b, (f none b).ended p = true)
    (hc : ∀ c ∈ schema.children, ∀ b, (f (some c) b).ended p = true) :
    (resolveArray f schema).ended p = true := by
  unfold resolveArray
  refine Res.ended_bind ?_ fun result _ => ?_
  · unfold resolveAdditionalItems
    cases hai : schema.AdditionalItems with
    | none => rfl
    | some ai =>
      simp only
      split
      · refine Res.ended_bind (ended_optional hnil hc ai.Schema (fun c hcs => ?_) true)
          fun _ _ => rfl
        simp [Schema.children, hai, hcs]
      · rfl
  · cases hit : schema.Items with
    | none => rfl
    | some items =>
      simp only
      split
      · refine Res.ended_bind (Res.ended_mapList _ fun esch hmem => hc esch ?_ true)
          fun _ _ => rfl
        simp [Schema.children, hit, hmem]
      · refine Res.ended_bind (ended_optional hnil hc items.Schema (fun c hcs => ?_) true)
          fun _ _ => rfl
        simp [Schema.children, hit, hcs]

theorem resolveObject_ended {p : Bool} {f : Option Schema → Bool → Res resolvedType}
    (schema : Schema) (a : Bool)
    (hc : ∀ c ∈ schema.children, ∀ b, (f (some c) b).ended p = true) :
    (resolveObject f schema a).ended p = true := by
  unfold resolveObject
  refine Res.ended_bind ?_ fun result _ => ?_
  · unfold resolveProperties
    split
    · refine Res.ended_bind (Res.ended_mapList _ fun kp hmem => ?_) fun _ _ => rfl
      refine Res.ended_bind (hc kp.2 ?_ true) fun _ _ => rfl
      simp only [Schema.children, List.mem_append, List.mem_map]
      exact Or.inl (Or.inr ⟨kp, hmem, rfl⟩)
    · rfl
  · cases hap : additionalPropertiesSchema schema with
    | none =>
      simp only
      split <;> rfl
    | some aps =>
      simp only
      refine Res.ended_bind (hc aps ?_ true) fun _ _ => rfl
      unfold additionalPropertiesSchema at hap
      cases hsap : schema.AdditionalProperties with
      | none => simp [hsap] at hap
      | some ap =>
        simp only [hsap] at hap
        simp [Schema.children, hsap, hap]

theorem resolveByType_ended {p : Bool} {f : Option Schema → Bool → Res resolvedType}
    (schema : Schema) (a : Bool) (hnil : ∀ b, (f none b).ended p = true)
    (hc : ∀ c ∈ schema.children, ∀ b, (f (some c) b).ended p = true) :
    (resolveByType f schema a).ended p = true := by
  unfold resolveByType
  simp only
  split_ifs
  · exact resolveArray_ended schema hnil hc
  · rfl
  · rfl
  · exact resolveObject_ended schema a hc
  · rfl

theorem resolveSchemaRef_ended {p : Bool} (x : Externals) (t : typeResolver)
    {f : Option Schema → Bool → Res resolvedType} (schema : Schema)
    (hNames : p = false → StringGoNames x t.Doc)
    (href : ∀ b, RefersTo x t.Doc schema b → (f (some b) true).ended p = true)
    (r : Res resolvedType) (hr : resolveSchemaRef x t f schema = some r) :
    r.ended p = true := by
  unfold resolveSchemaRef at hr
  cases hRef : schema.Ref with
  | none => simp [hRef] at hr
  | some url =>
    simp only [hRef, Option.some.injEq] at hr
    subst hr
    cases hres : x.ResolveRef t.Doc url with
    | error er => rfl
    | ok ref =>
      simp only
      refine Res.ended_bind ?_ fun tn _ => ?_
      · unfold refTypeName
        cases hgn : ref.Extensions.lookup "x-go-name" with
        | none => rfl
        | some v =>
          cases p with
          | true => cases v <;> rfl
          | false =>
            obtain ⟨gn, rfl⟩ := hNames rfl url ref v hres hgn
            rfl
      · split
        · rfl
        · exact href ref ⟨url, hRef, hres⟩

/-- One more level of calls: a call of `ResolveSchema` ends when the calls it makes on
nil, on the nested schemas and on the target of its reference end with one unit of
fuel less. -/
theorem ResolveSchema_ended_step {p : Bool} (x : Externals) (t : typeResolver) (fuel : Nat)
    (schema : Schema) (hNames : p = false → StringGoNames x t.Doc)
    (hnil : ∀ b, (ResolveSchema x t fuel none b).ended p = true)
    (hc : ∀ c ∈ schema.children, ∀ b, (ResolveSchema x t fuel (some c) b).ended p = true)
    (href : ∀ b, RefersTo x t.Doc schema b →
      (ResolveSchema x t fuel (some b) true).ended p = true) (a : Bool) :
    (ResolveSchema x t (fuel + 1) (some schema) a).ended p = true := by
  rw [ResolveSchema_some]
  cases hsr : resolveSchemaRef x t (ResolveSchema x t fuel) schema with
  | some r => exact resolveSchemaRef_ended x t schema hNames href r hsr
  | none =>
    simp only
    cases hfmt : resolveFormat schema with
    | some r =>
      simp only
      unfold resolveFormat at hfmt
      split at hfmt
      · split at hfmt
        · cases hfmt
          rfl
        · cases hfmt
      · cases hfmt
    | none => exact resolveByType_ended schema a hnil hc

/-- In a finite document whose reference graph is acyclic, the relation "is reached
from" is well founded. -/
theorem reaches_wellFounded (x : Externals) (doc : Document)
    (hFinite : FiniteTargets x doc) (hAcyclic : Acyclic x doc) :
    WellFounded (Function.swap (Reaches x doc)) := by
  obtain ⟨targets, hT⟩ := hFinite
  have hfin : Finite { b : Schema // b ∈ targets } :=
    Set.finite_coe_iff.mpr (List.finite_toSet targets)
  have htrans : IsTrans { b : Schema // b ∈ targets }
      (fun u v => Relation.TransGen (Function.swap (Reaches x doc)) u.1 v.1) :=
    ⟨fun _ _ _ h1 h2 => Relation.TransGen.trans h1 h2⟩
  have hirrefl : IsIrrefl { b : Schema // b ∈ targets }
      (fun u v => Relation.TransGen (Function.swap (Reaches x doc)) u.1 v.1) :=
    ⟨fun u h => hAcyclic u.1 (Relation.transGen_swap.mp h)⟩
  have wf : WellFounded (fun u v : { b : Schema // b ∈ targets } =>
      Relation.TransGen (Function.swap (Reaches x doc)) u.1 v.1) :=
    Finite.wellFounded_of_trans_of_irrefl _
  have htarget : ∀ d b, Reaches x doc d b → b ∈ targets := by
    rintro d b ⟨s, _, url, _, hres⟩
    exact hT url b hres
  have hacc : ∀ u : { b : Schema // b ∈ targets },
      Acc (Function.swap (Reaches x doc)) u.1 := by
    intro u
    induction wf.apply u with
    | intro u _ ih =>
      exact Acc.intro _ fun c hc => ih ⟨c, htarget _ _ hc⟩ (Relation.TransGen.single hc)
  exact ⟨fun s => Acc.intro s fun b hb => hacc ⟨b, htarget _ _ hb⟩⟩

theorem ResolveSchema_ended_mono {p : Bool} (x : Externals) (t : typeResolver) {n m : Nat}
    (hnm : n ≤ m) (s : Option Schema) (a : Bool)
    (h : (ResolveSchema x t n s a).ended p = true) :
    (ResolveSchema x t m s a).ended p = true := by
  rw [ResolveSchema_mono x t hnm s a]
  · exact h
  · intro hout
    rw [hout] at h
    cases h

/-- Calls that end one by one, each with its own fuel, all end with any fuel above a
common bound. -/
theorem ended_common_fuel {p : Bool} (x : Externals) (t : typeResolver) (l : List Schema)
    (h : ∀ c ∈ l, ∃ n, ∀ b, (ResolveSchema x t n (some c) b).ended p = true) :
    ∃ n, ∀ m, n ≤ m → ∀ c ∈ l, ∀ b, (ResolveSchema x t m (some c) b).ended p = true := by
  induction l with
  | nil => exact ⟨0, fun _ _ c hc => by cases hc⟩
  | cons d rest ih =>
    obtain ⟨n1, h1⟩ := h d (List.mem_cons_self _ _)
    obtain ⟨n2, h2⟩ := ih fun c hc => h c (List.mem_cons_of_mem _ hc)
    refine ⟨max n1 n2, fun m hm c hc b => ?_⟩
    rcases List.mem_cons.mp hc with rfl | hc'
    · exact ResolveSchema_ended_mono x t (le_trans (le_max_left _ _) hm) _ b (h1 b)
    · exact h2 m (le_trans (le_max_right _ _) hm) c hc' b

/-- A schema is resolved in finitely many calls when every schema that it reaches
through a reference is. -/
theorem ResolveSchema_ended_of_reached {p : Bool} (x : Externals) (t : typeResolver)
    (hNames : p = false → StringGoNames x t.Doc) (s : Schema)
    (hreach : ∀ b, Reaches x t.Doc s b →
      ∃ n, ∀ a, (ResolveSchema x t n (some b) a).ended p = true) :
    ∃ n, ∀ a, (ResolveSchema x t n (some s) a).ended p = true := by
  suffices hall : ∀ k (s : Schema), sizeOf s = k →
      (∀ b, Reaches x t.Doc s b →
        ∃ n, ∀ a, (ResolveSchema x t n (some b) a).ended p = true) →
      ∃ n, ∀ a, (ResolveSchema x t n (some s) a).ended p = true from
    hall _ s rfl hreach
  intro k
  induction k using Nat.strong_induction_on with
  | _ k ih =>
    intro s hsize hreach
    subst hsize
    have hchildren : ∀ c ∈ s.children,
        ∃ n, ∀ b, (ResolveSchema x t n (some c) b).ended p = true := by
      intro c hc
      refine ih (sizeOf c) (Schema.sizeOf_child hc) c rfl (fun b hb => ?_)
      obtain ⟨s', hs', href⟩ := hb
      exact hreach b ⟨s', Relation.ReflTransGen.head hc hs', href⟩
    obtain ⟨n1, h1⟩ := ended_common_fuel x t s.children hchildren
    have hrefs : ∃ n2, ∀ m, n2 ≤ m → ∀ b, RefersTo x t.Doc s b →
        (ResolveSchema x t m (some b) true).ended p = true := by
      cases hRef : s.Ref with
      | none =>
        refine ⟨0, fun m _ b hb => ?_⟩
        obtain ⟨url, hurl, _⟩ := hb
        rw [hRef] at hurl
        cases hurl
      | some url =>
        cases hres : x.ResolveRef t.Doc url with
        | error er =>
          refine ⟨0, fun m _ b hb => ?_⟩
          obtain ⟨url', hurl, hres'⟩ := hb
          rw [hRef] at hurl
          cases hurl
          rw [hres] at hres'
          cases hres'
        | ok ref =>
          obtain ⟨n2, h2⟩ := hreach ref ⟨s, Relation.ReflTransGen.refl, url, hRef, hres⟩
          refine ⟨n2, fun m hm b hb => ?_⟩
          obtain ⟨url', hurl, hres'⟩ := hb
          rw [hRef] at hurl
          cases hurl
          rw [hres] at hres'
          cases hres'
          exact ResolveSchema_ended_mono x t hm _ true (h2 true)
    obtain ⟨n2, h2⟩ := hrefs
    refine ⟨max n1 n2 + 1 + 1, fun a => ?_⟩
    refine ResolveSchema_ended_step x t (max n1 n2 + 1) s hNames (fun b => rfl) ?_ ?_ a
    · exact h1 _ (le_trans (le_max_left _ _) (Nat.le_succ _))
    · exact h2 _ (le_trans (le_max_right _ _) (Nat.le_succ _))

/-- In a finite document with an acyclic reference graph every call of `ResolveSchema`
ends, given enough fuel. -/
theorem ResolveSchema_ended (p : Bool) (x : Externals) (t : typeResolver)
    (hFinite : FiniteTargets x t.Doc) (hAcyclic : Acyclic x t.Doc)
    (hNames : p = false → StringGoNames x t.Doc) (s : Option Schema) (a : Bool) :
    ∃ n, ∀ m, n ≤ m → (ResolveSchema x t m s a).ended p = true := by
  cases s with
  | none => exact ⟨1, fun m hm => ResolveSchema_ended_mono x t hm none a rfl⟩
  | some schema =>
    have hall : ∀ d : Schema, ∃ n, ∀ b, (ResolveSchema x t n (some d) b).ended p = true := by
      intro d
      induction (reaches_wellFounded x t.Doc hFinite hAcyclic).apply d with
      | intro d _ ih =>
        exact ResolveSchema_ended_of_reached x t hNames d fun b hb => ih b hb
    obtain ⟨n, hn⟩ := hall schema
    exact ⟨n, fun m hm => ResolveSchema_ended_mono x t hm _ a (hn a)⟩

/-! ### Concrete documents -/

theorem lookup_mem_values {α : Type} (k : String) (v : α) :
    ∀ l : List (String × α), l.lookup k = some v → v ∈ l.map Prod.snd
  | [], h => by cases h
  | (k0, v0) :: rest, h => by
    rw [lookup_cons_if] at h
    by_cases hk : k = k0
    · rw [if_pos hk] at h
      cases h
      exact List.mem_cons_self _ _
    · rw [if_neg hk] at h
      exact List.mem_cons_of_mem _ (lookup_mem_values k v rest h)

/-- The references of `localExternals` resolve to definitions of the document. -/
theorem resolveLocalRef_mem (doc : Document) (url : URL) (b : Schema)
    (h : resolveLocalRef doc url = Except.ok b) : b ∈ doc.Definitions.map Prod.snd := by
  unfold resolveLocalRef at h
  simp only at h
  split at h
  · split at h
    · rename_i schema hl
      cases h
      exact lookup_mem_values _ _ _ hl
    · cases h
  · cases h

theorem finiteTargets_local (doc : Document) : FiniteTargets localExternals doc :=
  ⟨doc.Definitions.map Prod.snd, fun url b h => resolveLocalRef_mem doc url b h⟩

/-- A reference graph with a rank that decreases along the references between the
schemas that references resolve to is acyclic. -/
theorem acyclic_of_rank (x : Externals) (doc : Document) (rank : Schema → Nat)
    (h : ∀ a b, (∃ url, x.ResolveRef doc url = Except.ok a) → Reaches x doc a b →
      rank b < rank a) : Acyclic x doc := by
  have htarget : ∀ a b, Reaches x doc a b → ∃ url, x.ResolveRef doc url = Except.ok b := by
    rintro a b ⟨s, _, url, _, hres⟩
    exact ⟨url, hres⟩
  have hchain : ∀ a b, Relation.TransGen (Reaches x doc) a b →
      (∃ url, x.ResolveRef doc url = Except.ok b) ∧
        ((∃ url, x.ResolveRef doc url = Except.ok a) → rank b < rank a) := by
    intro a b hab
    induction hab with
    | single hs => exact ⟨htarget _ _ hs, fun ha => h _ _ ha hs⟩
    | tail _ hs ih =>
      exact ⟨htarget _ _ hs, fun ha => lt_trans (h _ _ ih.1 hs) (ih.2 ha)⟩
  intro d hd
  obtain ⟨hT, hlt⟩ := hchain d d hd
  exact lt_irrefl _ (hlt hT)

/-- A schema without nested schemas reaches what it refers to. -/
theorem reaches_of_no_children (x : Externals) (doc : Document) (s b : Schema)
    (hs : s.children = []) (h : Reaches x doc s b) : RefersTo x doc s b := by
  obtain ⟨s', hs', href⟩ := h
  rcases Relation.ReflTransGen.cases_head hs' with rfl | ⟨c, hc, _⟩
  · exact href
  · rw [hs] at hc
    cases hc

theorem acyclic_aliasDoc : Acyclic localExternals aliasDoc := by
  refine acyclic_of_rank localExternals aliasDoc referenceRank ?_
  rintro a b ⟨url, hurl⟩ hab
  have hmem := resolveLocalRef_mem aliasDoc url a hurl
  simp only [aliasDoc, List.map_cons, List.map_nil, List.mem_cons, List.mem_singleton,
    List.not_mem_nil, or_false] at hmem
  rcases hmem with rfl | rfl
  · obtain ⟨url', hRef, hres⟩ :=
      reaches_of_no_children localExternals aliasDoc (refTo "Name") b rfl hab
    cases hRef
    have hb : localExternals.ResolveRef aliasDoc
        { Location := "", Fragment := "/definitions/" ++ "Name" } = Except.ok nameSchema := rfl
    rw [hb] at hres
    cases hres
    decide
  · obtain ⟨url', hRef, _⟩ :=
      reaches_of_no_children localExternals aliasDoc nameSchema b rfl hab
    cases hRef

theorem acyclic_oddDoc : Acyclic localExternals oddDoc := by
  refine acyclic_of_rank localExternals oddDoc referenceRank ?_
  rintro a b ⟨url, hurl⟩ hab
  have hmem := resolveLocalRef_mem oddDoc url a hurl
  simp only [oddDoc, List.map_cons, List.map_nil, List.mem_singleton] at hmem
  subst hmem
  obtain ⟨url', hRef, _⟩ := reaches_of_no_children localExternals oddDoc oddSchema b rfl hab
  cases hRef

theorem stringGoNames_aliasDoc : StringGoNames localExternals aliasDoc := by
  intro url ref v hres hv
  have hmem := resolveLocalRef_mem aliasDoc url ref hres
  simp only [aliasDoc, List.map_cons, List.map_nil, List.mem_cons, List.mem_singleton,
    List.not_mem_nil, or_false] at hmem
  rcases hmem with rfl | rfl <;> cases hv

/-- C20 (as stated, refuted): the document `oddDoc` is finite and its reference graph
is acyclic, yet the call of `ResolveSchema` on the reference to `Odd` returns neither a
resolved type nor an error, with any fuel: it stops with the panic of `gn.(string)`. -/
theorem ResolveSchema_acyclic_panics :
    FiniteTargets localExternals oddDoc ∧ Acyclic localExternals oddDoc ∧
      ¬ ∃ fuel,
        (ResolveSchema localExternals oddResolver fuel (some (refTo "Odd")) false).isOk = true ∨
        (ResolveSchema localExternals oddResolver fuel (some (refTo "Odd")) false).isError
          = true := by
  refine ⟨finiteTargets_local oddDoc, acyclic_oddDoc, ?_⟩
  rintro ⟨fuel, h⟩
  cases fuel with
  | zero => rcases h with h | h <;> exact absurd h (by decide)
  | succ n =>
    have hp : ResolveSchema localExternals oddResolver (n + 1) (some (refTo "Odd")) false
        = Res.panic := rfl
    rw [hp] at h
    rcases h with h | h <;> exact absurd h (by decide)

/-- C20 (amended): in a finite document whose reference graph is acyclic, every call of
`ResolveSchema`, on a schema or on nil and in either context, ends with any fuel above
some bound: the recursion through items, tuple elements, additional items, properties,
additional properties and reference targets is well founded. When moreover every
`x-go-name` extension of a reference target is a string, the call returns a resolved
type or an error. -/
theorem ResolveSchema_terminates (x : Externals) (t : typeResolver)
    (hFinite : FiniteTargets x t.Doc) (hAcyclic : Acyclic x t.Doc)
    (s : Option Schema) (a : Bool) :
    (∃ n, ∀ m, n ≤ m → ResolveSchema x t m s a ≠ Res.outOfFuel) ∧
      (StringGoNames x t.Doc →
        ∃ n, ∀ m, n ≤ m →
          (ResolveSchema x t m s a).isOk = true ∨ (ResolveSchema x t m s a).isError = true) := by
  constructor
  · obtain ⟨n, hn⟩ := ResolveSchema_ended true x t hFinite hAcyclic (fun h => by cases h) s a
    refine ⟨n, fun m hm hout => ?_⟩
    have := hn m hm
    rw [hout] at this
    cases this
  · intro hNames
    obtain ⟨n, hn⟩ := ResolveSchema_ended false x t hFinite hAcyclic (fun _ => hNames) s a
    refine ⟨n, fun m hm => ?_⟩
    have := hn m hm
    cases hr : ResolveSchema x t m s a with
    | ok r => exact Or.inl rfl
    | error e => exact Or.inr rfl
    | panic =>
      rw [hr] at this
      cases this
    | outOfFuel =>
      rw [hr] at this
      cases this

/-- C20 (amended) at the reference to `Alias` in `aliasDoc`, where `Alias` is a
reference to the string `Name`: the call ends and returns a resolved type or an
error. -/
theorem ResolveSchema_terminates_witness :
    (∃ n, ∀ m, n ≤ m →
        ResolveSchema localExternals aliasResolver m (some (refTo "Alias")) false
          ≠ Res.outOfFuel) ∧
      ∃ n, ∀ m, n ≤ m →
        (ResolveSchema localExternals aliasResolver m (some (refTo "Alias")) false).isOk = true ∨
        (ResolveSchema localExternals aliasResolver m (some (refTo "Alias")) false).isError
          = true :=
  ⟨(ResolveSchema_terminates localExternals aliasResolver (finiteTargets_local aliasDoc)
      acyclic_aliasDoc (some (refTo "Alias")) false).1,
    (ResolveSchema_terminates localExternals aliasResolver (finiteTargets_local aliasDoc)
      acyclic_aliasDoc (some (refTo "Alias")) false).2 stringGoNames_aliasDoc⟩

/-! ## Index tokens of nested arrays -/

theorem indexToken_shift (v : String) : ∀ k, indexToken (v ++ "i") k = indexToken v (k + 1)
  | 0 => rfl
  | k + 1 => by
    rw [indexToken, indexToken_shift v k]
    rfl

theorem subscripts_shift (v : String) :
    ∀ k, "[" ++ v ++ "]" ++ subscripts (v ++ "i") k = subscripts v (k + 1)
  | 0 => by simp [subscripts, indexToken]
  | k + 1 => by
    have ih := subscripts_shift v k
    show "[" ++ v ++ "]" ++
        (subscripts (v ++ "i") k ++ "[" ++ indexToken (v ++ "i") k ++ "]") =
      subscripts v (k + 1) ++ "[" ++ indexToken v (k + 1) ++ "]"
    rw [← ih, indexToken_shift]
    simp only [String.append_assoc]

theorem indexToken_length (v : String) : ∀ k, (indexToken v k).length = v.length + k
  | 0 => rfl
  | k + 1 => by
    rw [indexToken, String.length_append, indexToken_length v k]
    rfl

theorem indexToken_eq_replicate (v : String) :
    ∀ k, indexToken v k = v ++ String.mk (List.replicate k 'i')
  | 0 => by simp [indexToken]
  | k + 1 => by
    rw [indexToken, indexToken_eq_replicate v k, String.append_assoc]
    congr 1
    apply String.ext
    simp [List.replicate_succ']

theorem nestSlices_cons (pg : propGenBuildParams) (s : Schema) (rest : List Schema) :
    nestSlices pg (s :: rest) = nestSlices (pg.NewSliceBranch s) rest := rfl

/-- C21: after `NewSliceBranch` was applied `k` times, for `k` nested array levels with
whatever element schemas, the index token is the first one followed by `k` copies of
`i`, and the value expression is the first one followed by the subscripts `[v]`,
`[vi]`, ..., one for each level in that order; the tokens of two different depths are
different, so that no inner loop reuses the token of an outer one. -/
theorem nestSlices_index (pg : propGenBuildParams) (schemas : List Schema) :
    (nestSlices pg schemas).IndexVar = indexToken pg.IndexVar schemas.length ∧
      indexToken pg.IndexVar schemas.length =
        pg.IndexVar ++ String.mk (List.replicate schemas.length 'i') ∧
      (nestSlices pg schemas).ValueExpr =
        pg.ValueExpr ++ subscripts pg.IndexVar schemas.length ∧
      Function.Injective (indexToken pg.IndexVar) := by
  refine ⟨?_, indexToken_eq_replicate _ _, ?_, ?_⟩
  · induction schemas generalizing pg with
    | nil => rfl
    | cons s rest ih =>
      rw [nestSlices_cons, ih, List.length_cons]
      exact indexToken_shift pg.IndexVar rest.length
  · induction schemas generalizing pg with
    | nil => simp [nestSlices, subscripts]
    | cons s rest ih =>
      rw [nestSlices_cons, ih, List.length_cons, ← subscripts_shift pg.IndexVar rest.length]
      show pg.ValueExpr ++ "[" ++ pg.IndexVar ++ "]" ++ subscripts (pg.IndexVar ++ "i") rest.length
        = _
      simp only [String.append_assoc]
  · intro j k hjk
    have hlen := congrArg String.length hjk
    rw [indexToken_length, indexToken_length] at hlen
    omega

/-- C21 at the property `tags` with two nested array levels: the index token is `iii`
and the value expression is `m.Tags[i][ii]`. -/
theorem nestSlices_index_witness :
    (nestSlices (sampleParams "tags" stringArraySchema false)
        [stringArraySchema, typed "string"]).IndexVar = "iii" ∧
      (nestSlices (sampleParams "tags" stringArraySchema false)
        [stringArraySchema, typed "string"]).ValueExpr = "m.Tags[i][ii]" :=
  ⟨(nestSlices_index (sampleParams "tags" stringArraySchema false)
      [stringArraySchema, typed "string"]).1.trans (by decide),
    (nestSlices_index (sampleParams "tags" stringArraySchema false)
      [stringArraySchema, typed "string"]).2.2.1.trans (by decide)⟩

/-! ## Simple types of headers and parameters -/

theorem resolveSimpleType_of_known (tn fmt : String) (items : Items) (tpe : String)
    (hFmt : typeMapping.lookup (removeHyphens fmt) = some tpe) :
    resolveSimpleType tn fmt items = tpe := by
  have hne : fmt ≠ "" := by
    intro h
    have hEmpty : typeMapping.lookup (removeHyphens "") = none := by decide
    rw [h, hEmpty] at hFmt
    cases hFmt
  cases items <;> simp [resolveSimpleType, hne, hFmt]

theorem resolveSimpleType_of_unknown (tn fmt : String) (items : Items)
    (hFmt : typeMapping.lookup (removeHyphens fmt) = none) :
    resolveSimpleType tn fmt items =
      match typeMapping.lookup tn with
      | some tpe => tpe
      | none =>
        if tn = "array" then
          match items with
          | Items.nil => "[]interface\x7b\x7d"
          | Items.mk itemsType itemsFormat itemsItems =>
            "[]" ++ resolveSimpleType itemsType itemsFormat itemsItems
        else tn := by
  have hnone : (if fmt ≠ "" then typeMapping.lookup (removeHyphens fmt) else none) = none := by
    split
    · exact hFmt
    · rfl
  cases items with
  | nil =>
    rw [resolveSimpleType, hnone]
  | mk t f i =>
    rw [resolveSimpleType, hnone]

theorem simpleSchema_fields (tn fmt : String) (items : Items) :
    (simpleSchema tn fmt items).Ref = none ∧ (simpleSchema tn fmt items).Format = fmt ∧
      (simpleSchema tn fmt items).Type_ = [tn] ∧
      (simpleSchema tn fmt items).AdditionalItems = none := by
  cases items <;> exact ⟨rfl, rfl, rfl, rfl⟩

theorem simpleSchema_items_nil (tn fmt : String) :
    (simpleSchema tn fmt Items.nil).Items = none := rfl

theorem simpleSchema_items_mk (tn fmt t f : String) (i : Items) :
    (simpleSchema tn fmt (Items.mk t f i)).Items =
      some { Schema := some (simpleSchema t f i), Schemas := [] } := rfl

/-- A description with a known format or a scalar type name: the two resolvers agree
with any fuel of at least one. -/
theorem resolveSimpleType_leaf (x : Externals) (t : typeResolver) (tn fmt : String)
    (items : Items)
    (hleaf : (typeMapping.lookup (removeHyphens fmt)).isSome = true ∨ tn ∈ simpleScalars)
    (k : Nat) (a : Bool) :
    ∃ r, ResolveSchema x t (k + 1) (some (simpleSchema tn fmt items)) a = Res.ok r ∧
      r.GoType = resolveSimpleType tn fmt items := by
  obtain ⟨hRef, hFormat, hType, _⟩ := simpleSchema_fields tn fmt items
  cases hl : typeMapping.lookup (removeHyphens fmt) with
  | some tpe =>
    have hl' : typeMapping.lookup (removeHyphens (simpleSchema tn fmt items).Format)
        = some tpe := by rw [hFormat]; exact hl
    rw [ResolveSchema_some, resolveSchemaRef_of_no_ref x t _ _ hRef,
      resolveFormat_of_known _ tpe hl', resolveSimpleType_of_known tn fmt items tpe hl]
    exact ⟨_, rfl, rfl⟩
  | none =>
    have hl' : typeMapping.lookup (removeHyphens (simpleSchema tn fmt items).Format)
        = none := by rw [hFormat]; exact hl
    have hscalar : tn ∈ simpleScalars := by
      rcases hleaf with h | h
      · rw [hl] at h
        cases h
      · exact h
    rw [ResolveSchema_by_type x t k _ a hRef hl', resolveSimpleType_of_unknown tn fmt items hl]
    unfold resolveByType firstType
    rw [hType]
    simp only [simpleScalars, List.mem_cons, List.mem_singleton, List.not_mem_nil,
      or_false] at hscalar
    rcases hscalar with rfl | rfl | rfl | rfl | rfl <;> exact ⟨_, rfl, rfl⟩

theorem isSimpleType_cases {tn : String} {items : Items} (h : isSimpleType tn items = true) :
    tn ∈ simpleScalars ∨
      (tn = "array" ∧
        (items = Items.nil ∨ ∃ t f i, items = Items.mk t f i ∧ isSimpleType t i = true)) := by
  cases items with
  | nil =>
    simp only [isSimpleType, Bool.or_eq_true, Bool.and_eq_true, beq_iff_eq,
      List.contains_iff_exists_mem_beq, exists_eq_right'] at h
    rcases h with h | ⟨h, _⟩
    · exact Or.inl h
    · exact Or.inr ⟨h, Or.inl rfl⟩
  | mk t f i =>
    simp only [isSimpleType, Bool.or_eq_true, Bool.and_eq_true, beq_iff_eq,
      List.contains_iff_exists_mem_beq, exists_eq_right'] at h
    rcases h with h | ⟨h, hi⟩
    · exact Or.inl h
    · exact Or.inr ⟨h, Or.inr ⟨t, f, i, rfl, hi⟩⟩

/-- The two resolvers agree on an array without known format, given that they agree on
its items. -/
theorem resolveSimpleType_array (x : Externals) (t : typeResolver) (fmt : String)
    (items : Items) (hFmt : typeMapping.lookup (removeHyphens fmt) = none)
    (k : Nat) (a : Bool)
    (hItems : ∀ it f i, items = Items.mk it f i →
      ∃ r, ResolveSchema x t k (some (simpleSchema it f i)) true = Res.ok r ∧
        r.GoType = resolveSimpleType it f i) :
    ∃ r, ResolveSchema x t (k + 1) (some (simpleSchema "array" fmt items)) a = Res.ok r ∧
      r.GoType = resolveSimpleType "array" fmt items := by
  obtain ⟨hRef, hFormat, hType, hAI⟩ := simpleSchema_fields "array" fmt items
  have hl' : typeMapping.lookup (removeHyphens (simpleSchema "array" fmt items).Format)
      = none := by rw [hFormat]; exact hFmt
  have hfirst : firstType (simpleSchema "array" fmt items) = "array" := by
    unfold firstType
    rw [hType]
    rfl
  rw [ResolveSchema_by_type x t k _ a hRef hl', resolveSimpleType_of_unknown "array" fmt items hFmt]
  unfold resolveByType
  simp only [hfirst, if_true]
  unfold resolveArray resolveAdditionalItems
  simp only [hAI, Res.bind_ok]
  cases items with
  | nil =>
    rw [simpleSchema_items_nil]
    exact ⟨_, rfl, rfl⟩
  | mk it f i =>
    obtain ⟨r, hr, hg⟩ := hItems it f i rfl
    rw [simpleSchema_items_mk]
    simp only [List.length_nil, lt_self_iff_false, if_false, hr, Res.bind_ok]
    refine ⟨_, rfl, ?_⟩
    show "[]" ++ r.GoType = _
    rw [hg]
    rfl

/-- C22: for a simple type description built from the type names string, number,
integer, boolean and file and from arrays of such descriptions, with any formats and
with or without items, `ResolveSchema` resolves the corresponding schema with any fuel
above some bound and in either context, and the Go type of the result is exactly what
`resolveSimpleType` returns for the description. -/
theorem resolveSimpleType_agrees (x : Externals) (t : typeResolver) (tn fmt : String)
    (items : Items) (h : isSimpleType tn items = true) :
    ∃ n, ∀ m, n ≤ m → ∀ a,
      ∃ r, ResolveSchema x t m (some (simpleSchema tn fmt items)) a = Res.ok r ∧
        r.GoType = resolveSimpleType tn fmt items := by
  induction items generalizing tn fmt with
  | nil =>
    refine ⟨1, fun m hm a => ?_⟩
    obtain ⟨k, rfl⟩ : ∃ k, m = k + 1 := ⟨m - 1, by omega⟩
    cases hl : typeMapping.lookup (removeHyphens fmt) with
    | some tpe => exact resolveSimpleType_leaf x t tn fmt _ (Or.inl (by rw [hl]; rfl)) k a
    | none =>
      rcases isSimpleType_cases h with hs | ⟨rfl, _⟩
      · exact resolveSimpleType_leaf x t tn fmt _ (Or.inr hs) k a
      · exact resolveSimpleType_array x t fmt Items.nil hl k a
          (fun it f i hi => by cases hi)
  | mk it f i ih =>
    cases hl : typeMapping.lookup (removeHyphens fmt) with
    | some tpe =>
      refine ⟨1, fun m hm a => ?_⟩
      obtain ⟨k, rfl⟩ : ∃ k, m = k + 1 := ⟨m - 1, by omega⟩
      exact resolveSimpleType_leaf x t tn fmt _ (Or.inl (by rw [hl]; rfl)) k a
    | none =>
      rcases isSimpleType_cases h with hs | ⟨rfl, hi⟩
      · refine ⟨1, fun m hm a => ?_⟩
        obtain ⟨k, rfl⟩ : ∃ k, m = k + 1 := ⟨m - 1, by omega⟩
        exact resolveSimpleType_leaf x t tn fmt _ (Or.inr hs) k a
      · have hsub : isSimpleType it i = true := by
          rcases hi with hnil | ⟨t', f', i', heq, hok⟩
          · cases hnil
          · cases heq
            exact hok
        obtain ⟨n, hn⟩ := ih it f hsub
        refine ⟨n + 1, fun m hm a => ?_⟩
        obtain ⟨k, rfl⟩ : ∃ k, m = k + 1 := ⟨m - 1, by omega⟩
        refine resolveSimpleType_array x t fmt (Items.mk it f i) hl k a ?_
        intro it' f' i' heq
        cases heq
        exact hn k (by omega) true

/-- C22 at an array of arrays of strings of format `uuid`: both resolvers give
`[][]strfmt.UUID`. -/
theorem resolveSimpleType_agrees_witness :
    resolveSimpleType "array" ""
        (Items.mk "array" "" (Items.mk "string" "uuid" Items.nil)) = "[][]strfmt.UUID" ∧
      typeForParameter
        { Type_ := "array", Format := "",
          Items := Items.mk "array" "" (Items.mk "string" "uuid" Items.nil) }
        = "[][]strfmt.UUID" ∧
      ∃ n, ∀ m, n ≤ m → ∀ a,
        ∃ r, ResolveSchema localExternals sampleResolver m
            (some (simpleSchema "array" ""
              (Items.mk "array" "" (Items.mk "string" "uuid" Items.nil)))) a = Res.ok r ∧
          r.GoType = resolveSimpleType "array" ""
            (Items.mk "array" "" (Items.mk "string" "uuid" Items.nil)) :=
  ⟨by decide, by decide,
    resolveSimpleType_agrees localExternals sampleResolver "array" ""
      (Items.mk "array" "" (Items.mk "string" "uuid" Items.nil)) (by decide)⟩

/-! ## Items of a property and its resolved type -/

theorem Res.mapList_length {α β : Type} {f : α → Res β} :
    ∀ (xs : List α) (ys : List β), Res.mapList f xs = Res.ok ys → ys.length = xs.length
  | [], ys, h => by
    cases h
    rfl
  | a :: xs, ys, h => by
    rw [Res.mapList] at h
    obtain ⟨y, _, h1⟩ := Res.bind_eq_ok h
    obtain ⟨ys', hys', h2⟩ := Res.bind_eq_ok h1
    cases h2
    simp [Res.mapList_length xs ys' hys']

/-- A tuple that `resolveArray` returns has one tuple type for each schema of the
items list, which is not empty. -/
theorem resolveArray_tuple {f : Option Schema → Bool → Res resolvedType}
    {schema : Schema} {r : resolvedType} (h : resolveArray f schema = Res.ok r)
    (hT : r.IsTuple = true) :
    ∃ items, schema.Items = some items ∧ items.Schemas ≠ [] ∧
      r.TupleTypes.length = items.Schemas.length := by
  unfold resolveArray at h
  obtain ⟨base, hbase, hrest⟩ := Res.bind_eq_ok h
  obtain ⟨has, ai, rfl⟩ := resolveAdditionalItems_ok hbase
  cases hit : schema.Items with
  | none =>
    simp only [hit] at hrest
    cases hrest
    simp [resolvedType.zero] at hT
  | some items =>
    simp only [hit] at hrest
    split at hrest
    · rename_i hlen
      obtain ⟨ets, hets, hr⟩ := Res.bind_eq_ok hrest
      cases hr
      exact ⟨items, rfl, List.length_pos.mp hlen, Res.mapList_length _ _ hets⟩
    · obtain ⟨rt, _, hr⟩ := Res.bind_eq_ok hrest
      cases hr
      simp [resolvedType.zero] at hT

/-- An array that `resolveArray` returns has the interface as element type when the
schema has no items, and otherwise the result of the nested call on the single items
schema. -/
theorem resolveArray_element {f : Option Schema → Bool → Res resolvedType}
    {schema : Schema} {r : resolvedType} (h : resolveArray f schema = Res.ok r)
    (hA : r.IsArray = true) :
    (schema.Items = none ∧ r.ElementType = some interfaceType) ∨
      ∃ items rt, schema.Items = some items ∧ f items.Schema true = Res.ok rt ∧
        r.ElementType = some rt := by
  unfold resolveArray at h
  obtain ⟨base, hbase, hrest⟩ := Res.bind_eq_ok h
  obtain ⟨has, ai, rfl⟩ := resolveAdditionalItems_ok hbase
  cases hit : schema.Items with
  | none =>
    simp only [hit] at hrest
    cases hrest
    exact Or.inl ⟨rfl, rfl⟩
  | some items =>
    simp only [hit] at hrest
    split at hrest
    · obtain ⟨ets, _, hr⟩ := Res.bind_eq_ok hrest
      cases hr
      simp [resolvedType.zero] at hA
    · obtain ⟨rt, hrt, hr⟩ := Res.bind_eq_ok hrest
      cases hr
      exact Or.inr ⟨items, rt, rfl, hrt, rfl⟩

/-- A tuple or an array resolved from a schema that is not a reference is a result of
`resolveArray` on that schema. -/
theorem ResolveSchema_array_source (x : Externals) (t : typeResolver) (n : Nat)
    (schema : Schema) (a : Bool) (r : resolvedType) (hRef : schema.Ref = none)
    (h : ResolveSchema x t n (some schema) a = Res.ok r)
    (hc : r.IsTuple = true ∨ r.IsArray = true) :
    ∃ k, n = k + 1 ∧ resolveArray (ResolveSchema x t k) schema = Res.ok r := by
  cases n with
  | zero => cases h
  | succ k =>
    refine ⟨k, rfl, ?_⟩
    rw [ResolveSchema_some, resolveSchemaRef_of_no_ref x t _ schema hRef] at h
    simp only at h
    cases hfmt : resolveFormat schema with
    | some fr =>
      rw [hfmt] at h
      simp only at h
      subst h
      unfold resolveFormat at hfmt
      split at hfmt
      · split at hfmt
        · cases hfmt
          rcases hc with hc | hc <;> simp [resolvedType.zero] at hc
        · cases hfmt
      · cases hfmt
    | none =>
      rw [hfmt] at h
      simp only at h
      rcases resolveByType_ok_cases h with harr | hobj | ⟨g, st, p, rfl, _⟩
      · exact harr
      · obtain ⟨_, hA, hT, _, _⟩ := resolveObject_flags hobj
        rcases hc with hc | hc
        · rw [hT] at hc
          cases hc
        · rw [hA] at hc
          cases hc
      · rcases hc with hc | hc <;> simp [resolvedType.zero] at hc

theorem buildItems_list {build : propGenBuildParams → Res genModelProperty}
    {params : propGenBuildParams} {items : SchemaOrArray} {built : List genModelProperty}
    (hItems : params.Schema.Items = some items) (hNone : items.Schema = none)
    (h : buildItems build params = Res.ok built) : built.length = items.Schemas.length := by
  unfold buildItems at h
  simp only [hItems, hNone] at h
  exact Res.mapList_length _ _ h

/-- C23 (as stated, refuted): the property whose schema is a reference to `Tags`, an
array of strings, carries a homogeneous array with element type string and has no item
child, with `SingleSchemaSlice = false`; and the property whose items carry both a
single schema and a list of two schemas carries a tuple with two tuple types and has
one item child, with `SingleSchemaSlice = true`. -/
theorem makeGenModelProperty_items_disagree :
    (∃ gmp, makeGenModelProperty localExternals 4 (sampleParams "tags" (refTo "Tags") false)
          = Res.ok gmp ∧
        gmp.sharedParam.T.IsArray = true ∧ gmp.sharedParam.T.ElementType = some stringType ∧
        gmp.ItemsLen = 0 ∧ gmp.SingleSchemaSlice = false) ∧
      ∃ gmp, makeGenModelProperty localExternals 3 (sampleParams "pair" itemsBothForms false)
          = Res.ok gmp ∧
        gmp.sharedParam.T.IsTuple = true ∧ gmp.sharedParam.T.TupleTypes.length = 2 ∧
        gmp.ItemsLen = 1 ∧ gmp.SingleSchemaSlice = true :=
  ⟨⟨_, rfl, rfl, rfl, rfl, rfl⟩, ⟨_, rfl, rfl, rfl, rfl, rfl⟩⟩

/-- C23 (amended): for a property that was built and whose items do not carry both a
single schema and a list of schemas: when its schema is not a reference and the
resolved type is a tuple with `N` tuple types, the property has `N` item children,
`ItemsLen = N` and `SingleSchemaSlice = false`; when its schema is not a reference and
the resolved type is an array whose element type is not the interface, the property has
one item child and `SingleSchemaSlice = true`; and a property whose schema has no items
of its own has no item child and `SingleSchemaSlice = false`, whatever its resolved
type. -/
theorem makeGenModelProperty_items (x : Externals) (fuel : Nat)
    (params : propGenBuildParams) (gmp : genModelProperty)
    (h : makeGenModelProperty x fuel params = Res.ok gmp)
    (hOne : ∀ items, params.Schema.Items = some items →
      items.Schema = none ∨ items.Schemas = []) :
    (params.Schema.Ref = none → gmp.sharedParam.T.IsTuple = true →
        gmp.Items.length = gmp.sharedParam.T.TupleTypes.length ∧
        gmp.ItemsLen = gmp.sharedParam.T.TupleTypes.length ∧
        gmp.SingleSchemaSlice = false) ∧
      (params.Schema.Ref = none → gmp.sharedParam.T.IsArray = true →
        ∀ e, gmp.sharedParam.T.ElementType = some e → e.IsInterface = false →
          gmp.Items.length = 1 ∧ gmp.ItemsLen = 1 ∧ gmp.SingleSchemaSlice = true) ∧
      (params.Schema.Items = none →
        gmp.Items = [] ∧ gmp.ItemsLen = 0 ∧ gmp.SingleSchemaSlice = false) := by
  obtain ⟨n, tpe, built, ai, _, htpe, hbuilt, _, rfl⟩ := makeGenModelProperty_ok h
  refine ⟨?_, ?_, ?_⟩
  · intro hRef hT
    have hT' : tpe.IsTuple = true := hT
    obtain ⟨k, _, harr⟩ :=
      ResolveSchema_array_source x params.TypeResolver n params.Schema false tpe hRef htpe
        (Or.inl hT')
    obtain ⟨items, hItems, hne, hlen⟩ := resolveArray_tuple harr hT'
    have hNone : items.Schema = none := by
      rcases hOne items hItems with h1 | h1
      · exact h1
      · exact absurd h1 hne
    have hb := buildItems_list hItems hNone hbuilt
    have hss : singleSchemaSlice params.Schema = false := by
      unfold singleSchemaSlice
      rw [hItems]
      simp only [hNone]
      rfl
    refine ⟨?_, ?_, hss⟩
    · show built.length = tpe.TupleTypes.length
      rw [hb, hlen]
    · show built.length = tpe.TupleTypes.length
      rw [hb, hlen]
  · intro hRef hA e he hne
    have hA' : tpe.IsArray = true := hA
    have he' : tpe.ElementType = some e := he
    obtain ⟨k, _, harr⟩ :=
      ResolveSchema_array_source x params.TypeResolver n params.Schema false tpe hRef htpe
        (Or.inr hA')
    have hss : singleSchemaSlice params.Schema = true := by
      rcases resolveArray_element harr hA' with ⟨_, hel⟩ | ⟨items, rt, hItems, hrt, hel⟩
      · rw [he'] at hel
        cases hel
        cases hne
      · unfold singleSchemaSlice
        rw [hItems]
        cases hs : items.Schema with
        | some el => simp only [hs]; rfl
        | none =>
          rw [hs] at hrt
          cases k with
          | zero => cases hrt
          | succ j =>
            cases hrt
            rw [he'] at hel
            cases hel
            cases hne
    have hb := buildItems_single hss hbuilt
    exact ⟨hb, hb, hss⟩
  · intro hNone
    have hb := buildItems_none hNone hbuilt
    have hss : singleSchemaSlice params.Schema = false := by
      unfold singleSchemaSlice
      rw [hNone]
    refine ⟨hb, ?_, hss⟩
    show built.length = 0
    rw [hb]
    rfl

/-- C23 (amended) at the property `tags` of `Pet`, an array of strings: one item
child. -/
theorem makeGenModelProperty_items_witness :
    ∃ gmp, makeGenModelProperty localExternals 3 (sampleParams "tags" stringArraySchema false)
        = Res.ok gmp ∧
      gmp.sharedParam.T = stringArrayType ∧
      gmp.Items.length = 1 ∧ gmp.ItemsLen = 1 ∧ gmp.SingleSchemaSlice = true :=
  ⟨_, rfl, rfl,
    (makeGenModelProperty_items localExternals 3 (sampleParams "tags" stringArraySchema false)
      _ rfl
      (fun items hItems => by
        have hI : (sampleParams "tags" stringArraySchema false).Schema.Items
            = some { Schema := some (typed "string"), Schemas := [] } := rfl
        rw [hI] at hItems
        cases hItems
        exact Or.inr rfl)).2.1 rfl rfl stringType rfl rfl⟩

end Generator
